import Mathlib

/-!
Verification of the `benort` workspace package storage engine
(`src/benort/package.py`) against its natural-language specification.

The SQLite-backed store is shallowly embedded: each table is a Lean list of
rows, SQL upserts/deletes become list operations that mirror the statement
semantics (ON CONFLICT upserts update the conflicting row in place, inserts
append in rowid order, DELETE filters), and `json.dumps`/`json.loads` round
trips are modelled by storing the structured value itself together with an
explicit serializability check (`json.dumps` raises on values that are not
JSON-representable, which the embedding represents with the `vopaque`
constructor).  Timestamps (`time.time()`, SQLite REAL columns) are modelled
as rationals, and every operation that reads the clock or generates a UUID
takes the clock value / fresh-identifier supply as an explicit argument.
-/

namespace Benort

/-- Model of a dynamically typed Python value as it appears in the payloads
handled by `package.py`: JSON scalars, lists and string-keyed dicts, plus
`vopaque`, which stands for any Python object that `json.dumps` cannot
serialize (numbers are modelled as integers and rationals; Python float
`repr` formatting is abstracted). -/
inductive PyVal where
  | vnull : PyVal
  | vbool : Bool → PyVal
  | vint : Int → PyVal
  | vnum : ℚ → PyVal
  | vstr : String → PyVal
  | varr : List PyVal → PyVal
  | vobj : List (String × PyVal) → PyVal
  | vopaque : String → PyVal
deriving Repr

open PyVal

/-- Python truthiness (`bool(x)`) for the modelled values. -/
def pyTruthy : PyVal → Bool
  | vnull => false
  | vbool b => b
  | vint n => n != 0
  | vnum q => q != 0
  | vstr s => s ≠ ""
  | varr xs => !xs.isEmpty
  | vobj fs => !fs.isEmpty
  | vopaque _ => true

/-- Python `x or y`: evaluates to `x` when `x` is truthy, else `y`. -/
def pyOr (x y : PyVal) : PyVal :=
  if pyTruthy x then x else y

/-- ASCII whitespace as stripped by Python `str.strip()` (further Unicode
whitespace is abstracted away). -/
def isPySpace (c : Char) : Bool :=
  c = ' ' || c = '\t' || c = '\n' || c = '\r' || c = '\x0b' || c = '\x0c'

/-- Python `str.strip()`: drop leading and trailing whitespace. -/
def pyStrip (s : String) : String :=
  ⟨((s.data.dropWhile isPySpace).reverse.dropWhile isPySpace).reverse⟩

mutual

/-- Python `repr()` on the modelled values.  String quoting/escaping and
float formatting are abstracted; the storage layer only applies `str()` to
values that are already strings in every claim considered here. -/
def pyRepr : PyVal → String
  | vnull => "None"
  | vbool true => "True"
  | vbool false => "False"
  | vint n => toString n
  | vnum q => toString q
  | vstr s => "\x27" ++ s ++ "\x27"
  | varr xs => "[" ++ pyReprList xs ++ "]"
  | vobj fs => "\x7b" ++ pyReprFields fs ++ "\x7d"
  | vopaque t => t

/-- Comma-separated `repr` of list elements. -/
def pyReprList : List PyVal → String
  | [] => ""
  | [x] => pyRepr x
  | x :: xs => pyRepr x ++ ", " ++ pyReprList xs

/-- Comma-separated `repr` of dict items. -/
def pyReprFields : List (String × PyVal) → String
  | [] => ""
  | [(k, v)] => "\x27" ++ k ++ "\x27: " ++ pyRepr v
  | (k, v) :: fs => "\x27" ++ k ++ "\x27: " ++ pyRepr v ++ ", " ++ pyReprFields fs

end

/-- Python `str()` coercion. -/
def pyStr : PyVal → String
  | vstr s => s
  | v => pyRepr v

mutual

/-- Whether `json.dumps` succeeds on the value (`_serialize` in
`package.py` raises exactly on non-JSON-serializable values). -/
def serializable : PyVal → Bool
  | vnull => true
  | vbool _ => true
  | vint _ => true
  | vnum _ => true
  | vstr _ => true
  | varr xs => serializableList xs
  | vobj fs => serializableFields fs
  | vopaque _ => false

/-- All elements of a list are serializable. -/
def serializableList : List PyVal → Bool
  | [] => true
  | x :: xs => serializable x && serializableList xs

/-- All values of a dict are serializable. -/
def serializableFields : List (String × PyVal) → Bool
  | [] => true
  | (_, v) :: fs => serializable v && serializableFields fs

end

/-- Lookup of the first entry with the given key (Python dicts have unique
keys; SQL `fetchone` takes the first row in rowid order). -/
def getEntry (fs : List (String × α)) (k : String) : Option α :=
  match fs with
  | [] => none
  | (k2, v) :: rest => if k2 = k then some v else getEntry rest k

/-- Python `dict.get(k)`: `None` when the key is absent. -/
def getD (fs : List (String × PyVal)) (k : String) : PyVal :=
  (getEntry fs k).getD vnull

/-- Python `d[k] = v` / SQL upsert keyed on `k`: update the first matching
entry in place, else append.  (`ON CONFLICT ... DO UPDATE` keeps the rowid
of the conflicting row, so table order is preserved on update.) -/
def setItem (fs : List (String × α)) (k : String) (v : α) : List (String × α) :=
  match fs with
  | [] => [(k, v)]
  | (k2, v2) :: rest => if k2 = k then (k, v) :: rest else (k2, v2) :: setItem rest k v

/-- SQL `DELETE ... WHERE key = k`: removes every matching row. -/
def delAll (fs : List (String × α)) (k : String) : List (String × α) :=
  fs.filter (fun kv => kv.1 ≠ k)

/-- Python dict-comprehension map building (`{row[k]: v for row in rows}`):
the last row with the key wins. -/
def lookupLast (fs : List (String × α)) (k : String) : Option α :=
  fs.foldl (fun acc kv => if kv.1 = k then some kv.2 else acc) none

/-- `_dedupe_preserve`: drop duplicates, keeping first occurrences in
order. -/
def dedupePreserve (items : List String) : List String :=
  go items []
where
  /-- Worker carrying the set of names already seen. -/
  go : List String → List String → List String
  | [], _ => []
  | x :: xs, seen => if x ∈ seen then go xs seen else x :: go xs (x :: seen)

/-- `_normalize_resource_list`: keep only strings, strip them, drop empties,
dedupe preserving order.  A string/bytes argument is explicitly treated as
empty; iterating a dict yields its keys; non-iterables yield `[]` via the
`TypeError` branch. -/
def normalizeResourceList (v : PyVal) : List String :=
  let iterable : List PyVal :=
    match v with
    | vnull => []
    | vstr _ => []
    | varr xs => xs
    | vobj fs => fs.map (fun kv => vstr kv.1)
    | _ => []
  let cleaned := iterable.filterMap (fun x =>
    match x with
    | vstr s => let n := pyStrip s; if n = "" then none else some n
    | _ => none)
  dedupePreserve cleaned

/-- `_coerce_bib_entries`: wrap a bare string argument as a one-element
list, iterate lists (and dict keys), keep dict entries as (copied) dicts,
wrap bare string entries as `{entry: s}`, drop everything else. -/
def coerceBibEntries (v : PyVal) : List PyVal :=
  let iterable : List PyVal :=
    match v with
    | vnull => []
    | vstr s => [vstr s]
    | varr xs => xs
    | vobj fs => fs.map (fun kv => vstr kv.1)
    | _ => []
  iterable.filterMap (fun e =>
    match e with
    | vobj fs => some (vobj fs)
    | vstr s => some (vobj [("entry", vstr s)])
    | _ => none)

/-- The six core page fields (`_PAGE_CORE_FIELDS`, plus `pageId` which the
normalizer always sets). -/
def pageCoreFields : List String := ["pageId", "content", "script", "notes", "resources", "bib"]

/-- A normalized page as produced by `_normalize_page_payload`: the six
core fields plus the extra fields appended in payload order (skipping keys
already present, which also deduplicates). -/
structure NormPage where
  pageId : String
  content : String
  script : String
  notes : String
  resources : List String
  bib : List PyVal
  extras : List (String × PyVal)
deriving Repr

/-- `_normalize_page_payload`: a bare string becomes `{content: s}`, a dict
is copied, anything else becomes `{}`; the id is
`str(get("pageId") or get("id") or "").strip()` with `freshId`
(a generated uuid in the source) substituted when that is blank;
content/script/notes are `str(x or "")`; resources and bib are cleaned;
extra fields are carried over in order. -/
def normalizePagePayload (freshId : String) (page : PyVal) : NormPage :=
  let payload : List (String × PyVal) :=
    match page with
    | vstr s => [("content", vstr s)]
    | vobj fs => fs
    | _ => []
  let rawId := pyStrip (pyStr (pyOr (getD payload "pageId") (pyOr (getD payload "id") (vstr ""))))
  let pageId := if rawId = "" then freshId else rawId
  { pageId := pageId
    content := pyStr (pyOr (getD payload "content") (vstr ""))
    script := pyStr (pyOr (getD payload "script") (vstr ""))
    notes := pyStr (pyOr (getD payload "notes") (vstr ""))
    resources := normalizeResourceList (getD payload "resources")
    bib := coerceBibEntries (getD payload "bib")
    extras := payload.foldl (fun acc kv =>
      if kv.1 ∈ pageCoreFields ∨ acc.any (fun e => e.1 = kv.1) then acc
      else acc ++ [kv]) [] }

/-- A row of the `page_latex` table (`page_id` primary key, ordinal `idx`,
JSON `meta` blob, body text). -/
structure LatexRow where
  pageId : String
  idx : Int
  meta : PyVal
  content : String
deriving Repr

/-- A row of the `attachments`/`resource_files` tables.  The binary payload
is modelled as an opaque string; `metadata` stores the parsed JSON value
(`vnull` for SQL NULL). -/
structure AssetRow where
  id : String
  name : String
  pageId : Option String
  mime : Option String
  data : String
  metadata : PyVal
  updatedAt : ℚ
deriving Repr

/-- A row of the `learning_records` table.  `input`, `context`, prompt and
output columns hold whatever value the caller bound (SQL bind-type errors
for exotic values are not modelled); `favorite` is the 0/1 flag as a Bool;
`reviewState` is the parsed JSON value when the column is non-NULL. -/
structure LearningRecordRow where
  id : String
  input : PyVal
  context : PyVal
  promptId : PyVal
  promptName : PyVal
  method : Option String
  category : Option String
  favorite : Bool
  output : PyVal
  reviewState : Option PyVal
  savedAt : ℚ
deriving Repr

/-- A row of the `learning_prompts` table. -/
structure PromptRow where
  id : String
  data : PyVal
  removed : Bool
deriving Repr

/-- A row of the legacy `pages` table (pre-migration layout, one JSON blob
per page; the blob is stored parsed, so only well-formed JSON text is
representable). -/
structure LegacyPageRow where
  id : String
  idx : Int
  data : PyVal
deriving Repr

/-- A row of the legacy `assets` table. -/
structure LegacyAssetRow where
  id : String
  name : String
  scope : String
  pageId : Option String
  mime : Option String
  data : String
  metadata : PyVal
  updatedAt : ℚ
deriving Repr

/-- Presence flags for the optional `learning_records` columns added by
`_ensure_learning_record_columns`. -/
structure LearningRecordCols where
  method : Bool
  category : Bool
  favorite : Bool
  reviewState : Bool
deriving Repr

/-- Presence flags for the optional `page_latex` columns added by
`_ensure_page_latex_columns`. -/
structure PageLatexCols where
  idx : Bool
  meta : Bool
deriving Repr

/-- The state of one `.benort` SQLite file as seen through the same
connection: every table is the list of its rows in rowid order.  The
legacy `pages`/`assets` tables are `Option` because migrations test their
existence (`pages` is dropped after draining). -/
structure Store where
  meta : List (String × PyVal)
  pageLatex : List LatexRow
  pageMarkdown : List (String × String)
  pageNotes : List (String × String)
  pageResources : List (String × List String)
  pageReferences : List (String × List PyVal)
  projectResources : List String
  projectReferences : List PyVal
  templates : List (String × PyVal)
  learningPrompts : List PromptRow
  learningRecords : List LearningRecordRow
  attachments : List AssetRow
  resourceFiles : List AssetRow
  legacyPages : Option (List LegacyPageRow)
  legacyAssets : Option (List LegacyAssetRow)
  lrCols : LearningRecordCols
  plCols : PageLatexCols
deriving Repr

/-- The empty store (all core tables created empty, no legacy tables, all
optional columns present — a freshly created database file). -/
def Store.empty : Store :=
  { meta := [], pageLatex := [], pageMarkdown := [], pageNotes := []
    pageResources := [], pageReferences := [], projectResources := []
    projectReferences := [], templates := [], learningPrompts := []
    learningRecords := [], attachments := [], resourceFiles := []
    legacyPages := none, legacyAssets := none
    lrCols := ⟨true, true, true, true⟩, plCols := ⟨true, true⟩ }

/-- `_upsert_page_latex` after a successful `_serialize(meta)`. -/
def upsertPageLatexRow (rows : List LatexRow) (pid : String) (idx : Int)
    (meta : PyVal) (content : String) : List LatexRow :=
  match rows with
  | [] => [⟨pid, idx, meta, content⟩]
  | r :: rest =>
    if r.pageId = pid then ⟨pid, idx, meta, content⟩ :: rest
    else r :: upsertPageLatexRow rest pid idx meta content

/-- `_rewrite_page_resources`: delete the page's rows, then insert the new
ordered rows (appended at the end of the table). -/
def rewritePageResources (tbl : List (String × List String)) (pid : String)
    (resources : List String) : List (String × List String) :=
  let t := delAll tbl pid
  if resources.isEmpty then t else t ++ [(pid, resources)]

/-- `_rewrite_page_references`: delete the page's rows, then insert one row
per serialized entry.  `executemany` serializes lazily, so on the first
non-serializable entry the rows inserted so far remain and the statement
raises (second component `false`). -/
def rewritePageReferences (tbl : List (String × List PyVal)) (pid : String)
    (entries : List PyVal) : List (String × List PyVal) × Bool :=
  let t := delAll tbl pid
  let good := entries.takeWhile serializable
  ((if good.isEmpty then t else t ++ [(pid, good)]), good.length = entries.length)

/-- Python `enumerate(xs, start)`. -/
def enumerate (start : Nat) : List α → List (Nat × α)
  | [] => []
  | x :: xs => (start, x) :: enumerate (start + 1) xs

/-- Stable insertion by a key into a linear order (used to model SQL
`ORDER BY`). -/
def insertByKey [LinearOrder κ] (key : α → κ) (a : α) : List α → List α
  | [] => [a]
  | b :: t => if key a ≤ key b then a :: b :: t else b :: insertByKey key a t

/-- Stable sort by key, modelling SQL `ORDER BY key ASC`. -/
def sortByKey [LinearOrder κ] (key : α → κ) (l : List α) : List α :=
  l.foldr (insertByKey key) []

/-- `_extract_page_meta` on a normalized payload: exactly the extra
fields. -/
def extractPageMeta (n : NormPage) : List (String × PyVal) := n.extras

/-- The per-page loop body of `save_pages` plus error propagation: upsert
body/ordinal/meta (raising before any write when the extras blob is not
serializable), upsert notes into `page_markdown`, script into `page_notes`,
rewrite resource and reference child rows.  Returns the connection state
reached and whether all statements succeeded — there is no rollback in the
source, so on failure the writes made so far remain. -/
def savePagesGo (st : Store) : List (Nat × NormPage) → Store × Bool
  | [] => (st, true)
  | (i, n) :: rest =>
    if serializableFields n.extras then
      let st := { st with pageLatex := upsertPageLatexRow st.pageLatex n.pageId i (vobj n.extras) n.content }
      let st := { st with pageMarkdown := setItem st.pageMarkdown n.pageId n.notes }
      let st := { st with pageNotes := setItem st.pageNotes n.pageId n.script }
      let st := { st with pageResources := rewritePageResources st.pageResources n.pageId n.resources }
      let (refs, ok) := rewritePageReferences st.pageReferences n.pageId n.bib
      let st := { st with pageReferences := refs }
      if ok then savePagesGo st rest else (st, false)
    else (st, false)

/-- Delete every companion row of the given page ids across all five page
tables (the orphan-deletion step of `save_pages`). -/
def deletePageRows (st : Store) (doomed : List String) : Store :=
  { st with
    pageLatex := st.pageLatex.filter (fun r => r.pageId ∉ doomed)
    pageMarkdown := st.pageMarkdown.filter (fun r => r.1 ∉ doomed)
    pageNotes := st.pageNotes.filter (fun r => r.1 ∉ doomed)
    pageResources := st.pageResources.filter (fun r => r.1 ∉ doomed)
    pageReferences := st.pageReferences.filter (fun r => r.1 ∉ doomed) }

/-- The normalization pass at the head of `save_pages`: each input page at
its position, normalized with a fresh id drawn at that position. -/
def normalizedPages (pages : List PyVal) (fresh : Nat → String) : List (Nat × NormPage) :=
  (enumerate 0 pages).map (fun p => (p.1, normalizePagePayload (fresh p.1) p.2))

/-- `BenortPackage.save_pages`: normalize all input pages (fresh ids drawn
from `fresh` at the page's input position), then inside one transaction
upsert every desired page at its new ordinal and finally delete all
companion rows of ids that were present before but are absent from the
desired set.  The second component is `false` when a statement raised; the
returned store is then the unrolled-back connection state. -/
def savePages (st : Store) (pages : List PyVal) (fresh : Nat → String) : Store × Bool :=
  let normalized := normalizedPages pages fresh
  let existingIds := st.pageLatex.map (fun r => r.pageId)
  let (st1, ok) := savePagesGo st normalized
  if ok then
    let desiredIds := normalized.map (fun p => p.2.pageId)
    (deletePageRows st1 (existingIds.filter (fun pid => pid ∉ desiredIds)), true)
  else (st1, false)

/-- One page as returned by `list_pages` (`PageRecord`). -/
structure PageRec where
  pageId : String
  order : Int
  payload : List (String × PyVal)
deriving Repr

/-- All child-row values for one page id, in `ORDER BY page_id, position`
order (each table entry is one insertion batch, already in position
order). -/
def childRowsFor (tbl : List (String × List β)) (pid : String) : List β :=
  (tbl.filter (fun e => e.1 = pid)).foldr (fun e acc => e.2 ++ acc) []

/-- All `name` values of `page_resources` rows for a page. -/
def pageResourcesFor (tbl : List (String × List String)) (pid : String) : List String :=
  childRowsFor tbl pid

/-- All `data` values of `page_references` rows for a page. -/
def pageReferencesFor (tbl : List (String × List PyVal)) (pid : String) : List PyVal :=
  childRowsFor tbl pid

/-- `BenortPackage.list_pages`: read `page_latex` ordered by
`(idx, page_id)`, join the companion tables, rebuild each payload from the
meta blob and overwrite/append the core fields; stored reference entries
that are bare strings are wrapped as `{entry: s}`. -/
def listPages (st : Store) : List PageRec :=
  let rows := sortByKey (fun r : LatexRow => toLex (r.idx, r.pageId)) st.pageLatex
  rows.map (fun r =>
    let p0 : List (String × PyVal) := match r.meta with | vobj fs => fs | _ => []
    let p1 := setItem p0 "pageId" (pyOr (getD p0 "pageId") (vstr r.pageId))
    let p2 := setItem p1 "content" (vstr (if r.content = "" then "" else r.content))
    let p3 := setItem p2 "notes" (vstr ((lookupLast st.pageMarkdown r.pageId).getD ""))
    let p4 := setItem p3 "script" (vstr ((lookupLast st.pageNotes r.pageId).getD ""))
    let p5 := setItem p4 "resources" (varr ((pageResourcesFor st.pageResources r.pageId).map vstr))
    let refs := (pageReferencesFor st.pageReferences r.pageId).filterMap (fun e =>
      match e with
      | vobj fs => some (vobj fs)
      | vstr s => some (vobj [("entry", vstr s)])
      | _ => none)
    let p6 := setItem p5 "bib" (varr refs)
    { pageId := r.pageId, order := r.idx, payload := p6 })

/-! Generic list lemmas used to reason about keyed tables and `ORDER BY`. -/

/-- First element whose key equals `k` (the semantics of
`SELECT ... WHERE key = k ... fetchone` on a table in rowid order). -/
def findByKey [DecidableEq κ] (key : α → κ) (k : κ) : List α → Option α
  | [] => none
  | a :: t => if key a = k then some a else findByKey key k t

theorem findByKey_eq_none [DecidableEq κ] (key : α → κ) (k : κ) (l : List α)
    (h : k ∉ l.map key) : findByKey key k l = none := by
  induction l with
  | nil => rfl
  | cons a t ih =>
    simp only [List.map_cons, List.mem_cons] at h
    push_neg at h
    simp [findByKey, Ne.symm h.1, ih h.2]

theorem findByKey_mem [DecidableEq κ] (key : α → κ) (k : κ) (l : List α) (a : α)
    (h : findByKey key k l = some a) : a ∈ l ∧ key a = k := by
  induction l with
  | nil => simp [findByKey] at h
  | cons b t ih =>
    by_cases hb : key b = k
    · simp [findByKey, hb] at h
      exact ⟨by simp [← h], h ▸ hb⟩
    · simp [findByKey, hb] at h
      obtain ⟨h1, h2⟩ := ih h
      exact ⟨List.mem_cons_of_mem _ h1, h2⟩

theorem findByKey_append [DecidableEq κ] (key : α → κ) (k : κ) (u v : List α) :
    findByKey key k (u ++ v) =
      match findByKey key k u with
      | some a => some a
      | none => findByKey key k v := by
  induction u with
  | nil => simp [findByKey]
  | cons b t ih =>
    by_cases hb : key b = k
    · simp [findByKey, hb]
    · simp [findByKey, hb, ih]

/-- Two lists with duplicate-free keys and identical key lookups are
permutations of each other. -/
theorem perm_of_findByKey_eq [DecidableEq κ] (key : α → κ) :
    ∀ (l1 l2 : List α), (l1.map key).Nodup → (l2.map key).Nodup →
    (∀ k, findByKey key k l1 = findByKey key k l2) → l1.Perm l2
  | [], l2, _, _, h => by
    cases l2 with
    | nil => exact List.Perm.refl _
    | cons b t =>
      have hb := h (key b)
      simp [findByKey] at hb
  | a :: t, l2, h1, h2, h => by
    have ha := h (key a)
    simp only [findByKey, if_pos rfl] at ha
    obtain ⟨hm, -⟩ := findByKey_mem key (key a) l2 a ha.symm
    obtain ⟨u, v, rfl⟩ := List.append_of_mem hm
    rw [List.map_cons, List.nodup_cons] at h1
    have h2m : (key a :: ((u ++ v).map key)).Nodup := by
      have := (@List.nodup_middle _ (key a) (u.map key) (v.map key)).mp (by
        simpa [List.map_append] using h2)
      simpa [List.map_append] using this
    rw [List.nodup_cons] at h2m
    have hufree : ∀ b ∈ u, key b ≠ key a := by
      intro b hb hkb
      exact h2m.1 (by
        rw [List.map_append, List.mem_append]
        exact Or.inl (hkb ▸ List.mem_map_of_mem key hb))
    have htail : t.Perm (u ++ v) := by
      refine perm_of_findByKey_eq key t (u ++ v) h1.2 h2m.2 ?_
      intro k
      by_cases hk : k = key a
      · subst hk
        rw [findByKey_eq_none key _ t h1.1, findByKey_eq_none key _ (u ++ v) h2m.1]
      · have hx := h k
        simp only [findByKey, if_neg (fun hh : key a = k => hk hh.symm)] at hx
        rw [hx, findByKey_append, findByKey_append]
        simp only [findByKey, if_neg (fun hh : key a = k => hk hh.symm)]
    exact (htail.cons a).trans List.perm_middle.symm

theorem insertByKey_perm [LinearOrder κ] (key : α → κ) (a : α) (l : List α) :
    (insertByKey key a l).Perm (a :: l) := by
  induction l with
  | nil => simp [insertByKey]
  | cons b t ih =>
    by_cases hb : key a ≤ key b
    · simp [insertByKey, hb]
    · simp only [insertByKey, if_neg hb]
      exact (ih.cons b).trans (List.Perm.swap a b t)

theorem sortByKey_perm [LinearOrder κ] (key : α → κ) (l : List α) :
    (sortByKey key l).Perm l := by
  induction l with
  | nil => exact List.Perm.refl _
  | cons a t ih =>
    exact ((insertByKey_perm key a (sortByKey key t)).trans (ih.cons a))

theorem insertByKey_pairwise [LinearOrder κ] (key : α → κ) (a : α) (l : List α)
    (h : l.Pairwise (fun x y => key x ≤ key y)) :
    (insertByKey key a l).Pairwise (fun x y => key x ≤ key y) := by
  induction l with
  | nil => simp [insertByKey]
  | cons b t ih =>
    rw [List.pairwise_cons] at h
    by_cases hb : key a ≤ key b
    · rw [insertByKey, if_pos hb, List.pairwise_cons]
      refine ⟨?_, List.pairwise_cons.mpr h⟩
      intro x hx
      rcases List.mem_cons.mp hx with rfl | hx
      · exact hb
      · exact le_trans hb (h.1 x hx)
    · rw [insertByKey, if_neg hb, List.pairwise_cons]
      refine ⟨?_, ih h.2⟩
      intro x hx
      rcases List.mem_cons.mp ((insertByKey_perm key a t).mem_iff.mp hx) with rfl | hxt
      · exact le_of_not_le hb
      · exact h.1 x hxt

theorem sortByKey_pairwise [LinearOrder κ] (key : α → κ) (l : List α) :
    (sortByKey key l).Pairwise (fun x y => key x ≤ key y) := by
  induction l with
  | nil => simp [sortByKey]
  | cons a t ih => exact insertByKey_pairwise key a _ ih

/-- A permutation between two lists that are both strictly sorted on their
keys is an equality. -/
theorem eq_of_perm_of_keySorted [LinearOrder κ] (key : α → κ) :
    ∀ (l1 l2 : List α), l1.Perm l2 →
    l1.Pairwise (fun x y => key x < key y) →
    l2.Pairwise (fun x y => key x < key y) → l1 = l2
  | [], l2, hp, _, _ => (hp.nil_eq).symm ▸ rfl
  | a :: t, l2, hp, h1, h2 => by
    cases l2 with
    | nil => exact absurd hp.symm.nil_eq (by simp)
    | cons b u =>
      rw [List.pairwise_cons] at h1 h2
      have hab : a = b := by
        by_contra hne
        have hbmem : b ∈ a :: t := hp.symm.subset (by simp)
        have hamem : a ∈ b :: u := hp.subset (by simp)
        rcases List.mem_cons.mp hbmem with rfl | hbt
        · exact hne rfl
        rcases List.mem_cons.mp hamem with rfl | hau
        · exact hne rfl
        exact absurd (h1.1 b hbt) (not_lt_of_lt (h2.1 a hau))
      subst hab
      have := eq_of_perm_of_keySorted key t u (hp.cons_inv) h1.2 h2.2
      rw [this]

/-- Strictly-sorted-on-keys follows from sorted plus duplicate-free keys. -/
theorem pairwise_lt_of_pairwise_le [LinearOrder κ] (key : α → κ) (l : List α)
    (h : l.Pairwise (fun x y => key x ≤ key y)) (hn : (l.map key).Nodup) :
    l.Pairwise (fun x y => key x < key y) := by
  induction l with
  | nil => simp
  | cons a t ih =>
    rw [List.pairwise_cons] at h ⊢
    rw [List.map_cons, List.nodup_cons] at hn
    refine ⟨?_, ih h.2 hn.2⟩
    intro x hx
    exact lt_of_le_of_ne (h.1 x hx) (fun he => hn.1 (he ▸ List.mem_map_of_mem key hx))

/-- `sortByKey` of any permutation of a strictly-key-sorted target equals
the target. -/
theorem sortByKey_eq_of_perm [LinearOrder κ] (key : α → κ) (l target : List α)
    (hp : l.Perm target) (hs : target.Pairwise (fun x y => key x < key y)) :
    sortByKey key l = target := by
  have hperm : (sortByKey key l).Perm target := (sortByKey_perm key l).trans hp
  have hnodup : (target.map key).Nodup := by
    have : (target.map key).Pairwise (· < ·) := List.Pairwise.map key (fun _ _ h => h) hs
    exact this.imp (fun h => ne_of_lt h)
  have hns : ((sortByKey key l).map key).Nodup := (hperm.map key).nodup_iff.mpr hnodup
  exact eq_of_perm_of_keySorted key _ _ hperm
    (pairwise_lt_of_pairwise_le key _ (sortByKey_pairwise key l) hns) hs

/-! Lemmas about keyed upserts (`setItem`, `upsertPageLatexRow`), lookups
and deletions, building towards the `save_pages`/`list_pages` round trip. -/

theorem getEntry_eq_none (l : List (String × α)) (k : String)
    (h : ∀ e ∈ l, e.1 ≠ k) : getEntry l k = none := by
  induction l with
  | nil => rfl
  | cons e t ih =>
    rw [getEntry, if_neg (h e (by simp))]
    exact ih (fun x hx => h x (by simp [hx]))

theorem setItem_of_not_mem (l : List (String × α)) (k : String) (v : α)
    (h : ∀ e ∈ l, e.1 ≠ k) : setItem l k v = l ++ [(k, v)] := by
  induction l with
  | nil => rfl
  | cons e t ih =>
    rw [setItem, if_neg (h e (by simp)), ih (fun x hx => h x (by simp [hx]))]
    rfl

theorem setItem_findByKey_self (l : List (String × α)) (k : String) (v : α) :
    findByKey (fun e => e.1) k (setItem l k v) = some (k, v) := by
  induction l with
  | nil => simp [setItem, findByKey]
  | cons e t ih =>
    by_cases he : e.1 = k
    · simp [setItem, he, findByKey]
    · simp [setItem, he, findByKey, ih]

theorem setItem_findByKey_other (l : List (String × α)) (k q : String) (v : α)
    (h : q ≠ k) : findByKey (fun e => e.1) q (setItem l k v) = findByKey (fun e => e.1) q l := by
  induction l with
  | nil => simp [setItem, findByKey, Ne.symm h]
  | cons e t ih =>
    obtain ⟨e1, e2⟩ := e
    by_cases he : e1 = k
    · by_cases heq : e1 = q
      · exact absurd (heq.symm.trans he) h
      · simp [setItem, he, findByKey, Ne.symm h, heq]
    · by_cases heq : e1 = q
      · simp [setItem, he, findByKey, heq, h]
      · simp [setItem, he, findByKey, heq, ih]

theorem setItem_map_fst (l : List (String × α)) (k : String) (v : α) :
    (setItem l k v).map Prod.fst =
      if k ∈ l.map Prod.fst then l.map Prod.fst else l.map Prod.fst ++ [k] := by
  induction l with
  | nil => simp [setItem]
  | cons e t ih =>
    by_cases he : e.1 = k
    · simp [setItem, he]
    · simp only [setItem, if_neg he, List.map_cons, ih]
      by_cases hk : k ∈ t.map Prod.fst
      · simp [hk, Ne.symm he]
      · simp [hk, Ne.symm he]

theorem setItem_nodup_fst (l : List (String × α)) (k : String) (v : α)
    (h : (l.map Prod.fst).Nodup) : ((setItem l k v).map Prod.fst).Nodup := by
  rw [setItem_map_fst]
  by_cases hk : k ∈ l.map Prod.fst
  · simpa [hk] using h
  · rw [if_neg hk]
    exact h.append (List.nodup_singleton k)
      (fun a ha hb => hk ((List.mem_singleton.mp hb) ▸ ha))

theorem foldl_lookup_skip (l : List (String × α)) (k : String) (acc : Option α)
    (h : ∀ e ∈ l, e.1 ≠ k) :
    l.foldl (fun a kv => if kv.1 = k then some kv.2 else a) acc = acc := by
  induction l generalizing acc with
  | nil => rfl
  | cons e t ih =>
    simp only [List.foldl_cons, if_neg (h e (by simp))]
    exact ih acc (fun x hx => h x (by simp [hx]))

theorem lookupLast_eq_findByKey (l : List (String × α)) (k : String)
    (h : (l.map Prod.fst).Nodup) :
    lookupLast l k = (findByKey (fun e => e.1) k l).map Prod.snd := by
  induction l with
  | nil => rfl
  | cons e t ih =>
    rw [List.map_cons, List.nodup_cons] at h
    by_cases he : e.1 = k
    · have hnone : ∀ x ∈ t, (x : String × α).1 ≠ k := by
        intro x hx hxk
        exact h.1 (he ▸ hxk ▸ List.mem_map_of_mem Prod.fst hx)
      rw [lookupLast, List.foldl_cons, if_pos he, foldl_lookup_skip t k _ hnone,
        findByKey, if_pos he]
      rfl
    · rw [lookupLast, List.foldl_cons, if_neg he, findByKey, if_neg he]
      exact ih h.2

theorem upsertLatex_findByKey_self (rows : List LatexRow) (pid : String) (i : Int)
    (m : PyVal) (c : String) :
    findByKey (fun r : LatexRow => r.pageId) pid (upsertPageLatexRow rows pid i m c) =
      some ⟨pid, i, m, c⟩ := by
  induction rows with
  | nil => simp [upsertPageLatexRow, findByKey]
  | cons r t ih =>
    by_cases hr : r.pageId = pid
    · simp [upsertPageLatexRow, hr, findByKey]
    · simp [upsertPageLatexRow, hr, findByKey, ih]

theorem upsertLatex_findByKey_other (rows : List LatexRow) (pid q : String) (i : Int)
    (m : PyVal) (c : String) (h : q ≠ pid) :
    findByKey (fun r : LatexRow => r.pageId) q (upsertPageLatexRow rows pid i m c) =
      findByKey (fun r : LatexRow => r.pageId) q rows := by
  induction rows with
  | nil => simp [upsertPageLatexRow, findByKey, Ne.symm h]
  | cons r t ih =>
    by_cases hr : r.pageId = pid
    · by_cases hq : r.pageId = q
      · exact absurd (hq.symm.trans hr) h
      · simp [upsertPageLatexRow, hr, findByKey, Ne.symm h, hq]
    · by_cases hq : r.pageId = q
      · simp [upsertPageLatexRow, hr, findByKey, hq, h]
      · simp [upsertPageLatexRow, hr, findByKey, hq, ih]

theorem upsertLatex_map_pageId (rows : List LatexRow) (pid : String) (i : Int)
    (m : PyVal) (c : String) :
    (upsertPageLatexRow rows pid i m c).map (fun r => r.pageId) =
      if pid ∈ rows.map (fun r => r.pageId) then rows.map (fun r => r.pageId)
      else rows.map (fun r => r.pageId) ++ [pid] := by
  induction rows with
  | nil => simp [upsertPageLatexRow]
  | cons r t ih =>
    by_cases hr : r.pageId = pid
    · simp [upsertPageLatexRow, hr]
    · simp only [upsertPageLatexRow, if_neg hr, List.map_cons, ih]
      by_cases hk : pid ∈ t.map (fun r => r.pageId)
      · simp [hk, Ne.symm hr]
      · simp [hk, Ne.symm hr]

theorem upsertLatex_nodup (rows : List LatexRow) (pid : String) (i : Int)
    (m : PyVal) (c : String) (h : (rows.map (fun r => r.pageId)).Nodup) :
    ((upsertPageLatexRow rows pid i m c).map (fun r => r.pageId)).Nodup := by
  rw [upsertLatex_map_pageId]
  by_cases hk : pid ∈ rows.map (fun r => r.pageId)
  · simpa [hk] using h
  · rw [if_neg hk]
    exact h.append (List.nodup_singleton pid)
      (fun a ha hb => hk ((List.mem_singleton.mp hb) ▸ ha))

/-- The `page_latex` updates of the `save_pages` loop as a pure fold. -/
def latexGo (rows : List LatexRow) (L : List (Nat × NormPage)) : List LatexRow :=
  L.foldl (fun acc p => upsertPageLatexRow acc p.2.pageId (p.1 : Int) (vobj p.2.extras) p.2.content) rows

/-- The `page_markdown`/`page_notes` updates of the loop as a pure fold
(`f` selects the stored text). -/
def textGo (tbl : List (String × String)) (f : NormPage → String)
    (L : List (Nat × NormPage)) : List (String × String) :=
  L.foldl (fun acc p => setItem acc p.2.pageId (f p.2)) tbl

/-- The `page_resources` updates of the loop as a pure fold. -/
def resGo (tbl : List (String × List String)) (L : List (Nat × NormPage)) :
    List (String × List String) :=
  L.foldl (fun acc p => rewritePageResources acc p.2.pageId p.2.resources) tbl

/-- The `page_references` updates of the loop as a pure fold. -/
def refGo (tbl : List (String × List PyVal)) (L : List (Nat × NormPage)) :
    List (String × List PyVal) :=
  L.foldl (fun acc p => (rewritePageReferences acc p.2.pageId p.2.bib).1) tbl

theorem takeWhile_serializable_of_all (l : List PyVal) (h : serializableList l = true) :
    l.takeWhile serializable = l := by
  induction l with
  | nil => rfl
  | cons x t ih =>
    rw [serializableList, Bool.and_eq_true] at h
    simp [List.takeWhile_cons, h.1, ih h.2]

/-- On serializable input the per-page loop succeeds and acts independently
on the five page tables. -/
theorem savePagesGo_eq (st : Store) (L : List (Nat × NormPage))
    (h : ∀ p ∈ L, serializableFields p.2.extras = true ∧ serializableList p.2.bib = true) :
    savePagesGo st L =
      ({ st with
          pageLatex := latexGo st.pageLatex L
          pageMarkdown := textGo st.pageMarkdown (fun n => n.notes) L
          pageNotes := textGo st.pageNotes (fun n => n.script) L
          pageResources := resGo st.pageResources L
          pageReferences := refGo st.pageReferences L }, true) := by
  induction L generalizing st with
  | nil => simp [savePagesGo, latexGo, textGo, resGo, refGo]
  | cons p L' ih =>
    obtain ⟨hser, hbib⟩ := h p (by simp)
    have htake := takeWhile_serializable_of_all p.2.bib hbib
    have h2 : rewritePageReferences st.pageReferences p.2.pageId p.2.bib =
        ((if p.2.bib.isEmpty then delAll st.pageReferences p.2.pageId
          else delAll st.pageReferences p.2.pageId ++ [(p.2.pageId, p.2.bib)]), true) := by
      unfold rewritePageReferences
      rw [htake]
      simp
    rw [savePagesGo, if_pos hser]
    simp only [h2, if_true]
    rw [ih _ (fun q hq => h q (by simp [hq]))]
    simp only [latexGo, textGo, resGo, refGo, List.foldl_cons, h2]

/-! Characterization of the table folds: lookups after the `save_pages`
loop. -/

theorem latexGo_cons (rows : List LatexRow) (p : Nat × NormPage) (L : List (Nat × NormPage)) :
    latexGo rows (p :: L) =
      latexGo (upsertPageLatexRow rows p.2.pageId (p.1 : Int) (vobj p.2.extras) p.2.content) L := rfl

theorem textGo_cons (tbl : List (String × String)) (f : NormPage → String)
    (p : Nat × NormPage) (L : List (Nat × NormPage)) :
    textGo tbl f (p :: L) = textGo (setItem tbl p.2.pageId (f p.2)) f L := rfl

theorem resGo_cons (tbl : List (String × List String)) (p : Nat × NormPage)
    (L : List (Nat × NormPage)) :
    resGo tbl (p :: L) = resGo (rewritePageResources tbl p.2.pageId p.2.resources) L := rfl

theorem refGo_cons (tbl : List (String × List PyVal)) (p : Nat × NormPage)
    (L : List (Nat × NormPage)) :
    refGo tbl (p :: L) = refGo ((rewritePageReferences tbl p.2.pageId p.2.bib).1) L := rfl

theorem latexGo_findByKey_not_mem :
    ∀ (L : List (Nat × NormPage)) (rows : List LatexRow) (pid : String),
    pid ∉ L.map (fun p => p.2.pageId) →
    findByKey (fun r : LatexRow => r.pageId) pid (latexGo rows L) =
      findByKey (fun r : LatexRow => r.pageId) pid rows
  | [], _, _, _ => rfl
  | p :: L', rows, pid, h => by
    rw [List.map_cons, List.mem_cons] at h
    push_neg at h
    rw [latexGo_cons, latexGo_findByKey_not_mem L' _ pid h.2,
      upsertLatex_findByKey_other _ _ _ _ _ _ h.1]

theorem latexGo_findByKey_mem :
    ∀ (L : List (Nat × NormPage)) (rows : List LatexRow) (i : Nat) (n : NormPage),
    (L.map (fun p => p.2.pageId)).Nodup → (i, n) ∈ L →
    findByKey (fun r : LatexRow => r.pageId) n.pageId (latexGo rows L) =
      some ⟨n.pageId, (i : Int), vobj n.extras, n.content⟩
  | [], _, _, _, _, hmem => by simp at hmem
  | p :: L', rows, i, n, hnd, hmem => by
    rw [List.map_cons, List.nodup_cons] at hnd
    rcases List.mem_cons.mp hmem with he | hmem'
    · subst he
      rw [latexGo_cons, latexGo_findByKey_not_mem L' _ _ hnd.1]
      exact upsertLatex_findByKey_self _ _ _ _ _
    · rw [latexGo_cons]
      exact latexGo_findByKey_mem L' _ i n hnd.2 hmem'

theorem latexGo_nodup (L : List (Nat × NormPage)) (rows : List LatexRow)
    (h : (rows.map (fun r => r.pageId)).Nodup) :
    ((latexGo rows L).map (fun r => r.pageId)).Nodup := by
  induction L generalizing rows with
  | nil => exact h
  | cons p L' ih =>
    rw [latexGo_cons]
    exact ih _ (upsertLatex_nodup _ _ _ _ _ h)

theorem textGo_findByKey_not_mem :
    ∀ (L : List (Nat × NormPage)) (tbl : List (String × String)) (f : NormPage → String)
    (pid : String), pid ∉ L.map (fun p => p.2.pageId) →
    findByKey (fun e : String × String => e.1) pid (textGo tbl f L) =
      findByKey (fun e : String × String => e.1) pid tbl
  | [], _, _, _, _ => rfl
  | p :: L', tbl, f, pid, h => by
    rw [List.map_cons, List.mem_cons] at h
    push_neg at h
    rw [textGo_cons, textGo_findByKey_not_mem L' _ f pid h.2,
      setItem_findByKey_other _ _ _ _ h.1]

theorem textGo_findByKey_mem :
    ∀ (L : List (Nat × NormPage)) (tbl : List (String × String)) (f : NormPage → String)
    (i : Nat) (n : NormPage),
    (L.map (fun p => p.2.pageId)).Nodup → (i, n) ∈ L →
    findByKey (fun e : String × String => e.1) n.pageId (textGo tbl f L) =
      some (n.pageId, f n)
  | [], _, _, _, _, _, hmem => by simp at hmem
  | p :: L', tbl, f, i, n, hnd, hmem => by
    rw [List.map_cons, List.nodup_cons] at hnd
    rcases List.mem_cons.mp hmem with he | hmem'
    · subst he
      rw [textGo_cons, textGo_findByKey_not_mem L' _ _ _ hnd.1]
      exact setItem_findByKey_self _ _ _
    · rw [textGo_cons]
      exact textGo_findByKey_mem L' _ f i n hnd.2 hmem'

theorem textGo_nodup (L : List (Nat × NormPage)) (tbl : List (String × String))
    (f : NormPage → String) (h : (tbl.map Prod.fst).Nodup) :
    ((textGo tbl f L).map Prod.fst).Nodup := by
  induction L generalizing tbl with
  | nil => exact h
  | cons p L' ih =>
    rw [textGo_cons]
    exact ih _ (setItem_nodup_fst _ _ _ h)

theorem childRowsFor_cons (e : String × List β) (t : List (String × List β)) (q : String) :
    childRowsFor (e :: t) q = (if e.1 = q then e.2 else []) ++ childRowsFor t q := by
  by_cases he : e.1 = q
  · simp [childRowsFor, he]
  · simp [childRowsFor, he]

theorem delAll_cons (e : String × α) (t : List (String × α)) (k : String) :
    delAll (e :: t) k = if e.1 = k then delAll t k else e :: delAll t k := by
  by_cases he : e.1 = k
  · simp [delAll, he]
  · simp [delAll, he]

theorem childRowsFor_delAll (tbl : List (String × List β)) (pid q : String) :
    childRowsFor (delAll tbl pid) q = if q = pid then [] else childRowsFor tbl q := by
  induction tbl with
  | nil => by_cases hq : q = pid <;> simp [childRowsFor, delAll, hq]
  | cons e t ih =>
    rw [delAll_cons]
    by_cases he : e.1 = pid
    · rw [if_pos he, ih, childRowsFor_cons]
      by_cases hq : q = pid
      · simp [hq]
      · have : e.1 ≠ q := fun h => hq ((h ▸ he) : q = pid)
        simp [hq, this]
    · rw [if_neg he, childRowsFor_cons, ih, childRowsFor_cons]
      by_cases hq : q = pid
      · have : e.1 ≠ q := fun h => he (h.trans hq)
        simp [hq, this, he]
      · simp [hq]

theorem childRowsFor_append (tbl : List (String × List β)) (pid q : String) (xs : List β) :
    childRowsFor (tbl ++ [(pid, xs)]) q =
      childRowsFor tbl q ++ (if q = pid then xs else []) := by
  induction tbl with
  | nil =>
    by_cases hq : q = pid
    · simp [childRowsFor, hq]
    · have hne : pid ≠ q := fun h => hq h.symm
      simp [childRowsFor, hq, hne]
  | cons e t ih =>
    rw [List.cons_append, childRowsFor_cons, childRowsFor_cons, ih, List.append_assoc]

theorem childRowsFor_filter_doomed (tbl : List (String × List β)) (doomed : List String)
    (q : String) :
    childRowsFor (tbl.filter (fun e => e.1 ∉ doomed)) q =
      if q ∈ doomed then [] else childRowsFor tbl q := by
  induction tbl with
  | nil => by_cases hq : q ∈ doomed <;> simp [childRowsFor, hq]
  | cons e t ih =>
    rw [List.filter_cons]
    by_cases hd : e.1 ∈ doomed
    · rw [if_neg (by simpa using hd), ih, childRowsFor_cons]
      by_cases hq : q ∈ doomed
      · simp [hq]
      · have : e.1 ≠ q := fun h => hq (h ▸ hd)
        simp [hq, this]
    · rw [if_pos (by simpa using hd), childRowsFor_cons, ih, childRowsFor_cons]
      by_cases hq : q ∈ doomed
      · have : e.1 ≠ q := fun h => hd (h ▸ hq)
        simp [hq, this]
      · simp [hq]

theorem rewritePageResources_for (tbl : List (String × List String)) (pid q : String)
    (rs : List String) :
    childRowsFor (rewritePageResources tbl pid rs) q =
      if q = pid then rs else childRowsFor tbl q := by
  unfold rewritePageResources
  by_cases hrs : rs.isEmpty
  · rw [if_pos hrs, childRowsFor_delAll]
    by_cases hq : q = pid
    · rw [if_pos hq, if_pos hq, List.isEmpty_iff.mp hrs]
    · rw [if_neg hq, if_neg hq]
  · rw [if_neg hrs, childRowsFor_append, childRowsFor_delAll]
    by_cases hq : q = pid
    · simp [hq]
    · simp [hq]

theorem rewritePageReferences_for (tbl : List (String × List PyVal)) (pid q : String)
    (entries : List PyVal) (h : serializableList entries = true) :
    childRowsFor (rewritePageReferences tbl pid entries).1 q =
      if q = pid then entries else childRowsFor tbl q := by
  unfold rewritePageReferences
  rw [takeWhile_serializable_of_all entries h]
  by_cases he : entries.isEmpty
  · simp only [if_pos he, childRowsFor_delAll]
    by_cases hq : q = pid
    · rw [if_pos hq, if_pos hq, List.isEmpty_iff.mp he]
    · rw [if_neg hq, if_neg hq]
  · simp only [if_neg he, childRowsFor_append, childRowsFor_delAll]
    by_cases hq : q = pid
    · simp [hq]
    · simp [hq]

theorem resGo_for_not_mem :
    ∀ (L : List (Nat × NormPage)) (tbl : List (String × List String)) (q : String),
    q ∉ L.map (fun p => p.2.pageId) →
    childRowsFor (resGo tbl L) q = childRowsFor tbl q
  | [], _, _, _ => rfl
  | p :: L', tbl, q, h => by
    rw [List.map_cons, List.mem_cons] at h
    push_neg at h
    rw [resGo_cons, resGo_for_not_mem L' _ q h.2, rewritePageResources_for, if_neg h.1]

theorem resGo_for_mem :
    ∀ (L : List (Nat × NormPage)) (tbl : List (String × List String)) (i : Nat) (n : NormPage),
    (L.map (fun p => p.2.pageId)).Nodup → (i, n) ∈ L →
    childRowsFor (resGo tbl L) n.pageId = n.resources
  | [], _, _, _, _, hmem => by simp at hmem
  | p :: L', tbl, i, n, hnd, hmem => by
    rw [List.map_cons, List.nodup_cons] at hnd
    rcases List.mem_cons.mp hmem with he | hmem'
    · subst he
      rw [resGo_cons, resGo_for_not_mem L' _ _ hnd.1, rewritePageResources_for, if_pos rfl]
    · rw [resGo_cons]
      exact resGo_for_mem L' _ i n hnd.2 hmem'

theorem refGo_for_not_mem :
    ∀ (L : List (Nat × NormPage)) (tbl : List (String × List PyVal)) (q : String),
    (∀ p ∈ L, serializableList p.2.bib = true) →
    q ∉ L.map (fun p => p.2.pageId) →
    childRowsFor (refGo tbl L) q = childRowsFor tbl q
  | [], _, _, _, _ => rfl
  | p :: L', tbl, q, hser, h => by
    rw [List.map_cons, List.mem_cons] at h
    push_neg at h
    rw [refGo_cons, refGo_for_not_mem L' _ q (fun x hx => hser x (by simp [hx])) h.2,
      rewritePageReferences_for _ _ _ _ (hser p (by simp)), if_neg h.1]

theorem refGo_for_mem :
    ∀ (L : List (Nat × NormPage)) (tbl : List (String × List PyVal)) (i : Nat) (n : NormPage),
    (∀ p ∈ L, serializableList p.2.bib = true) →
    (L.map (fun p => p.2.pageId)).Nodup → (i, n) ∈ L →
    childRowsFor (refGo tbl L) n.pageId = n.bib
  | [], _, _, _, _, _, hmem => by simp at hmem
  | p :: L', tbl, i, n, hser, hnd, hmem => by
    rw [List.map_cons, List.nodup_cons] at hnd
    rcases List.mem_cons.mp hmem with he | hmem'
    · subst he
      rw [refGo_cons, refGo_for_not_mem L' _ _ (fun x hx => hser x (by simp [hx])) hnd.1,
        rewritePageReferences_for _ _ _ _ (hser (i, n) (by simp)), if_pos rfl]
    · rw [refGo_cons]
      exact refGo_for_mem L' _ i n (fun x hx => hser x (by simp [hx])) hnd.2 hmem'

theorem findByKey_filter_doomed (l : List α) (key : α → String) (doomed : List String)
    (k : String) :
    findByKey key k (l.filter (fun a => key a ∉ doomed)) =
      if k ∈ doomed then none else findByKey key k l := by
  induction l with
  | nil => by_cases hk : k ∈ doomed <;> simp [findByKey, hk]
  | cons a t ih =>
    rw [List.filter_cons]
    by_cases hd : key a ∈ doomed
    · rw [if_neg (by simpa using hd), ih]
      by_cases hk : k ∈ doomed
      · simp [hk]
      · have : key a ≠ k := fun h => hk (h ▸ hd)
        simp [hk, findByKey, this]
    · rw [if_pos (by simpa using hd)]
      by_cases ha : key a = k
      · subst ha
        simp [findByKey, hd, ih]
      · rw [findByKey, if_neg ha]
        rw [show findByKey key k (a :: t) = findByKey key k t from by rw [findByKey, if_neg ha]]
        simpa using ih

theorem findByKey_map (f : γ → α) (key : α → κ) [DecidableEq κ] (k : κ) (l : List γ) :
    findByKey key k (l.map f) = (findByKey (fun x => key (f x)) k l).map f := by
  induction l with
  | nil => rfl
  | cons x t ih =>
    by_cases hx : key (f x) = k
    · simp [findByKey, hx]
    · simp [findByKey, hx, ih]

theorem findByKey_self_of_nodup (key : α → κ) [DecidableEq κ] :
    ∀ (l : List α) (a : α), (l.map key).Nodup → a ∈ l → findByKey key (key a) l = some a
  | [], _, _, hmem => by simp at hmem
  | b :: t, a, hnd, hmem => by
    rw [List.map_cons, List.nodup_cons] at hnd
    rcases List.mem_cons.mp hmem with he | hmem'
    · subst he
      simp [findByKey]
    · have hne : key b ≠ key a := fun h => hnd.1 (h ▸ List.mem_map_of_mem key hmem')
      rw [findByKey, if_neg hne]
      exact findByKey_self_of_nodup key t a hnd.2 hmem'

theorem enumerate_mem_le (s : Nat) :
    ∀ (xs : List α) (p : Nat × α), p ∈ enumerate s xs → s ≤ p.1 := by
  intro xs
  induction xs generalizing s with
  | nil => intro p hp; simp [enumerate] at hp
  | cons x t ih =>
    intro p hp
    rcases List.mem_cons.mp hp with he | hp'
    · subst he; exact le_refl s
    · exact le_trans (Nat.le_succ s) (ih (s + 1) p hp')

theorem enumerate_pairwise_fst (s : Nat) (xs : List α) :
    (enumerate s xs).Pairwise (fun a b => a.1 < b.1) := by
  induction xs generalizing s with
  | nil => simp [enumerate]
  | cons x t ih =>
    rw [enumerate, List.pairwise_cons]
    exact ⟨fun p hp => lt_of_lt_of_le (Nat.lt_succ_self s) (enumerate_mem_le (s + 1) t p hp),
      ih (s + 1)⟩

theorem normalizePage_extras_not_core (freshId : String) (page : PyVal) :
    ∀ kv ∈ (normalizePagePayload freshId page).extras, kv.1 ∉ pageCoreFields := by
  unfold normalizePagePayload
  generalize (match page with
    | vstr s => [("content", vstr s)]
    | vobj fs => fs
    | _ => ([] : List (String × PyVal))) = payload
  simp only
  suffices h : ∀ (acc : List (String × PyVal)),
      (∀ kv ∈ acc, kv.1 ∉ pageCoreFields) →
      ∀ kv ∈ payload.foldl (fun acc kv =>
        if kv.1 ∈ pageCoreFields ∨ acc.any (fun e => e.1 = kv.1) then acc
        else acc ++ [kv]) acc, kv.1 ∉ pageCoreFields by
    exact h [] (by simp)
  induction payload with
  | nil => intro acc hacc kv hkv; exact hacc kv hkv
  | cons e t ih =>
    intro acc hacc kv hkv
    rw [List.foldl_cons] at hkv
    by_cases he : e.1 ∈ pageCoreFields ∨ acc.any (fun x => x.1 = e.1)
    · rw [if_pos he] at hkv
      exact ih acc hacc kv hkv
    · rw [if_neg he] at hkv
      push_neg at he
      refine ih _ ?_ kv hkv
      intro x hx
      rcases List.mem_append.mp hx with hx' | hx'
      · exact hacc x hx'
      · rw [List.mem_singleton.mp hx']
        exact he.1

theorem coerceBib_all_obj (v : PyVal) :
    ∀ e ∈ coerceBibEntries v, ∃ fs, e = vobj fs := by
  unfold coerceBibEntries
  intro e he
  simp only [List.mem_filterMap] at he
  obtain ⟨x, -, hx⟩ := he
  cases x with
  | vobj fs => exact ⟨fs, by simpa using hx.symm⟩
  | vstr s => exact ⟨[("entry", vstr s)], by simpa using hx.symm⟩
  | vnull => simp at hx
  | vbool b => simp at hx
  | vint n => simp at hx
  | vnum q => simp at hx
  | varr xs => simp at hx
  | vopaque t => simp at hx

theorem nodup_key_filter (key : α → κ) (p : α → Bool) (l : List α)
    (h : (l.map key).Nodup) : ((l.filter p).map key).Nodup :=
  h.sublist (List.Sublist.map key (List.filter_sublist l))

/-- The `page_latex` row that `save_pages` writes for a normalized page at
its ordinal. -/
def pageRowOf (p : Nat × NormPage) : LatexRow :=
  ⟨p.2.pageId, (p.1 : Int), vobj p.2.extras, p.2.content⟩

/-- The payload that `list_pages` rebuilds for a freshly saved normalized
page: the extra fields in order, then the six core fields as `list_pages`
appends them. -/
def roundTripPayload (n : NormPage) : List (String × PyVal) :=
  n.extras ++
    [("pageId", vstr n.pageId), ("content", vstr n.content), ("notes", vstr n.notes),
      ("script", vstr n.script), ("resources", varr (n.resources.map vstr)),
      ("bib", varr n.bib)]

/-- The expected result of `save_pages(P)` followed by `list_pages()`:
one record per input page in input order, with ordinal equal to the input
position and all fields normalized. -/
def savedPagesView (pages : List PyVal) (fresh : Nat → String) : List PageRec :=
  (normalizedPages pages fresh).map (fun p =>
    { pageId := p.2.pageId, order := (p.1 : Int), payload := roundTripPayload p.2 })

theorem extras_ne_of_core (n : NormPage) (hcore : ∀ kv ∈ n.extras, kv.1 ∉ pageCoreFields)
    (k : String) (hk : k ∈ pageCoreFields) : ∀ kv ∈ n.extras, (kv : String × PyVal).1 ≠ k :=
  fun kv hkv he => hcore kv hkv (he ▸ hk)

theorem roundTrip_payload_eq (n : NormPage)
    (hcore : ∀ kv ∈ n.extras, kv.1 ∉ pageCoreFields) :
    setItem (setItem (setItem (setItem (setItem (setItem n.extras
      "pageId" (pyOr (getD n.extras "pageId") (vstr n.pageId)))
      "content" (vstr (if n.content = "" then "" else n.content)))
      "notes" (vstr n.notes))
      "script" (vstr n.script))
      "resources" (varr (n.resources.map vstr)))
      "bib" (varr n.bib) = roundTripPayload n := by
  have hid : getD n.extras "pageId" = vnull := by
    rw [getD, getEntry_eq_none _ _ (extras_ne_of_core n hcore "pageId" (by simp [pageCoreFields]))]
    rfl
  have hcontent : (if n.content = "" then "" else n.content) = n.content := by
    by_cases h : n.content = "" <;> simp [h]
  rw [hid, hcontent]
  have hor : pyOr vnull (vstr n.pageId) = vstr n.pageId := rfl
  rw [hor]
  have e1 : setItem n.extras "pageId" (vstr n.pageId) =
      n.extras ++ [("pageId", vstr n.pageId)] :=
    setItem_of_not_mem _ _ _ (extras_ne_of_core n hcore "pageId" (by simp [pageCoreFields]))
  rw [e1]
  have e2 : setItem (n.extras ++ [("pageId", vstr n.pageId)]) "content" (vstr n.content) =
      (n.extras ++ [("pageId", vstr n.pageId)]) ++ [("content", vstr n.content)] :=
    setItem_of_not_mem _ _ _ (by
      intro e he
      rcases List.mem_append.mp he with h' | h'
      · exact extras_ne_of_core n hcore "content" (by simp [pageCoreFields]) e h'
      · fin_cases h'
        simp)
  rw [e2, List.append_assoc]
  simp only [List.cons_append, List.nil_append]
  have e3 : setItem (n.extras ++ [("pageId", vstr n.pageId), ("content", vstr n.content)])
      "notes" (vstr n.notes) =
      (n.extras ++ [("pageId", vstr n.pageId), ("content", vstr n.content)]) ++
        [("notes", vstr n.notes)] :=
    setItem_of_not_mem _ _ _ (by
      intro e he
      rcases List.mem_append.mp he with h' | h'
      · exact extras_ne_of_core n hcore "notes" (by simp [pageCoreFields]) e h'
      · fin_cases h' <;> simp)
  rw [e3, List.append_assoc]
  simp only [List.cons_append, List.nil_append]
  have e4 : setItem (n.extras ++ [("pageId", vstr n.pageId), ("content", vstr n.content),
      ("notes", vstr n.notes)]) "script" (vstr n.script) =
      (n.extras ++ [("pageId", vstr n.pageId), ("content", vstr n.content),
        ("notes", vstr n.notes)]) ++ [("script", vstr n.script)] :=
    setItem_of_not_mem _ _ _ (by
      intro e he
      rcases List.mem_append.mp he with h' | h'
      · exact extras_ne_of_core n hcore "script" (by simp [pageCoreFields]) e h'
      · fin_cases h' <;> simp)
  rw [e4, List.append_assoc]
  simp only [List.cons_append, List.nil_append]
  have e5 : setItem (n.extras ++ [("pageId", vstr n.pageId), ("content", vstr n.content),
      ("notes", vstr n.notes), ("script", vstr n.script)]) "resources"
      (varr (n.resources.map vstr)) =
      (n.extras ++ [("pageId", vstr n.pageId), ("content", vstr n.content),
        ("notes", vstr n.notes), ("script", vstr n.script)]) ++
        [("resources", varr (n.resources.map vstr))] :=
    setItem_of_not_mem _ _ _ (by
      intro e he
      rcases List.mem_append.mp he with h' | h'
      · exact extras_ne_of_core n hcore "resources" (by simp [pageCoreFields]) e h'
      · fin_cases h' <;> simp)
  rw [e5, List.append_assoc]
  simp only [List.cons_append, List.nil_append]
  have e6 : setItem (n.extras ++ [("pageId", vstr n.pageId), ("content", vstr n.content),
      ("notes", vstr n.notes), ("script", vstr n.script),
      ("resources", varr (n.resources.map vstr))]) "bib" (varr n.bib) =
      (n.extras ++ [("pageId", vstr n.pageId), ("content", vstr n.content),
        ("notes", vstr n.notes), ("script", vstr n.script),
        ("resources", varr (n.resources.map vstr))]) ++ [("bib", varr n.bib)] :=
    setItem_of_not_mem _ _ _ (by
      intro e he
      rcases List.mem_append.mp he with h' | h'
      · exact extras_ne_of_core n hcore "bib" (by simp [pageCoreFields]) e h'
      · fin_cases h' <;> simp)
  rw [e6, List.append_assoc]
  simp [roundTripPayload]

theorem wrap_filterMap_id (l : List PyVal) (h : ∀ e ∈ l, ∃ fs, e = vobj fs) :
    l.filterMap (fun e =>
      match e with
      | vobj fs => some (vobj fs)
      | vstr s => some (vobj [("entry", vstr s)])
      | _ => none) = l := by
  induction l with
  | nil => rfl
  | cons e t ih =>
    obtain ⟨fs, rfl⟩ := h e (by simp)
    rw [List.filterMap_cons]
    simp only
    rw [ih (fun x hx => h x (by simp [hx]))]

/-- C1 (amended): the `save_pages` → `list_pages` round trip.  When the
normalized page ids are pairwise distinct (the amendment — duplicate ids
collapse onto one row) and every normalized page is JSON-serializable,
`save_pages` succeeds and a subsequent `list_pages` returns exactly the
normalized input pages in input order: ids are stable when supplied and
fresh only when missing/blank, each ordinal equals the input position,
resources are cleaned/deduplicated order-preservingly, bib entries round
trip structurally with bare strings wrapped, content/script/notes are the
string-coerced inputs, and extra fields round trip via the meta blob
(`savedPagesView` spells this out).  The primary-key hypotheses state that
the starting store has no duplicate page ids in its keyed tables, which
SQLite enforces. -/
theorem savePages_listPages_eq (st : Store) (pages : List PyVal) (fresh : Nat → String)
    (hPKl : (st.pageLatex.map (fun r => r.pageId)).Nodup)
    (hPKm : (st.pageMarkdown.map Prod.fst).Nodup)
    (hPKn : (st.pageNotes.map Prod.fst).Nodup)
    (hnd : ((normalizedPages pages fresh).map (fun p => p.2.pageId)).Nodup)
    (hser : ∀ p ∈ normalizedPages pages fresh,
      serializableFields p.2.extras = true ∧ serializableList p.2.bib = true) :
    (savePages st pages fresh).2 = true ∧
    listPages (savePages st pages fresh).1 = savedPagesView pages fresh := by
  have hgo := savePagesGo_eq st (normalizedPages pages fresh) hser
  have hsave : savePages st pages fresh =
      (deletePageRows
        { st with
            pageLatex := latexGo st.pageLatex (normalizedPages pages fresh)
            pageMarkdown := textGo st.pageMarkdown (fun n => n.notes) (normalizedPages pages fresh)
            pageNotes := textGo st.pageNotes (fun n => n.script) (normalizedPages pages fresh)
            pageResources := resGo st.pageResources (normalizedPages pages fresh)
            pageReferences := refGo st.pageReferences (normalizedPages pages fresh) }
        ((st.pageLatex.map (fun r => r.pageId)).filter
          (fun pid => pid ∉ (normalizedPages pages fresh).map (fun p => p.2.pageId))), true) := by
    simp only [savePages, hgo, if_true]
  refine ⟨by rw [hsave], ?_⟩
  rw [hsave]
  set L := normalizedPages pages fresh with hL
  set doomed := (st.pageLatex.map (fun r => r.pageId)).filter
    (fun pid => pid ∉ L.map (fun p => p.2.pageId)) with hdoomed
  have hmem_doomed : ∀ k, k ∈ doomed ↔
      (k ∈ st.pageLatex.map (fun r => r.pageId) ∧ k ∉ L.map (fun p => p.2.pageId)) := by
    intro k
    rw [hdoomed, List.mem_filter]
    simp
  have hnotdoomed : ∀ p ∈ L, p.2.pageId ∉ doomed := by
    intro p hp hd
    exact ((hmem_doomed _).mp hd).2 (List.mem_map_of_mem (fun p => p.2.pageId) hp)
  -- the latex table after save is a permutation of the desired rows
  have hlperm : ((latexGo st.pageLatex L).filter
      (fun r => r.pageId ∉ doomed)).Perm (L.map pageRowOf) := by
    refine perm_of_findByKey_eq (fun r : LatexRow => r.pageId) _ _
      (nodup_key_filter _ _ _ (latexGo_nodup L st.pageLatex hPKl))
      (by
        rw [List.map_map]
        exact hnd)
      ?_
    intro k
    rw [findByKey_filter_doomed, findByKey_map]
    simp only [pageRowOf]
    by_cases hk : k ∈ L.map (fun p => p.2.pageId)
    · obtain ⟨p, hp, rfl⟩ := List.mem_map.mp hk
      rw [if_neg (hnotdoomed p hp)]
      rw [latexGo_findByKey_mem L st.pageLatex p.1 p.2 hnd hp,
        findByKey_self_of_nodup (fun p : Nat × NormPage => p.2.pageId) L p hnd hp]
      rfl
    · rw [findByKey_eq_none (fun p : Nat × NormPage => p.2.pageId) k L hk]
      by_cases hd : k ∈ doomed
      · rw [if_pos hd]; rfl
      · rw [if_neg hd, latexGo_findByKey_not_mem L st.pageLatex k hk,
          findByKey_eq_none _ _ _ (fun hmem =>
            hd ((hmem_doomed k).mpr ⟨hmem, hk⟩))]
        rfl
  -- the desired rows are strictly sorted on the (idx, page_id) sort key
  have hLfst : L.Pairwise (fun a b => a.1 < b.1) := by
    rw [hL]
    unfold normalizedPages
    exact List.Pairwise.map _ (fun a b h => h) (enumerate_pairwise_fst 0 pages)
  have hsorted : (L.map pageRowOf).Pairwise
      (fun a b => (toLex (a.idx, a.pageId) : Int ×ₗ String) < toLex (b.idx, b.pageId)) := by
    refine List.Pairwise.map _ ?_ hLfst
    intro a b h
    simp only [pageRowOf]
    exact Prod.Lex.left _ _ (by exact_mod_cast h)
  have hsort : sortByKey (fun r : LatexRow => toLex (r.idx, r.pageId))
      ((latexGo st.pageLatex L).filter (fun r => r.pageId ∉ doomed)) = L.map pageRowOf :=
    sortByKey_eq_of_perm _ _ _ hlperm hsorted
  -- assemble list_pages over the sorted rows
  rw [listPages]
  simp only [deletePageRows]
  rw [hsort, List.map_map]
  unfold savedPagesView
  rw [← hL]
  refine List.map_congr_left ?_
  intro p hp
  obtain ⟨q, hq, hpq⟩ := List.mem_map.mp (hL ▸ hp)
  have hnorm : p.2 = normalizePagePayload (fresh q.1) q.2 := by rw [← hpq]
  have hcore : ∀ kv ∈ p.2.extras, kv.1 ∉ pageCoreFields := by
    rw [hnorm]; exact normalizePage_extras_not_core _ _
  have hbib_obj : ∀ e ∈ p.2.bib, ∃ fs, e = vobj fs := by
    rw [hnorm]
    unfold normalizePagePayload
    simp only
    exact coerceBib_all_obj _
  have hmd : lookupLast ((textGo st.pageMarkdown (fun n => n.notes) L).filter
      (fun r => r.1 ∉ doomed)) p.2.pageId = some p.2.notes := by
    rw [lookupLast_eq_findByKey _ _
      (nodup_key_filter _ _ _ (textGo_nodup L st.pageMarkdown _ hPKm)),
      findByKey_filter_doomed, if_neg (hnotdoomed p hp),
      textGo_findByKey_mem L st.pageMarkdown _ p.1 p.2 hnd hp]
    rfl
  have hnt : lookupLast ((textGo st.pageNotes (fun n => n.script) L).filter
      (fun r => r.1 ∉ doomed)) p.2.pageId = some p.2.script := by
    rw [lookupLast_eq_findByKey _ _
      (nodup_key_filter _ _ _ (textGo_nodup L st.pageNotes _ hPKn)),
      findByKey_filter_doomed, if_neg (hnotdoomed p hp),
      textGo_findByKey_mem L st.pageNotes _ p.1 p.2 hnd hp]
    rfl
  have hres : pageResourcesFor ((resGo st.pageResources L).filter
      (fun r => r.1 ∉ doomed)) p.2.pageId = p.2.resources := by
    rw [pageResourcesFor, childRowsFor_filter_doomed, if_neg (hnotdoomed p hp)]
    exact resGo_for_mem L st.pageResources p.1 p.2 hnd hp
  have href : pageReferencesFor ((refGo st.pageReferences L).filter
      (fun r => r.1 ∉ doomed)) p.2.pageId = p.2.bib := by
    rw [pageReferencesFor, childRowsFor_filter_doomed, if_neg (hnotdoomed p hp)]
    exact refGo_for_mem L st.pageReferences p.1 p.2 (fun x hx => (hser x (hL ▸ hx)).2) hnd hp
  simp only [Function.comp_apply, pageRowOf]
  rw [hmd, hnt, hres, href]
  simp only [Option.getD_some]
  rw [wrap_filterMap_id p.2.bib hbib_obj, roundTrip_payload_eq p.2 hcore]

/-- Concrete pages used to exercise the round trip: one page with a
caller-supplied id and an extra field, one bare-string page. -/
def c1pages : List PyVal :=
  [vobj [("pageId", vstr "a"), ("content", vstr "X"), ("k", vint 5)], vstr "Y"]

/-- A deterministic fresh-id supply standing in for `uuid.uuid4`. -/
def c1fresh : Nat → String := fun i => "fresh" ++ toString i

/-- Two input pages carrying the same caller-supplied id. -/
def c1dupPages : List PyVal :=
  [vobj [("pageId", vstr "a")], vobj [("pageId", vstr "a"), ("content", vstr "x")]]

/-- Witness for C1's round-trip theorem at a concrete input: a page with a
supplied id, string content and an extra field plus a bare-string page. -/
theorem savePages_listPages_eq_witness :
    (savePages Store.empty c1pages c1fresh).2 = true ∧
    listPages (savePages Store.empty c1pages c1fresh).1 = savedPagesView c1pages c1fresh :=
  savePages_listPages_eq Store.empty c1pages c1fresh (by decide) (by decide) (by decide)
    (by decide) (by decide)

/-- C1 counterexample: as literally stated ("for every list of input
pages"), the round trip fails when two input pages carry the same id —
`save_pages` upserts both onto one row, so `list_pages` returns one page
where the claim promises two. -/
theorem savePages_duplicate_id_counterexample :
    (savePages Store.empty c1dupPages c1fresh).2 = true ∧
    listPages (savePages Store.empty c1dupPages c1fresh).1 ≠ savedPagesView c1dupPages c1fresh := by
  constructor
  · rfl
  · intro h
    have h2 := congrArg List.length h
    rw [show (listPages (savePages Store.empty c1dupPages c1fresh).1).length = 1 from rfl,
        show (savedPagesView c1dupPages c1fresh).length = 2 from rfl] at h2
    exact absurd h2 (by decide)

theorem upsertLatex_ids_mono (rows : List LatexRow) (pid q : String) (i : Int)
    (m : PyVal) (c : String) (h : q ∈ rows.map (fun r => r.pageId)) :
    q ∈ (upsertPageLatexRow rows pid i m c).map (fun r => r.pageId) := by
  rw [upsertLatex_map_pageId]
  by_cases hp : pid ∈ rows.map (fun r => r.pageId)
  · rwa [if_pos hp]
  · rw [if_neg hp]
    exact List.mem_append.mpr (Or.inl h)

theorem upsertLatex_ids_self (rows : List LatexRow) (pid : String) (i : Int)
    (m : PyVal) (c : String) :
    pid ∈ (upsertPageLatexRow rows pid i m c).map (fun r => r.pageId) := by
  rw [upsertLatex_map_pageId]
  by_cases hp : pid ∈ rows.map (fun r => r.pageId)
  · rwa [if_pos hp]
  · rw [if_neg hp]
    exact List.mem_append.mpr (Or.inr (by simp))

theorem latexGo_ids_mono :
    ∀ (L : List (Nat × NormPage)) (rows : List LatexRow) (q : String),
    q ∈ rows.map (fun r => r.pageId) → q ∈ (latexGo rows L).map (fun r => r.pageId)
  | [], _, _, h => h
  | p :: L', rows, q, h => by
    rw [latexGo_cons]
    exact latexGo_ids_mono L' _ q (upsertLatex_ids_mono _ _ _ _ _ _ h)

theorem latexGo_ids_of_mem :
    ∀ (L : List (Nat × NormPage)) (rows : List LatexRow) (q : String),
    q ∈ L.map (fun p => p.2.pageId) → q ∈ (latexGo rows L).map (fun r => r.pageId)
  | [], _, _, h => by simp at h
  | p :: L', rows, q, h => by
    rw [latexGo_cons]
    rw [List.map_cons, List.mem_cons] at h
    rcases h with he | hm
    · subst he
      exact latexGo_ids_mono L' _ _ (upsertLatex_ids_self _ _ _ _ _)
    · exact latexGo_ids_of_mem L' _ q hm

/-- C3: saving a page list that omits a previously stored page id deletes
every companion row of that id across `page_latex`, `page_markdown`
(notes), `page_notes` (script), `page_resources` and `page_references`;
and because the orphan-deletion step runs after all upserts of the desired
set, an id present in both the old and the new id sets survives the save.
Hypothesis: the save's statements all succeed (the normalized pages are
JSON-serializable). -/
theorem savePages_orphan_deletion (st : Store) (pages : List PyVal) (fresh : Nat → String)
    (hser : ∀ p ∈ normalizedPages pages fresh,
      serializableFields p.2.extras = true ∧ serializableList p.2.bib = true)
    (pid : String) (hex : pid ∈ st.pageLatex.map (fun r => r.pageId)) :
    (savePages st pages fresh).2 = true ∧
    (pid ∉ (normalizedPages pages fresh).map (fun p => p.2.pageId) →
      (∀ r ∈ (savePages st pages fresh).1.pageLatex, r.pageId ≠ pid) ∧
      (∀ e ∈ (savePages st pages fresh).1.pageMarkdown, e.1 ≠ pid) ∧
      (∀ e ∈ (savePages st pages fresh).1.pageNotes, e.1 ≠ pid) ∧
      (∀ e ∈ (savePages st pages fresh).1.pageResources, e.1 ≠ pid) ∧
      (∀ e ∈ (savePages st pages fresh).1.pageReferences, e.1 ≠ pid)) ∧
    (pid ∈ (normalizedPages pages fresh).map (fun p => p.2.pageId) →
      pid ∈ (savePages st pages fresh).1.pageLatex.map (fun r => r.pageId)) := by
  have hgo := savePagesGo_eq st (normalizedPages pages fresh) hser
  have hsave : savePages st pages fresh =
      (deletePageRows
        { st with
            pageLatex := latexGo st.pageLatex (normalizedPages pages fresh)
            pageMarkdown := textGo st.pageMarkdown (fun n => n.notes) (normalizedPages pages fresh)
            pageNotes := textGo st.pageNotes (fun n => n.script) (normalizedPages pages fresh)
            pageResources := resGo st.pageResources (normalizedPages pages fresh)
            pageReferences := refGo st.pageReferences (normalizedPages pages fresh) }
        ((st.pageLatex.map (fun r => r.pageId)).filter
          (fun q => q ∉ (normalizedPages pages fresh).map (fun p => p.2.pageId))), true) := by
    simp only [savePages, hgo, if_true]
  rw [hsave]
  set L := normalizedPages pages fresh with hL
  set doomed := (st.pageLatex.map (fun r => r.pageId)).filter
    (fun q => q ∉ L.map (fun p => p.2.pageId)) with hdoomed
  refine ⟨rfl, ?_, ?_⟩
  · intro hout
    have hdm : pid ∈ doomed := by
      rw [hdoomed, List.mem_filter]
      exact ⟨hex, by simpa using hout⟩
    simp only [deletePageRows]
    refine ⟨?_, ?_, ?_, ?_, ?_⟩
    · intro r hr he
      rw [List.mem_filter] at hr
      exact (by simpa using hr.2 : r.pageId ∉ doomed) (he ▸ hdm)
    · intro e he' he
      rw [List.mem_filter] at he'
      exact (by simpa using he'.2 : e.1 ∉ doomed) (he ▸ hdm)
    · intro e he' he
      rw [List.mem_filter] at he'
      exact (by simpa using he'.2 : e.1 ∉ doomed) (he ▸ hdm)
    · intro e he' he
      rw [List.mem_filter] at he'
      exact (by simpa using he'.2 : e.1 ∉ doomed) (he ▸ hdm)
    · intro e he' he
      rw [List.mem_filter] at he'
      exact (by simpa using he'.2 : e.1 ∉ doomed) (he ▸ hdm)
  · intro hin
    have hnd : pid ∉ doomed := by
      rw [hdoomed, List.mem_filter]
      intro hc
      exact (by simpa using hc.2 : pid ∉ L.map (fun p => p.2.pageId)) hin
    have hmem := latexGo_ids_of_mem L st.pageLatex pid hin
    obtain ⟨r, hr, hrid⟩ := List.mem_map.mp hmem
    simp only [deletePageRows]
    refine List.mem_map.mpr ⟨r, ?_, hrid⟩
    rw [List.mem_filter]
    exact ⟨hr, by simpa using hrid ▸ hnd⟩

/-- A store already holding two pages `"old"` and `"b"` with companion
rows. -/
def c3store : Store :=
  { Store.empty with
    pageLatex := [⟨"old", 0, vobj [], "body"⟩, ⟨"b", 1, vobj [], "keep"⟩]
    pageMarkdown := [("old", "n"), ("b", "bn")]
    pageNotes := [("old", "s")]
    pageResources := [("old", ["r"])]
    pageReferences := [("old", [vobj [("entry", vstr "x")]])] }

/-- A page list that keeps `"b"` and omits `"old"`. -/
def c3pages : List PyVal := [vobj [("pageId", vstr "b"), ("content", vstr "Z")]]

/-- A deterministic fresh-id supply for the orphan-deletion witness. -/
def c3fresh : Nat → String := fun i => "c3id" ++ toString i

/-- Witness for C3 at a concrete input: page `"old"` is omitted from the
saved list and all of its companion rows disappear, while `"b"` (present
in both the old and new id sets) survives. -/
theorem savePages_orphan_deletion_witness :
    (savePages c3store c3pages c3fresh).2 = true ∧
    ("old" ∉ (normalizedPages c3pages c3fresh).map (fun p => p.2.pageId) →
      (∀ r ∈ (savePages c3store c3pages c3fresh).1.pageLatex, r.pageId ≠ "old") ∧
      (∀ e ∈ (savePages c3store c3pages c3fresh).1.pageMarkdown, e.1 ≠ "old") ∧
      (∀ e ∈ (savePages c3store c3pages c3fresh).1.pageNotes, e.1 ≠ "old") ∧
      (∀ e ∈ (savePages c3store c3pages c3fresh).1.pageResources, e.1 ≠ "old") ∧
      (∀ e ∈ (savePages c3store c3pages c3fresh).1.pageReferences, e.1 ≠ "old")) ∧
    ("old" ∈ (normalizedPages c3pages c3fresh).map (fun p => p.2.pageId) →
      "old" ∈ (savePages c3store c3pages c3fresh).1.pageLatex.map (fun r => r.pageId)) :=
  savePages_orphan_deletion c3store c3pages c3fresh (by decide) "old" (by decide)

/-- A store holding one committed page `"a"` with body `"old"`. -/
def c2store : Store :=
  { Store.empty with
    pageLatex := [⟨"a", 0, vobj [], "old"⟩]
    pageMarkdown := [("a", "")]
    pageNotes := [("a", "")] }

/-- A save in which the first page is fully written and the second page's
extra field is not JSON-serializable, so `_serialize` raises mid-loop,
after `BEGIN IMMEDIATE` and after page `"a"` has been rewritten. -/
def c2pages : List PyVal :=
  [vobj [("pageId", vstr "a"), ("content", vstr "new")],
    vobj [("pageId", vstr "b"), ("bad", vopaque "object")]]

/-- A deterministic fresh-id supply for the atomicity case. -/
def c2fresh : Nat → String := fun i => "c2id" ++ toString i

/-- C2: `save_pages` has no rollback (and no try/except) around its
transaction, so when a statement raises mid-loop the writes already made
remain on the connection: here the failed call leaves page `"a"` rewritten
to `"new"`, and a reader calling `list_pages` on the same connection
observes the partially replaced page set, contradicting the claim that a
failed save leaves the store unchanged. -/
theorem savePages_failure_not_atomic :
    (savePages c2store c2pages c2fresh).2 = false ∧
    (savePages c2store c2pages c2fresh).1 ≠ c2store ∧
    listPages (savePages c2store c2pages c2fresh).1 ≠ listPages c2store := by
  refine ⟨rfl, ?_, ?_⟩
  · intro h
    have h2 := congrArg (fun s : Store => s.pageLatex.map (fun r => r.content)) h
    exact absurd h2 (by decide)
  · intro h
    have h2 := congrArg (fun l : List PageRec =>
      l.map (fun r => pyStr (getD r.payload "content"))) h
    exact absurd h2 (by decide)

/-! The metadata store and the workspace-password lifecycle. -/

/-- `_get_meta` without deserialization of a missing row: the raw stored
value, `none` when the key is absent. -/
def getMetaVal (st : Store) (k : String) : Option PyVal :=
  getEntry st.meta k

/-- `_set_meta`: serialize the value (raising on non-JSON-serializable
input, before any write), then upsert into the `meta` table. -/
def setMetaE (st : Store) (k : String) (v : PyVal) : Store × Bool :=
  if serializable v then ({ st with meta := setItem st.meta k v }, true) else (st, false)

/-- `_delete_meta`. -/
def delMeta (st : Store) (k : String) : Store :=
  { st with meta := delAll st.meta k }

/-- `PROJECT_SECURITY_META_KEY`. -/
def projectSecurityMetaKey : String := "projectSecurity"

/-- The single entry of `LEGACY_SECURITY_META_KEYS`. -/
def legacySecurityMetaKey : String := "workspaceSecurity"

/-- Python `dict.pop(k, None)`: remove the entry with the key (dicts hold
each key once). -/
def popEntry : List (String × α) → String → List (String × α)
  | [], _ => []
  | (k2, v) :: rest, k => if k2 = k then rest else (k2, v) :: popEntry rest k

/-- Modelled from the contract of
`werkzeug.security.generate_password_hash` (an external dependency, not
repository code): an opaque one-way encoding of the password.  Only the
contract `check_password_hash (generate_password_hash p) c ↔ c = p` is
relevant to the storage layer. -/
def generatePasswordHash (password : String) : String :=
  "hash$" ++ password

/-- Modelled from the contract of `werkzeug.security.check_password_hash`:
true exactly when the candidate matches the hashed password. -/
def checkPasswordHash (hash candidate : String) : Bool :=
  hash = "hash$" ++ candidate

/-- `_get_workspace_security_meta`: the current security mapping, moving a
legacy-keyed mapping to the current key on first access.  The Bool is
false when a statement raised (non-serializable stored legacy payload). -/
def getWorkspaceSecurityMeta (st : Store) : Store × Bool × List (String × PyVal) :=
  match getMetaVal st projectSecurityMetaKey with
  | some (vobj fs) => (st, true, fs)
  | _ =>
    match getMetaVal st legacySecurityMetaKey with
    | some (vobj fs) =>
      let (st1, ok) := setMetaE st projectSecurityMetaKey (vobj fs)
      if ok then (delMeta st1 legacySecurityMetaKey, true, fs) else (st1, false, [])
    | _ => (st, true, [])

/-- `_set_workspace_security_meta`: store the mapping (an empty mapping
when falsy) under the current key and delete the legacy key. -/
def setWorkspaceSecurityMeta (st : Store) (payload : List (String × PyVal)) : Store × Bool :=
  let v := if pyTruthy (vobj payload) then vobj payload else vobj []
  let (st1, ok) := setMetaE st projectSecurityMetaKey v
  if ok then (delMeta st1 legacySecurityMetaKey, true) else (st1, false)

/-- `get_workspace_password_hash`: the stored hash when it is a string
with non-blank strip, else `none`.  Components: state after the (possibly
migrating) read, success flag, hash. -/
def getWorkspacePasswordHash (st : Store) : Store × Bool × Option String :=
  let (st1, ok, payload) := getWorkspaceSecurityMeta st
  if ok then
    match getEntry payload "passwordHash" with
    | some (vstr s) => if pyStrip s ≠ "" then (st1, true, some s) else (st1, true, none)
    | _ => (st1, true, none)
  else (st1, false, none)

/-- `save_workspace_password`: strip, reject an empty result before any
write, hash the stripped password and store it with a fresh timestamp.
The error component is the raised message, `none` on success. -/
def saveWorkspacePassword (st : Store) (newPassword : String) (now : ℚ) :
    Store × Option String :=
  let normalized := pyStrip newPassword
  if normalized = "" then (st, some "密码不能为空")
  else
    let passwordHash := generatePasswordHash normalized
    let (st1, ok, payload) := getWorkspaceSecurityMeta st
    if ok then
      let payload := setItem payload "passwordHash" (vstr passwordHash)
      let payload := setItem payload "updatedAt" (vnum now)
      let (st2, ok2) := setWorkspaceSecurityMeta st1 payload
      if ok2 then (st2, none) else (st2, some "TypeError")
    else (st1, some "TypeError")

/-- `clear_workspace_password`: drop the stored hash (when present) and
stamp the update time. -/
def clearWorkspacePassword (st : Store) (now : ℚ) : Store × Option String :=
  let (st1, ok, payload) := getWorkspaceSecurityMeta st
  if ok then
    let payload :=
      if (getEntry payload "passwordHash").isSome then popEntry payload "passwordHash"
      else payload
    let payload := setItem payload "updatedAt" (vnum now)
    let (st2, ok2) := setWorkspaceSecurityMeta st1 payload
    if ok2 then (st2, none) else (st2, some "TypeError")
  else (st1, some "TypeError")

/-- `verify_workspace_password`: an absent/blank stored hash verifies any
candidate; otherwise the stripped candidate must be non-empty and match
the hash (`check_password_hash` failures are caught and count as a
mismatch, so the check itself is total here).  `none` means the underlying
metadata access raised. -/
def verifyWorkspacePassword (st : Store) (password : String) : Store × Option Bool :=
  let (st1, ok, hash?) := getWorkspacePasswordHash st
  if ok then
    match hash? with
    | none => (st1, some true)
    | some h =>
      let candidate := pyStrip password
      if candidate = "" then (st1, some false)
      else (st1, some (checkPasswordHash h candidate))
  else (st1, none)

theorem getEntry_setItem_self (l : List (String × α)) (k : String) (v : α) :
    getEntry (setItem l k v) k = some v := by
  induction l with
  | nil => simp [setItem, getEntry]
  | cons e t ih =>
    by_cases he : e.1 = k
    · simp [setItem, he, getEntry]
    · simp [setItem, he, getEntry, ih]

theorem getEntry_setItem_other (l : List (String × α)) (k q : String) (v : α)
    (h : q ≠ k) : getEntry (setItem l k v) q = getEntry l q := by
  induction l with
  | nil => simp [setItem, getEntry, Ne.symm h]
  | cons e t ih =>
    obtain ⟨e1, e2⟩ := e
    by_cases he : e1 = k
    · by_cases heq : e1 = q
      · exact absurd (heq.symm.trans he) h
      · simp [setItem, he, getEntry, Ne.symm h, heq]
    · by_cases heq : e1 = q
      · simp [setItem, he, getEntry, heq, h]
      · simp [setItem, he, getEntry, heq, ih]

theorem getEntry_delAll_other (l : List (String × α)) (k q : String)
    (h : q ≠ k) : getEntry (delAll l k) q = getEntry l q := by
  induction l with
  | nil => rfl
  | cons e t ih =>
    obtain ⟨e1, e2⟩ := e
    rw [delAll_cons]
    by_cases he : e1 = k
    · have hne : e1 ≠ q := fun hq => h (hq ▸ he)
      rw [if_pos he, ih, getEntry, if_neg hne]
    · rw [if_neg he]
      by_cases heq : e1 = q
      · rw [getEntry, if_pos heq, getEntry, if_pos heq]
      · rw [getEntry, if_neg heq, ih, getEntry, if_neg heq]

theorem getEntry_popEntry_self (l : List (String × α)) (k : String)
    (h : (l.map Prod.fst).Nodup) : getEntry (popEntry l k) k = none := by
  induction l with
  | nil => rfl
  | cons e t ih =>
    rw [List.map_cons, List.nodup_cons] at h
    by_cases he : e.1 = k
    · rw [popEntry]
      simp only [he, if_true]
      exact getEntry_eq_none t k (fun x hx hk =>
        h.1 (he ▸ hk ▸ List.mem_map_of_mem Prod.fst hx))
    · rw [popEntry]
      simp only [he, if_false]
      rw [getEntry, if_neg he]
      exact ih h.2

theorem serializableFields_setItem (fs : List (String × PyVal)) (k : String) (v : PyVal)
    (hfs : serializableFields fs = true) (hv : serializable v = true) :
    serializableFields (setItem fs k v) = true := by
  induction fs with
  | nil => simp [setItem, serializableFields, hv]
  | cons e t ih =>
    obtain ⟨e1, e2⟩ := e
    rw [serializableFields, Bool.and_eq_true] at hfs
    by_cases he : e1 = k
    · simp only [setItem, he, if_true]
      rw [serializableFields, Bool.and_eq_true]
      exact ⟨hv, hfs.2⟩
    · simp only [setItem, he, if_false]
      rw [serializableFields, Bool.and_eq_true]
      exact ⟨hfs.1, ih hfs.2⟩

theorem serializableFields_popEntry (fs : List (String × PyVal)) (k : String)
    (hfs : serializableFields fs = true) :
    serializableFields (popEntry fs k) = true := by
  induction fs with
  | nil => simp [popEntry, hfs]
  | cons e t ih =>
    obtain ⟨e1, e2⟩ := e
    rw [serializableFields, Bool.and_eq_true] at hfs
    by_cases he : e1 = k
    · simp only [popEntry, he, if_true]
      exact hfs.2
    · simp only [popEntry, he, if_false]
      rw [serializableFields, Bool.and_eq_true]
      exact ⟨hfs.1, ih hfs.2⟩

theorem setItem_ne_nil (l : List (String × α)) (k : String) (v : α) :
    setItem l k v ≠ [] := by
  cases l with
  | nil => simp [setItem]
  | cons e t =>
    obtain ⟨e1, e2⟩ := e
    by_cases he : e1 = k
    · simp [setItem, he]
    · simp [setItem, he]

theorem nodup_fst_popEntry (l : List (String × α)) (k : String)
    (h : (l.map Prod.fst).Nodup) : ((popEntry l k).map Prod.fst).Nodup := by
  induction l with
  | nil => simp [popEntry]
  | cons e t ih =>
    obtain ⟨e1, e2⟩ := e
    rw [List.map_cons, List.nodup_cons] at h
    by_cases he : e1 = k
    · simpa [popEntry, he] using h.2
    · rw [popEntry]
      simp only [he, if_false, List.map_cons, List.nodup_cons]
      refine ⟨fun hm => ?_, ih h.2⟩
      · have : e1 ∈ t.map Prod.fst := by
          clear ih h
          induction t with
          | nil => simp [popEntry] at hm
          | cons x u ihu =>
            obtain ⟨x1, x2⟩ := x
            by_cases hx : x1 = k
            · simp only [popEntry, hx, if_true] at hm
              simp [hm]
            · simp only [popEntry, hx, if_false, List.map_cons, List.mem_cons] at hm
              rcases hm with hm | hm
              · simp [hm]
              · simp [ihu hm]
        exact h.1 this

theorem pyStrip_hash_ne_empty (s : String) : pyStrip ("hash$" ++ s) ≠ "" := by
  intro h
  have hd := congrArg String.data h
  have hdata : ("hash$" ++ s).data = 'h' :: 'a' :: 's' :: 'h' :: '$' :: s.data := by
    simp
  rw [pyStrip] at hd
  simp only [hdata] at hd
  rw [List.dropWhile_cons, if_neg (by decide : ¬(isPySpace 'h' = true))] at hd
  have hnil : List.dropWhile isPySpace
      (('h' :: 'a' :: 's' :: 'h' :: '$' :: s.data).reverse) = [] := by
    have h3 := congrArg List.reverse hd
    simpa using h3
  rw [List.dropWhile_eq_nil_iff] at hnil
  exact absurd (hnil 'h' (by simp)) (by decide)

/-- After a successful `save_workspace_password(p)` the stored hash is the
hash of the stripped password: the save raises nothing, and the next
`get_workspace_password_hash` returns it without further migration. -/
theorem saveWorkspacePassword_spec (st : Store) (p : String) (now : ℚ)
    (hok : (getWorkspaceSecurityMeta st).2.1 = true)
    (hser : serializableFields (getWorkspaceSecurityMeta st).2.2 = true)
    (hp : pyStrip p ≠ "") :
    (saveWorkspacePassword st p now).2 = none ∧
    getWorkspaceSecurityMeta (saveWorkspacePassword st p now).1 =
      ((saveWorkspacePassword st p now).1, true,
        setItem (setItem (getWorkspaceSecurityMeta st).2.2 "passwordHash"
          (vstr (generatePasswordHash (pyStrip p)))) "updatedAt" (vnum now)) ∧
    getWorkspacePasswordHash (saveWorkspacePassword st p now).1 =
      ((saveWorkspacePassword st p now).1, true, some (generatePasswordHash (pyStrip p))) := by
  rcases hG : getWorkspaceSecurityMeta st with ⟨stg, okg, payload⟩
  rw [hG] at hok hser
  simp only at hok hser
  subst hok
  set payload2 := setItem (setItem payload "passwordHash"
    (vstr (generatePasswordHash (pyStrip p)))) "updatedAt" (vnum now) with hpayload2
  have hser2 : serializable (vobj payload2) = true := by
    rw [show serializable (vobj payload2) = serializableFields payload2 from rfl, hpayload2]
    exact serializableFields_setItem _ _ _
      (serializableFields_setItem _ _ _ hser rfl) rfl
  have hne2 : payload2 ≠ [] := hpayload2 ▸ setItem_ne_nil _ _ _
  have htruthy : pyTruthy (vobj payload2) = true := by
    cases hp2 : payload2 with
    | nil => exact absurd hp2 hne2
    | cons e t => rfl
  have hsave_eq : saveWorkspacePassword st p now =
      (delMeta { stg with meta := setItem stg.meta projectSecurityMetaKey (vobj payload2) }
        legacySecurityMetaKey, none) := by
    simp only [saveWorkspacePassword, if_neg hp, hG, setWorkspaceSecurityMeta, htruthy,
      if_true, setMetaE, hser2, ← hpayload2]
  rw [hsave_eq]
  refine ⟨rfl, ?_, ?_⟩
  · have hgm : getMetaVal
        (delMeta { stg with meta := setItem stg.meta projectSecurityMetaKey (vobj payload2) }
          legacySecurityMetaKey) projectSecurityMetaKey = some (vobj payload2) := by
      simp only [getMetaVal, delMeta]
      rw [getEntry_delAll_other _ _ _ (by decide), getEntry_setItem_self]
    simp only [getWorkspaceSecurityMeta, hgm]
  · have hgm : getMetaVal
        (delMeta { stg with meta := setItem stg.meta projectSecurityMetaKey (vobj payload2) }
          legacySecurityMetaKey) projectSecurityMetaKey = some (vobj payload2) := by
      simp only [getMetaVal, delMeta]
      rw [getEntry_delAll_other _ _ _ (by decide), getEntry_setItem_self]
    have hentry : getEntry payload2 "passwordHash" =
        some (vstr (generatePasswordHash (pyStrip p))) := by
      rw [hpayload2, getEntry_setItem_other _ _ _ _ (by decide), getEntry_setItem_self]
    have hnzStrip : pyStrip (generatePasswordHash (pyStrip p)) ≠ "" := by
      rw [generatePasswordHash]
      exact pyStrip_hash_ne_empty _
    simp only [getWorkspacePasswordHash, getWorkspaceSecurityMeta, hgm, hentry, if_true,
      if_pos hnzStrip]

/-- After a successful `clear_workspace_password` no hash is stored. -/
theorem clearWorkspacePassword_spec (st : Store) (now : ℚ)
    (hok : (getWorkspaceSecurityMeta st).2.1 = true)
    (hser : serializableFields (getWorkspaceSecurityMeta st).2.2 = true)
    (hnd : ((getWorkspaceSecurityMeta st).2.2.map Prod.fst).Nodup) :
    (clearWorkspacePassword st now).2 = none ∧
    getWorkspacePasswordHash (clearWorkspacePassword st now).1 =
      ((clearWorkspacePassword st now).1, true, none) := by
  rcases hG : getWorkspaceSecurityMeta st with ⟨stg, okg, payload⟩
  rw [hG] at hok hser hnd
  simp only at hok hser hnd
  subst hok
  set payload3 := if (getEntry payload "passwordHash").isSome then popEntry payload "passwordHash"
    else payload with hpayload3
  have hser3 : serializableFields payload3 = true := by
    rw [hpayload3]
    by_cases hi : (getEntry payload "passwordHash").isSome
    · rw [if_pos hi]
      exact serializableFields_popEntry _ _ hser
    · rwa [if_neg hi]
  have hnohash3 : getEntry payload3 "passwordHash" = none := by
    rw [hpayload3]
    by_cases hi : (getEntry payload "passwordHash").isSome
    · rw [if_pos hi]
      exact getEntry_popEntry_self _ _ hnd
    · rw [if_neg hi]
      exact Option.not_isSome_iff_eq_none.mp hi
  set payload4 := setItem payload3 "updatedAt" (vnum now) with hpayload4
  have hser4 : serializable (vobj payload4) = true := by
    rw [show serializable (vobj payload4) = serializableFields payload4 from rfl, hpayload4]
    exact serializableFields_setItem _ _ _ hser3 rfl
  have hne4 : payload4 ≠ [] := hpayload4 ▸ setItem_ne_nil _ _ _
  have htruthy : pyTruthy (vobj payload4) = true := by
    cases hp4 : payload4 with
    | nil => exact absurd hp4 hne4
    | cons e t => rfl
  have hclear_eq : clearWorkspacePassword st now =
      (delMeta { stg with meta := setItem stg.meta projectSecurityMetaKey (vobj payload4) }
        legacySecurityMetaKey, none) := by
    simp only [clearWorkspacePassword, hG, setWorkspaceSecurityMeta, htruthy, if_true,
      setMetaE, hser4, ← hpayload3, ← hpayload4]
  rw [hclear_eq]
  refine ⟨rfl, ?_⟩
  have hgm : getMetaVal
      (delMeta { stg with meta := setItem stg.meta projectSecurityMetaKey (vobj payload4) }
        legacySecurityMetaKey) projectSecurityMetaKey = some (vobj payload4) := by
    simp only [getMetaVal, delMeta]
    rw [getEntry_delAll_other _ _ _ (by decide), getEntry_setItem_self]
  have hentry : getEntry payload4 "passwordHash" = none := by
    rw [hpayload4, getEntry_setItem_other _ _ _ _ (by decide), hnohash3]
  simp only [getWorkspacePasswordHash, getWorkspaceSecurityMeta, hgm, hentry, if_true]

theorem getWorkspacePasswordHash_of_none (st : Store)
    (hok : (getWorkspaceSecurityMeta st).2.1 = true)
    (hnone : (getWorkspacePasswordHash st).2.2 = none) :
    getWorkspacePasswordHash st = ((getWorkspaceSecurityMeta st).1, true, none) := by
  rcases hG : getWorkspaceSecurityMeta st with ⟨stg, okg, payload⟩
  rw [hG] at hok
  simp only at hok
  subst hok
  simp only [getWorkspacePasswordHash, hG, if_true] at hnone ⊢
  cases hE : getEntry payload "passwordHash" with
  | none => simp [hE]
  | some v =>
    cases v with
    | vstr s =>
      by_cases hs : pyStrip s ≠ ""
      · simp [hE, hs] at hnone
      · simp [hE, hs]
    | vnull => simp [hE]
    | vbool b => simp [hE]
    | vint n => simp [hE]
    | vnum q => simp [hE]
    | varr xs => simp [hE]
    | vobj fs => simp [hE]
    | vopaque t => simp [hE]

/-- C5: the workspace password lifecycle.  While no password hash is
stored, `verify_workspace_password` accepts every candidate; after
`save_workspace_password("x")`, candidate `"x"` verifies and `"y"` does
not; after `clear_workspace_password()`, every candidate verifies again.
The hypotheses say the stored security mapping is readable and
well-formed: its read succeeds, it holds no password hash, its values are
JSON-serializable and its keys are unique (all guaranteed for any mapping
that went through `_serialize`). -/
theorem workspace_password_lifecycle (st : Store) (now1 now2 : ℚ)
    (hok : (getWorkspaceSecurityMeta st).2.1 = true)
    (hnone : (getWorkspacePasswordHash st).2.2 = none)
    (hser : serializableFields (getWorkspaceSecurityMeta st).2.2 = true)
    (hnd : ((getWorkspaceSecurityMeta st).2.2.map Prod.fst).Nodup) :
    (∀ c, (verifyWorkspacePassword st c).2 = some true) ∧
    (saveWorkspacePassword st "x" now1).2 = none ∧
    (verifyWorkspacePassword (saveWorkspacePassword st "x" now1).1 "x").2 = some true ∧
    (verifyWorkspacePassword (saveWorkspacePassword st "x" now1).1 "y").2 = some false ∧
    (clearWorkspacePassword (saveWorkspacePassword st "x" now1).1 now2).2 = none ∧
    (∀ c, (verifyWorkspacePassword
      (clearWorkspacePassword (saveWorkspacePassword st "x" now1).1 now2).1 c).2 = some true) := by
  obtain ⟨hs1, hs2, hs3⟩ := saveWorkspacePassword_spec st "x" now1 hok hser (by decide)
  have hH := getWorkspacePasswordHash_of_none st hok hnone
  have hok1 : (getWorkspaceSecurityMeta (saveWorkspacePassword st "x" now1).1).2.1 = true := by
    rw [hs2]
  have hser1 : serializableFields
      (getWorkspaceSecurityMeta (saveWorkspacePassword st "x" now1).1).2.2 = true := by
    rw [hs2]
    exact serializableFields_setItem _ _ _ (serializableFields_setItem _ _ _ hser rfl) rfl
  have hnd1 : ((getWorkspaceSecurityMeta (saveWorkspacePassword st "x" now1).1).2.2.map
      Prod.fst).Nodup := by
    rw [hs2]
    exact setItem_nodup_fst _ _ _ (setItem_nodup_fst _ _ _ hnd)
  obtain ⟨hc1, hc2⟩ := clearWorkspacePassword_spec (saveWorkspacePassword st "x" now1).1 now2
    hok1 hser1 hnd1
  refine ⟨?_, hs1, ?_, ?_, hc1, ?_⟩
  · intro c
    simp only [verifyWorkspacePassword, hH, if_true]
  · simp only [verifyWorkspacePassword, hs3, if_true]
    rw [if_neg (by decide : ¬(pyStrip "x" = ""))]
    exact (by decide :
      some (checkPasswordHash (generatePasswordHash (pyStrip "x")) (pyStrip "x")) = some true)
  · simp only [verifyWorkspacePassword, hs3, if_true]
    rw [if_neg (by decide : ¬(pyStrip "y" = ""))]
    exact (by decide :
      some (checkPasswordHash (generatePasswordHash (pyStrip "x")) (pyStrip "y")) = some false)
  · intro c
    simp only [verifyWorkspacePassword, hc2, if_true]

/-- Witness for C5 on a freshly created store: verify-anything, then save
`"x"`, verify `"x"`/`"y"`, clear, verify-anything again. -/
theorem workspace_password_lifecycle_witness :
    (verifyWorkspacePassword Store.empty "anything").2 = some true ∧
    (saveWorkspacePassword Store.empty "x" 1).2 = none ∧
    (verifyWorkspacePassword (saveWorkspacePassword Store.empty "x" 1).1 "x").2 = some true ∧
    (verifyWorkspacePassword (saveWorkspacePassword Store.empty "x" 1).1 "y").2 = some false ∧
    (clearWorkspacePassword (saveWorkspacePassword Store.empty "x" 1).1 2).2 = none ∧
    (verifyWorkspacePassword
      (clearWorkspacePassword (saveWorkspacePassword Store.empty "x" 1).1 2).1
      "anything").2 = some true := by
  obtain ⟨h1, h2, h3, h4, h5, h6⟩ := workspace_password_lifecycle Store.empty 1 2
    (by decide) (by decide) (by decide) (by decide)
  exact ⟨h1 "anything", h2, h3, h4, h5, h6 "anything"⟩

/-- C10: passwords are whitespace-normalized at the public interface.
`save_workspace_password` rejects a blank password before any write
(returning the store unchanged with the raised message), otherwise hashes
the stripped password; `verify_workspace_password` strips the candidate,
so any candidate with the same strip verifies and any blank candidate is
rejected while a hash is stored. -/
theorem password_strip_normalization (st : Store) (p c : String) (now : ℚ)
    (hok : (getWorkspaceSecurityMeta st).2.1 = true)
    (hser : serializableFields (getWorkspaceSecurityMeta st).2.2 = true) :
    (pyStrip p = "" → saveWorkspacePassword st p now = (st, some "密码不能为空")) ∧
    (pyStrip p ≠ "" →
      (saveWorkspacePassword st p now).2 = none ∧
      (pyStrip c = pyStrip p →
        (verifyWorkspacePassword (saveWorkspacePassword st p now).1 c).2 = some true) ∧
      (pyStrip c = "" →
        (verifyWorkspacePassword (saveWorkspacePassword st p now).1 c).2 = some false)) := by
  constructor
  · intro hblank
    simp only [saveWorkspacePassword, if_pos hblank]
  · intro hp
    obtain ⟨hs1, hs2, hs3⟩ := saveWorkspacePassword_spec st p now hok hser hp
    refine ⟨hs1, ?_, ?_⟩
    · intro hc
      simp only [verifyWorkspacePassword, hs3, if_true]
      rw [if_neg (hc ▸ hp), hc]
      show some (checkPasswordHash (generatePasswordHash (pyStrip p)) (pyStrip p)) = some true
      simp [checkPasswordHash, generatePasswordHash]
    · intro hc
      simp only [verifyWorkspacePassword, hs3, if_true]
      rw [if_pos hc]

/-- Witness for C10: password `"  x  "` is stored as `"x"`; candidate
`"x"` verifies, a whitespace-only candidate does not, and saving a
whitespace-only password raises before any write. -/
theorem password_strip_normalization_witness :
    (saveWorkspacePassword Store.empty "  x  " 1).2 = none ∧
    (verifyWorkspacePassword (saveWorkspacePassword Store.empty "  x  " 1).1 "x").2 =
      some true ∧
    (verifyWorkspacePassword (saveWorkspacePassword Store.empty "  x  " 1).1 "   ").2 =
      some false ∧
    saveWorkspacePassword Store.empty "   " 1 = (Store.empty, some "密码不能为空") := by
  obtain ⟨-, hb1⟩ := password_strip_normalization Store.empty "  x  " "x" 1
    (by decide) (by decide)
  obtain ⟨-, hb2⟩ := password_strip_normalization Store.empty "  x  " "   " 1
    (by decide) (by decide)
  obtain ⟨ha3, -⟩ := password_strip_normalization Store.empty "   " "x" 1
    (by decide) (by decide)
  obtain ⟨hsv, hvt, -⟩ := hb1 (by decide)
  obtain ⟨-, -, hvf⟩ := hb2 (by decide)
  exact ⟨hsv, hvt (by decide), hvf (by decide), ha3 (by decide)⟩

/-! The asset store. -/

/-- ASCII lowering as used on scope identifiers (`str.lower()`; Unicode
lowering is abstracted — scopes are ASCII literals). -/
def pyLower (s : String) : String :=
  ⟨s.data.map (fun c => if 'A' ≤ c ∧ c ≤ 'Z' then Char.ofNat (c.toNat + 32) else c)⟩

/-- `_asset_table_for_scope`: `some true` selects `attachments`,
`some false` selects `resource_files`, `none` is the `ValueError` on an
unknown scope. -/
def assetScopeTable (scope : String) : Option Bool :=
  let normalized := pyLower (pyStrip scope)
  if normalized = "attachment" then some true
  else if normalized = "resource" then some false
  else none

/-- The selected scope's table. -/
def scopeRows (st : Store) (isAttachment : Bool) : List AssetRow :=
  if isAttachment then st.attachments else st.resourceFiles

/-- Write back the selected scope's table. -/
def setScopeRows (st : Store) (isAttachment : Bool) (rows : List AssetRow) : Store :=
  if isAttachment then { st with attachments := rows } else { st with resourceFiles := rows }

/-- `metadata or {}` as serialized by `save_or_replace_asset`. -/
def assetMetaVal (metadata : PyVal) : PyVal :=
  if pyTruthy metadata then metadata else vobj []

/-- `BenortPackage.save_or_replace_asset`: serialize the metadata (raising
first on non-serializable input), resolve the scope table (`ValueError` on
an unknown scope), then find-by-name and update the existing row in place
— keeping its id — or insert a new row with a fresh id.  The Bool is
false when the call raised (bad metadata, bad scope, or a primary-key
clash on the fresh id). -/
def saveOrReplaceAsset (st : Store) (name scope : String) (data : String)
    (mime pageId : Option String) (metadata : PyVal) (freshId : String) (now : ℚ) :
    Store × Bool :=
  if serializable (assetMetaVal metadata) then
    match assetScopeTable scope with
    | none => (st, false)
    | some isAttachment =>
      let tbl := scopeRows st isAttachment
      match findByKey (fun r : AssetRow => r.name) name tbl with
      | some row =>
        let tbl2 := tbl.map (fun r =>
          if r.id = row.id then
            { r with
              data := data
              mime := mime
              pageId := pageId
              metadata := assetMetaVal metadata
              updatedAt := now }
          else r)
        (setScopeRows st isAttachment tbl2, true)
      | none =>
        if freshId ∈ tbl.map (fun r => r.id) then (st, false)
        else
          (setScopeRows st isAttachment
            (tbl ++ [⟨freshId, name, pageId, mime, data, assetMetaVal metadata, now⟩]), true)
  else (st, false)

/-- C6: calling `save_or_replace_asset` twice with the same name and scope
but different payloads leaves exactly one row for that name in that
scope's table, holding the second call's payload (data, mime, page id,
metadata), and the surviving row keeps the id created by the first call.
Hypotheses: the scope is valid, both metadata values serialize, no row
with that name exists beforehand, and the first fresh id does not clash
with an existing primary key. -/
theorem save_or_replace_asset_upsert (st : Store) (name scope : String) (b : Bool)
    (d1 d2 : String) (m1 m2 pg1 pg2 : Option String) (md1 md2 : PyVal)
    (f1 f2 : String) (t1 t2 : ℚ)
    (hscope : assetScopeTable scope = some b)
    (hmd1 : serializable (assetMetaVal md1) = true)
    (hmd2 : serializable (assetMetaVal md2) = true)
    (hname : name ∉ (scopeRows st b).map (fun r => r.name))
    (hid1 : f1 ∉ (scopeRows st b).map (fun r => r.id)) :
    (saveOrReplaceAsset st name scope d1 m1 pg1 md1 f1 t1).2 = true ∧
    (saveOrReplaceAsset (saveOrReplaceAsset st name scope d1 m1 pg1 md1 f1 t1).1
      name scope d2 m2 pg2 md2 f2 t2).2 = true ∧
    (scopeRows (saveOrReplaceAsset (saveOrReplaceAsset st name scope d1 m1 pg1 md1 f1 t1).1
        name scope d2 m2 pg2 md2 f2 t2).1 b).filter (fun r => r.name = name) =
      [⟨f1, name, pg2, m2, d2, assetMetaVal md2, t2⟩] := by
  have hfind1 : findByKey (fun r : AssetRow => r.name) name (scopeRows st b) = none :=
    findByKey_eq_none _ _ _ hname
  have hstep1 : saveOrReplaceAsset st name scope d1 m1 pg1 md1 f1 t1 =
      (setScopeRows st b
        (scopeRows st b ++ [⟨f1, name, pg1, m1, d1, assetMetaVal md1, t1⟩]), true) := by
    simp only [saveOrReplaceAsset, hmd1, if_true, hscope, hfind1, if_neg hid1]
  rw [hstep1]
  have hrows1 : scopeRows (setScopeRows st b
      (scopeRows st b ++ [⟨f1, name, pg1, m1, d1, assetMetaVal md1, t1⟩])) b =
      scopeRows st b ++ [⟨f1, name, pg1, m1, d1, assetMetaVal md1, t1⟩] := by
    cases b with
    | true => rfl
    | false => rfl
  have hfind2 : findByKey (fun r : AssetRow => r.name) name
      (scopeRows st b ++ [⟨f1, name, pg1, m1, d1, assetMetaVal md1, t1⟩]) =
      some ⟨f1, name, pg1, m1, d1, assetMetaVal md1, t1⟩ := by
    rw [findByKey_append, hfind1]
    simp [findByKey]
  have hstep2 : saveOrReplaceAsset (setScopeRows st b
        (scopeRows st b ++ [⟨f1, name, pg1, m1, d1, assetMetaVal md1, t1⟩]))
      name scope d2 m2 pg2 md2 f2 t2 =
      (setScopeRows (setScopeRows st b
          (scopeRows st b ++ [⟨f1, name, pg1, m1, d1, assetMetaVal md1, t1⟩])) b
        ((scopeRows st b ++ [(⟨f1, name, pg1, m1, d1, assetMetaVal md1, t1⟩ : AssetRow)]).map
          (fun r =>
          if r.id = f1 then
            { r with
              data := d2
              mime := m2
              pageId := pg2
              metadata := assetMetaVal md2
              updatedAt := t2 }
          else r)), true) := by
    simp only [saveOrReplaceAsset, hmd2, if_true, hscope, hrows1, hfind2]
  rw [hstep2]
  constructor
  · rfl
  constructor
  · rfl
  · have hmap : (scopeRows st b ++ [(⟨f1, name, pg1, m1, d1, assetMetaVal md1, t1⟩ : AssetRow)]).map
        (fun r =>
        if r.id = f1 then
          ({ r with
            data := d2
            mime := m2
            pageId := pg2
            metadata := assetMetaVal md2
            updatedAt := t2 } : AssetRow)
        else r) =
        scopeRows st b ++ [⟨f1, name, pg2, m2, d2, assetMetaVal md2, t2⟩] := by
      rw [List.map_append]
      congr 1
      · refine (List.map_congr_left ?_).trans (List.map_id _)
        intro r hr
        have hne : r.id ≠ f1 := fun he => hid1 (he ▸ List.mem_map_of_mem (fun r => r.id) hr)
        simp [hne]
      · simp
    have hrows2 : scopeRows (setScopeRows (setScopeRows st b
        (scopeRows st b ++ [⟨f1, name, pg1, m1, d1, assetMetaVal md1, t1⟩])) b
        ((scopeRows st b ++ [(⟨f1, name, pg1, m1, d1, assetMetaVal md1, t1⟩ : AssetRow)]).map
          (fun r =>
          if r.id = f1 then
            { r with
              data := d2
              mime := m2
              pageId := pg2
              metadata := assetMetaVal md2
              updatedAt := t2 }
          else r))) b =
        (scopeRows st b ++ [(⟨f1, name, pg1, m1, d1, assetMetaVal md1, t1⟩ : AssetRow)]).map
          (fun r =>
          if r.id = f1 then
            { r with
              data := d2
              mime := m2
              pageId := pg2
              metadata := assetMetaVal md2
              updatedAt := t2 }
          else r) := by
      cases b with
      | true => rfl
      | false => rfl
    rw [hrows2, hmap, List.filter_append]
    have hfil : (scopeRows st b).filter (fun r => r.name = name) = [] := by
      rw [List.filter_eq_nil_iff]
      intro r hr hc
      exact hname ((by simpa using hc : r.name = name) ▸
        List.mem_map_of_mem (fun r => r.name) hr)
    rw [hfil]
    simp

/-- Witness for C6: uploading `"img.png"` twice into the attachment scope
with different payloads leaves one row carrying the first id and the
second payload. -/
theorem save_or_replace_asset_upsert_witness :
    (saveOrReplaceAsset Store.empty "img.png" "attachment" "v1" (some "image/png") none
      vnull "id1" 1).2 = true ∧
    (saveOrReplaceAsset (saveOrReplaceAsset Store.empty "img.png" "attachment" "v1"
        (some "image/png") none vnull "id1" 1).1
      "img.png" "attachment" "v2" (some "image/jpeg") (some "pg") (vobj [("k", vstr "v")])
      "id2" 2).2 = true ∧
    (scopeRows (saveOrReplaceAsset (saveOrReplaceAsset Store.empty "img.png" "attachment" "v1"
        (some "image/png") none vnull "id1" 1).1
      "img.png" "attachment" "v2" (some "image/jpeg") (some "pg") (vobj [("k", vstr "v")])
      "id2" 2).1 true).filter (fun r => r.name = "img.png") =
      [⟨"id1", "img.png", some "pg", some "image/jpeg", "v2", vobj [("k", vstr "v")], 2⟩] := by
  have h := save_or_replace_asset_upsert Store.empty "img.png" "attachment" true
    "v1" "v2" (some "image/png") (some "image/jpeg") none (some "pg") vnull
    (vobj [("k", vstr "v")]) "id1" "id2" 1 2
    (by decide) (by decide) (by decide) (by decide) (by decide)
  exact h

/-! The learning-record store. -/

/-- `LEARNING_RECORD_TTL_SECONDS` as resolved with no overriding
environment variables: the 30-day default. -/
def LEARNING_RECORD_TTL_SECONDS : Int := 30 * 24 * 3600

/-- Digit value of an ASCII digit. -/
def charDigit (c : Char) : Option ℕ :=
  if '0' ≤ c ∧ c ≤ '9' then some (c.toNat - 48) else none

/-- Decimal value of a digit string (`some 0` on the empty string; callers
check emptiness where Python requires digits). -/
def digitsVal (cs : List Char) : Option ℕ :=
  cs.foldl (fun acc c => acc.bind (fun a => (charDigit c).map (fun d => a * 10 + d)))
    (some 0)

/-- Python `float(str)` on the plain forms `[sign] digits [. digits]
[(e|E) [sign] digits]` after stripping; special forms (`inf`, `nan`,
digit underscores) are abstracted to a parse failure. -/
def parsePyFloat (s : String) : Option ℚ :=
  let cs := (pyStrip s).data
  let signAndRest : ℚ × List Char :=
    match cs with
    | '+' :: rest => (1, rest)
    | '-' :: rest => (-1, rest)
    | rest => (1, rest)
  let sign := signAndRest.1
  let body := signAndRest.2
  let mantAndExp : List Char × Option (List Char) :=
    match body.span (fun c => ¬(c = 'e' ∨ c = 'E')) with
    | (m, []) => (m, none)
    | (m, _ :: rest) => (m, some rest)
  let mant := mantAndExp.1
  let ipartAndFpart : List Char × List Char :=
    match mant.span (fun c => c ≠ '.') with
    | (i, []) => (i, [])
    | (i, _ :: rest) => (i, rest)
  let ipart := ipartAndFpart.1
  let fpart := ipartAndFpart.2
  if fpart.any (fun c => c = '.') then none
  else if ipart.isEmpty ∧ fpart.isEmpty then none
  else
    match digitsVal ipart, digitsVal fpart with
    | some iv, some fv =>
      let base : ℚ := sign * ((iv : ℚ) + (fv : ℚ) / (10 : ℚ) ^ fpart.length)
      match mantAndExp.2 with
      | none => some base
      | some ec =>
        let esignAndRest : Int × List Char :=
          match ec with
          | '+' :: rest => (1, rest)
          | '-' :: rest => (-1, rest)
          | rest => (1, rest)
        if esignAndRest.2.isEmpty then none
        else
          match digitsVal esignAndRest.2 with
          | some ev => some (base * (10 : ℚ) ^ (esignAndRest.1 * (ev : Int)))
          | none => none
    | _, _ => none

/-- Python `float(x)` under `try/except (TypeError, ValueError)`: numbers
and booleans convert, strings parse, everything else fails. -/
def pyFloat (v : PyVal) : Option ℚ :=
  match v with
  | vint n => some (n : ℚ)
  | vnum q => some q
  | vbool b => some (if b then 1 else 0)
  | vstr s => parsePyFloat s
  | _ => none

/-- The favorite coercion of the learning-record store: a string counts as
set exactly for the tokens `1/true/yes/on` (case-insensitively, after
stripping); any other value goes through Python truthiness. -/
def favoriteFlagOf (v : PyVal) : Bool :=
  match v with
  | vstr s => pyLower (pyStrip s) ∈ ["1", "true", "yes", "on"]
  | _ => pyTruthy v

/-- Python `record.get(k, default)`. -/
def getDD (fs : List (String × PyVal)) (k : String) (dflt : PyVal) : PyVal :=
  match getEntry fs k with
  | some v => v
  | none => dflt

/-- `_prune_learning_records`: delete every non-favorite row older than
the TTL (cutoff `now - ttl`); a falsy `ttl_seconds` argument falls back to
the module default, and a non-positive TTL disables pruning. -/
def pruneLearningRecords (st : Store) (now : ℚ) (ttlSeconds : Option Int) : Store × ℕ :=
  let ttl : Int :=
    match ttlSeconds with
    | some t => if t = 0 then LEARNING_RECORD_TTL_SECONDS else t
    | none => LEARNING_RECORD_TTL_SECONDS
  if ttl ≤ 0 then (st, 0)
  else
    let cutoff := now - (ttl : ℚ)
    let doomed := st.learningRecords.filter (fun r => r.favorite = false ∧ r.savedAt < cutoff)
    ({ st with learningRecords :=
        st.learningRecords.filter (fun r => ¬(r.favorite = false ∧ r.savedAt < cutoff)) },
      doomed.length)

/-- One record as returned by the learning-record read paths. -/
structure RecordOut where
  id : String
  input : PyVal
  context : PyVal
  promptId : PyVal
  promptName : PyVal
  method : Option String
  category : Option String
  favorite : Bool
  output : PyVal
  review : Option PyVal
  savedAt : ℚ
deriving Repr

/-- Build the returned dict of a `learning_records` row (the stored
`review_state` text is non-empty whenever present, so it deserializes
exactly when the column is non-NULL). -/
def recordOutOfRow (r : LearningRecordRow) : RecordOut :=
  ⟨r.id, r.input, r.context, r.promptId, r.promptName, r.method, r.category, r.favorite,
    r.output, r.reviewState, r.savedAt⟩

/-- `list_learning_records`: prune, then list ordered by `saved_at`
descending. -/
def listLearningRecords (st : Store) (now : ℚ) : Store × List RecordOut :=
  let st1 := (pruneLearningRecords st now none).1
  let rows := sortByKey (fun r : LearningRecordRow => OrderDual.toDual r.savedAt)
    st1.learningRecords
  (st1, rows.map recordOutOfRow)

/-- `get_learning_record_entry`: strip the id (blank ids return nothing
without pruning), prune, then fetch by id. -/
def getLearningRecordEntry (st : Store) (recordId : String) (now : ℚ) :
    Store × Option RecordOut :=
  let rid := pyStrip recordId
  if rid = "" then (st, none)
  else
    let st1 := (pruneLearningRecords st now none).1
    match findByKey (fun r : LearningRecordRow => r.id) rid st1.learningRecords with
    | none => (st1, none)
    | some r => (st1, some (recordOutOfRow r))

/-- The record id chosen by `save_learning_record_entry`: the stripped
string form of a truthy `id` value, else a fresh uuid. -/
def learningRecordIdOf (rec : List (String × PyVal)) (freshId : String) : String :=
  let rid := pyStrip (pyStr (pyOr (getD rec "id") (vstr "")))
  if rid = "" then freshId else rid

/-- Upsert into `learning_records` (`ON CONFLICT(id) DO UPDATE`). -/
def upsertLearningRow : List LearningRecordRow → LearningRecordRow → List LearningRecordRow
  | [], row => [row]
  | r :: rest, row => if r.id = row.id then row :: rest else r :: upsertLearningRow rest row

/-- The `method` column of `save_learning_record_entry`: `method` with a
`learningMethod` fallback when absent, stripped string form, empty
collapsed to NULL. -/
def learningMethodCol (rec : List (String × PyVal)) : Option String :=
  let methodSource :=
    match getD rec "method" with
    | vnull => getD rec "learningMethod"
    | v => v
  let methodValue :=
    match methodSource with
    | vnull => ""
    | v => pyStrip (pyStr v)
  if methodValue = "" then none else some methodValue

/-- The `category` column of `save_learning_record_entry`: `category` with
a `group`-or-`classification` fallback when absent. -/
def learningCategoryCol (rec : List (String × PyVal)) : Option String :=
  let categorySource :=
    match getD rec "category" with
    | vnull => pyOr (getD rec "group") (getD rec "classification")
    | v => v
  let categoryValue :=
    match categorySource with
    | vnull => ""
    | v => pyStrip (pyStr v)
  if categoryValue = "" then none else some categoryValue

/-- `_serialize(raw) if isinstance(raw, (dict, list)) else None`, keeping
the serialization failure (`none`) separate: whether the review value
serializes. -/
def reviewSerializable : PyVal → Bool
  | vobj fs => serializableFields fs
  | varr xs => serializableList xs
  | _ => true

/-- The stored `review_state` value for a given raw review value, when
serialization succeeds. -/
def reviewStateOf : PyVal → Option PyVal
  | vobj fs => some (vobj fs)
  | varr xs => some (varr xs)
  | _ => none

/-- The review serialization gate: `none` is the raised
exception, `some rs` the stored column value. -/
def reviewGateOf : PyVal → Option (Option PyVal)
  | vobj fs => if serializableFields fs then some (some (vobj fs)) else none
  | varr xs => if serializableList xs then some (some (varr xs)) else none
  | _ => some none

/-- The row written by `save_learning_record_entry`. -/
def learningRowOf (rec : List (String × PyVal)) (now : ℚ) (freshId : String)
    (reviewState : Option PyVal) : LearningRecordRow :=
  { id := learningRecordIdOf rec freshId
    input := getDD rec "input" (vstr "")
    context := getD rec "context"
    promptId := pyOr (getD rec "promptId") (getD rec "prompt_id")
    promptName := pyOr (getD rec "promptName") (getD rec "prompt_name")
    method := learningMethodCol rec
    category := learningCategoryCol rec
    favorite := favoriteFlagOf (getD rec "favorite")
    output := getDD rec "output" (vstr "")
    reviewState := reviewState
    savedAt := (pyFloat (getD rec "savedAt")).getD now }

/-- Set a string key only when the optional column value is truthy
(`if payload[col]: result[key] = ...`). -/
def setOptStr (l : List (String × PyVal)) (k : String) : Option String → List (String × PyVal)
  | some s => setItem l k (vstr s)
  | none => l

/-- Set a key only when the optional value is present. -/
def setOptVal (l : List (String × PyVal)) (k : String) : Option PyVal → List (String × PyVal)
  | some v => setItem l k v
  | none => l

/-- The dict returned by `save_learning_record_entry`: a copy of the input
with id/savedAt/favorite overwritten and method/category/review set when
their stored columns are truthy. -/
def learningResultOf (rec : List (String × PyVal)) (now : ℚ) (freshId : String)
    (reviewState : Option PyVal) : List (String × PyVal) :=
  let result := setItem rec "id" (vstr (learningRecordIdOf rec freshId))
  let result := setItem result "savedAt" (vnum ((pyFloat (getD rec "savedAt")).getD now))
  let result := setItem result "favorite" (vbool (favoriteFlagOf (getD rec "favorite")))
  let result := setOptStr result "method" (learningMethodCol rec)
  let result := setOptStr result "category" (learningCategoryCol rec)
  setOptVal result "review" reviewState

/-- `save_learning_record_entry`: coerce all fields, upsert by id, build
the returned dict, then prune.  `none` means the call raised (the only
modelled failure is serializing a non-JSON-serializable review value,
which happens before the row is written). -/
def saveLearningRecordEntry (st : Store) (rec : List (String × PyVal)) (now : ℚ)
    (freshId : String) : Store × Option (List (String × PyVal)) :=
  match reviewGateOf (pyOr (getD rec "review") (getD rec "review_state")) with
  | none => (st, none)
  | some reviewState =>
    let row := learningRowOf rec now freshId reviewState
    let st1 := { st with learningRecords := upsertLearningRow st.learningRecords row }
    ((pruneLearningRecords st1 now none).1,
      some (learningResultOf rec now freshId reviewState))

/-- The recognized column updates of `update_learning_record_entry`. -/
structure LearningColumnUpdates where
  method : Option (Option String) := none
  category : Option (Option String) := none
  favorite : Option Bool := none
  input : Option PyVal := none
  context : Option (Option PyVal) := none
  output : Option PyVal := none
  review : Option (Option PyVal) := none

/-- Whether any column update is present (`if not columns: return None`). -/
def LearningColumnUpdates.isEmpty (u : LearningColumnUpdates) : Bool :=
  u.method.isNone && u.category.isNone && u.favorite.isNone && u.input.isNone &&
    u.context.isNone && u.output.isNone && u.review.isNone

/-- Apply the column updates to one row. -/
def applyLearningUpdates (u : LearningColumnUpdates) (r : LearningRecordRow) :
    LearningRecordRow :=
  { r with
    method := u.method.getD r.method
    category := u.category.getD r.category
    favorite := u.favorite.getD r.favorite
    input := u.input.getD r.input
    context := (u.context.map (fun c => c.getD vnull)).getD r.context
    output := u.output.getD r.output
    reviewState := u.review.getD r.reviewState }

/-- The `method` column update (`if "method" in updates: ...`). -/
def updMethod (ufs : List (String × PyVal)) (u : LearningColumnUpdates) :
    LearningColumnUpdates :=
  match getEntry ufs "method" with
  | some vnull => { u with method := some none }
  | some v =>
    { u with method := some (if pyStrip (pyStr v) = "" then none
        else some (pyStrip (pyStr v))) }
  | none => u

/-- The `category` column update. -/
def updCategory (ufs : List (String × PyVal)) (u : LearningColumnUpdates) :
    LearningColumnUpdates :=
  match getEntry ufs "category" with
  | some vnull => { u with category := some none }
  | some v =>
    { u with category := some (if pyStrip (pyStr v) = "" then none
        else some (pyStrip (pyStr v))) }
  | none => u

/-- The `favorite` column update. -/
def updFavorite (ufs : List (String × PyVal)) (u : LearningColumnUpdates) :
    LearningColumnUpdates :=
  match getEntry ufs "favorite" with
  | some v => { u with favorite := some (favoriteFlagOf v) }
  | none => u

/-- The `input` column update (skipped for an explicit None). -/
def updInput (ufs : List (String × PyVal)) (u : LearningColumnUpdates) :
    LearningColumnUpdates :=
  match getEntry ufs "input" with
  | some vnull => u
  | some v => { u with input := some (vstr (pyStr v)) }
  | none => u

/-- The `context` column update (None clears the column). -/
def updContext (ufs : List (String × PyVal)) (u : LearningColumnUpdates) :
    LearningColumnUpdates :=
  match getEntry ufs "context" with
  | some vnull => { u with context := some none }
  | some v => { u with context := some (some (vstr (pyStr v))) }
  | none => u

/-- The `output` column update (skipped for an explicit None). -/
def updOutput (ufs : List (String × PyVal)) (u : LearningColumnUpdates) :
    LearningColumnUpdates :=
  match getEntry ufs "output" with
  | some vnull => u
  | some v => { u with output := some (vstr (pyStr v)) }
  | none => u

/-- The recognized column updates of an update dict, with the review
serialization gate (`none` is the raise). -/
def learningUpdatesOf (ufs : List (String × PyVal)) : Option LearningColumnUpdates :=
  let u6 := updOutput ufs (updContext ufs (updInput ufs (updFavorite ufs
    (updCategory ufs (updMethod ufs {})))))
  match getEntry ufs "review" with
  | some (vobj fs) =>
    if serializableFields fs then some { u6 with review := some (some (vobj fs)) }
    else none
  | some (varr xs) =>
    if serializableList xs then some { u6 with review := some (some (varr xs)) }
    else none
  | some vnull => some { u6 with review := some none }
  | _ => some u6

/-- The dict branch of `update_learning_record_entry`: resolve the
columns (`none` result means the review serialization raised), return
`None` when no column is recognized, update all matching rows, report
`None` on a zero rowcount, else re-read the row. -/
def updateLearningRecordGo (st : Store) (rid : String) (ufs : List (String × PyVal)) :
    Store × Option (Option RecordOut) :=
  match learningUpdatesOf ufs with
  | none => (st, none)
  | some u =>
    if u.isEmpty then (st, some none)
    else
      let matched := st.learningRecords.filter (fun r => r.id = rid)
      let rows := st.learningRecords.map
        (fun r => if r.id = rid then applyLearningUpdates u r else r)
      let st1 := { st with learningRecords := rows }
      if matched.length = 0 then (st1, some none)
      else
        match findByKey (fun r : LearningRecordRow => r.id) rid st1.learningRecords with
        | none => (st1, some none)
        | some r => (st1, some (some (recordOutOfRow r)))

/-- `update_learning_record_entry`: bail out with `None` when the id is
blank or the updates are not a dict, else run the dict branch.  The outer
`Option` is the raise; the inner is the returned value. -/
def updateLearningRecordEntry (st : Store) (recordId : String) (updates : PyVal) :
    Store × Option (Option RecordOut) :=
  let rid := pyStrip recordId
  if rid = "" then (st, some none)
  else
    match updates with
    | vobj ufs => updateLearningRecordGo st rid ufs
    | _ => (st, some none)

/-- Whether an update dict's review value (if any) serializes, i.e. the
update call does not raise. -/
def updatesReviewOK : PyVal → Bool
  | vobj ufs =>
    match getEntry ufs "review" with
    | some v => reviewSerializable v
    | none => true
  | _ => true

/-! `save_project`, `export_project` and the templates table. -/

/-- The resolved `get_default_template()` of a deployment whose template
YAML files are absent (the config fallback): the strings are abbreviated
placeholders, as no claim depends on the template text — only on the
dict shape and its JSON-serializability. -/
def defaultLatexTemplate : PyVal :=
  vobj [("header", vstr "\\documentclass\x7bbeamer\x7d"),
    ("beforePages", vstr "\\begin\x7bdocument\x7d"),
    ("footer", vstr "\\end\x7bdocument\x7d")]

/-- The resolved `get_default_markdown_template()` (same abstraction as
`defaultLatexTemplate`). -/
def defaultMarkdownTemplate : PyVal :=
  vobj [("css", vstr ".markdown-note \x7b line-height: 1.65; \x7d"),
    ("wrapperClass", vstr "markdown-note"),
    ("customHead", vstr "")]

/-- `_get_meta(key, default)`. -/
def getMetaD (st : Store) (k : String) (dflt : PyVal) : PyVal :=
  match getMetaVal st k with
  | some v => v
  | none => dflt

/-- The project meta mapping as read by `save_project`/`export_project`:
`self._get_meta("project", \x7b\x7d) or \x7b\x7d`, with any non-dict value
collapsed to the empty dict. -/
def projectMetaFields (st : Store) : List (String × PyVal) :=
  match getMetaD st "project" (vobj []) with
  | vobj fs => fs
  | _ => []

/-- The `1e-6` tolerance of the optimistic-concurrency check (floats are
modelled as rationals throughout). -/
def conflictTolerance : ℚ := 1 / 1000000

/-- The version-conflict test of `save_project`: a supplied
clientUpdatedAt/expectedUpdatedAt that parses as a float, compared against
a parseable stored updatedAt; a missing/unparseable value on either side
skips the check. -/
def versionConflict (st : Store) (payload : List (String × PyVal)) : Bool :=
  match pyOr (getD payload "clientUpdatedAt") (getD payload "expectedUpdatedAt") with
  | vnull => false
  | raw =>
    match pyFloat raw with
    | none => false
    | some e =>
      match getD (projectMetaFields st) "updatedAt" with
      | vnull => false
      | cur =>
        match pyFloat cur with
        | none => false
        | some c => c - e > conflictTolerance

/-- `save_template`: serialize `data or \x7b\x7d` (the gate can raise),
then upsert into `templates` keyed by type. -/
def saveTemplate (st : Store) (ttype : String) (data : PyVal) : Store × Bool :=
  let payload := if pyTruthy data then data else vobj []
  if serializable payload then
    ({ st with templates := setItem st.templates ttype payload }, true)
  else (st, false)

/-- `_replace_project_resources`: normalize, delete all rows, insert the
cleaned list in order. -/
def replaceProjectResources (st : Store) (v : PyVal) : Store :=
  { st with projectResources := normalizeResourceList v }

/-- `_replace_project_references`: coerce the entries, delete all rows,
then insert one serialized row per entry.  `executemany` serializes
lazily, so a non-serializable entry leaves the earlier inserts in place
and raises (second component `false`). -/
def replaceProjectReferences (st : Store) (v : PyVal) : Store × Bool :=
  let normalized := coerceBibEntries v
  let good := normalized.takeWhile serializable
  ({ st with projectReferences := good }, good.length = normalized.length)

/-- The fallback dict of `get_template_block`: the caller's default when
it is a dict, else the type's built-in default. -/
def templateFallback (ttype : String) (dflt : PyVal) : PyVal :=
  match dflt with
  | vobj fs => vobj fs
  | _ =>
    if ttype = "latex" then defaultLatexTemplate
    else if ttype = "markdown" then defaultMarkdownTemplate
    else vobj []

/-- The seeding tail of `get_template_block`: write the fallback through
`save_template` (whose serialize gate can raise) and return it. -/
def seedTemplate (st : Store) (ttype : String) (dflt : PyVal) : Store × Option PyVal :=
  let fb := templateFallback ttype dflt
  let r := saveTemplate st ttype fb
  if r.2 then (r.1, some fb) else (r.1, none)

/-- `get_template_block`: return the stored dict when the row holds a
truthy dict, else seed and return the fallback.  `none` is a raise. -/
def getTemplateBlock (st : Store) (ttype : String) (dflt : PyVal) : Store × Option PyVal :=
  match getEntry st.templates ttype with
  | some data =>
    match (if pyTruthy data then data else vobj []) with
    | vobj fs => (st, some (vobj fs))
    | _ => seedTemplate st ttype dflt
  | none => seedTemplate st ttype dflt

/-- One stored project reference as returned by
`_list_project_references`: dicts pass through, bare strings are wrapped,
anything else is dropped. -/
def bibEntryOut : PyVal → Option PyVal
  | vobj fs => some (vobj fs)
  | vstr s => some (vobj [("entry", vstr s)])
  | _ => none

/-- `export_project` (the workspace file's stem is passed in, as the model
has no filesystem).  `none` is a raise; the store can change through the
template seeding of `get_template_block`. -/
def exportProject (st : Store) (stem : String) : Store × Option PyVal :=
  let pages := varr ((listPages st).map (fun p => vobj p.payload))
  match getTemplateBlock st "latex" defaultLatexTemplate with
  | (st1, none) => (st1, none)
  | (st1, some template) =>
    match getTemplateBlock st1 "markdown" defaultMarkdownTemplate with
    | (st2, none) => (st2, none)
    | (st2, some mdTemplate) =>
      let metaFs := projectMetaFields st2
      let llm := match getD metaFs "llm" with | vobj fs => vobj fs | _ => vobj []
      (st2, some (vobj [
        ("project", pyOr (getD metaFs "name") (vstr stem)),
        ("updatedAt", getD metaFs "updatedAt"),
        ("pages", pages),
        ("template", template),
        ("markdownTemplate", mdTemplate),
        ("resources", varr (st2.projectResources.map vstr)),
        ("bib", varr (st2.projectReferences.filterMap bibEntryOut)),
        ("attachments", varr (st2.attachments.map (fun a => vstr a.name))),
        ("llm", llm)]))

/-- The outcome of `save_project`: the returned export dict, the
`WorkspaceVersionConflict` raise, or any other raise. -/
inductive SaveOutcome where
  | ok (result : PyVal)
  | conflict
  | error
deriving Repr

/-- `payload.get("pages") or []` must be iterable of dicts; a non-list is
modelled as a raise (`none`). -/
def pagesListOf (v : PyVal) : Option (List PyVal) :=
  match v with
  | varr ps => some ps
  | _ => none

/-- `if key in payload: save_template(ttype, payload[key])`. -/
def templateStep (st : Store) (payload : List (String × PyVal)) (key ttype : String) :
    Store × Bool :=
  match getEntry payload key with
  | some t => saveTemplate st ttype t
  | none => (st, true)

/-- `if "resources" in payload: _replace_project_resources(...)`. -/
def resourcesStep (st : Store) (payload : List (String × PyVal)) : Store :=
  match getEntry payload "resources" with
  | some v => replaceProjectResources st v
  | none => st

/-- `if "bib" in payload: _replace_project_references(...)`. -/
def bibStep (st : Store) (payload : List (String × PyVal)) : Store × Bool :=
  match getEntry payload "bib" with
  | some v => replaceProjectReferences st v
  | none => (st, true)

/-- `if payload.get("project"): meta["name"] = payload["project"]`. -/
def nameMetaUpdate (m1 : List (String × PyVal)) (v : PyVal) : List (String × PyVal) :=
  if pyTruthy v then setItem m1 "name" v else m1

/-- `if isinstance(payload.get("llm"), dict): meta["llm"] = ...`. -/
def llmMetaUpdate (m2 : List (String × PyVal)) (v : PyVal) : List (String × PyVal) :=
  match v with
  | vobj fs => setItem m2 "llm" (vobj fs)
  | _ => m2

/-- `save_project`: run the version-conflict check against the stored
project meta (raising `WorkspaceVersionConflict` before any write), then
save the pages, the optionally supplied templates, resources and bib,
stamp the project meta with a fresh `updatedAt` (plus optional
name/llm), and return the export.  A non-list truthy `pages` value is
modelled as a raise; all raises leave the connection state reached so far
(there is no rollback). -/
def saveProject (st : Store) (payload : List (String × PyVal)) (now : ℚ)
    (fresh : Nat → String) (stem : String) : Store × SaveOutcome :=
  if versionConflict st payload then (st, SaveOutcome.conflict)
  else
    let existingMeta := projectMetaFields st
    match pagesListOf (pyOr (getD payload "pages") (varr [])) with
    | none => (st, SaveOutcome.error)
    | some ps =>
      let r1 := savePages st ps fresh
      if r1.2 = false then (r1.1, SaveOutcome.error)
      else
        let r2 := templateStep r1.1 payload "template" "latex"
        if r2.2 = false then (r2.1, SaveOutcome.error)
        else
          let r3 := templateStep r2.1 payload "markdownTemplate" "markdown"
          if r3.2 = false then (r3.1, SaveOutcome.error)
          else
            let st4 := resourcesStep r3.1 payload
            let r5 := bibStep st4 payload
            if r5.2 = false then (r5.1, SaveOutcome.error)
            else
              let m1 := setItem existingMeta "updatedAt" (vnum now)
              let m2 := nameMetaUpdate m1 (getD payload "project")
              let m3 := llmMetaUpdate m2 (getD payload "llm")
              let r6 := setMetaE r5.1 "project" (vobj m3)
              if r6.2 = false then (r6.1, SaveOutcome.error)
              else
                match exportProject r6.1 stem with
                | (st7, none) => (st7, SaveOutcome.error)
                | (st7, some result) => (st7, SaveOutcome.ok result)

/-! `_ensure_schema` and the migration chain. -/

/-- Python `list(x)` as used when iterating a value of unknown type:
lists iterate their elements, strings their characters, dicts their keys;
`None` and scalars raise `TypeError`. -/
def pyIter : PyVal → Option (List PyVal)
  | varr xs => some xs
  | vstr s => some (s.data.map (fun c => vstr (String.mk [c])))
  | vobj fs => some (fs.map (fun kv => vstr kv.1))
  | _ => none

/-- Python `dict.setdefault(k, v)` (insertion appends at the end). -/
def setDefault (fs : List (String × PyVal)) (k : String) (v : PyVal) :
    List (String × PyVal) :=
  match getEntry fs k with
  | some _ => fs
  | none => fs ++ [(k, v)]

/-- Upsert into `learning_prompts` (`ON CONFLICT(id) DO UPDATE`). -/
def upsertPromptRow : List PromptRow → PromptRow → List PromptRow
  | [], row => [row]
  | r :: rest, row => if r.id = row.id then row :: rest else r :: upsertPromptRow rest row

/-- `save_learning_prompt_entry`: blank ids draw `custom_<uuid12>` (the
fresh id is a parameter) and are written back into the serialized dict;
the serialize gate can raise. -/
def saveLearningPromptEntry (st : Store) (prompt : List (String × PyVal))
    (removed : Bool) (freshId : String) : Store × Bool :=
  let pid0 := pyStrip (pyStr (pyOr (getD prompt "id") (vstr "")))
  let pid := if pid0 = "" then "custom_" ++ freshId else pid0
  let prompt1 := if pid0 = "" then setItem prompt "id" (vstr pid) else prompt
  if serializableFields prompt1 then
    ({ st with learningPrompts := upsertPromptRow st.learningPrompts ⟨pid, vobj prompt1, removed⟩ },
      true)
  else (st, false)

/-- One iteration of the custom/overrides prompt loops of
`_migrate_learning_meta` (non-dict entries are skipped; a raise freezes
the accumulator's error flag). -/
def promptStep (source : String) (fresh : Nat → String) (acc : Store × Nat × Bool)
    (entry : PyVal) : Store × Nat × Bool :=
  if acc.2.2 = false then acc
  else
    match entry with
    | vobj fs =>
      let r := saveLearningPromptEntry acc.1 (setDefault fs "source" (vstr source)) false
        (fresh acc.2.1)
      (r.1, acc.2.1 + 1, r.2)
    | _ => acc

/-- One iteration of the removed-prompt loop of `_migrate_learning_meta`. -/
def removedPromptStep (fresh : Nat → String) (acc : Store × Nat × Bool)
    (entry : PyVal) : Store × Nat × Bool :=
  if acc.2.2 = false then acc
  else
    match entry with
    | vstr s =>
      if pyStrip s = "" then acc
      else
        let r := saveLearningPromptEntry acc.1
          [("id", vstr (pyStrip s)), ("source", vstr "override")] true (fresh acc.2.1)
        (r.1, acc.2.1 + 1, r.2)
    | _ => acc

/-- One legacy record entry of `_migrate_learning_meta`: blank outputs are
skipped, the rest is saved through `save_learning_record_entry`. -/
def legacyRecordEntryStep (base : String) (context : Option String) (now : ℚ)
    (fresh : Nat → String) (acc : Store × Nat × Bool) (entry : PyVal) :
    Store × Nat × Bool :=
  if acc.2.2 = false then acc
  else
    match entry with
    | vobj efs =>
      let output := pyStrip (pyStr (pyOr (getD efs "output") (vstr "")))
      if output = "" then acc
      else
        let pidS := pyStrip (pyStr (pyOr (getD efs "promptId") (vstr "")))
        let pnameS := pyStrip (pyStr (pyOr (getD efs "promptName") (vstr "")))
        let savedValue : ℚ :=
          match getD efs "savedAt" with
          | vnull => now
          | v => (pyFloat v).getD now
        let rec0 : List (String × PyVal) :=
          [("input", vstr base),
           ("context", match context with | some c => vstr c | none => vnull),
           ("prompt_id", if pidS = "" then vnull else vstr pidS),
           ("prompt_name", if pnameS = "" then vnull else vstr pnameS),
           ("output", vstr output),
           ("savedAt", vnum savedValue)]
        let r := saveLearningRecordEntry acc.1 rec0 now (fresh acc.2.1)
        match r.2 with
        | some _ => (r.1, acc.2.1 + 1, true)
        | none => (r.1, acc.2.1 + 1, false)
    | _ => acc

/-- One legacy record of `_migrate_learning_meta`: records without a
truthy stripped input are skipped; the entries list is iterated. -/
def legacyRecordStep (now : ℚ) (fresh : Nat → String) (acc : Store × Nat × Bool)
    (record : PyVal) : Store × Nat × Bool :=
  if acc.2.2 = false then acc
  else
    match record with
    | vobj rfs =>
      let base := pyStrip (pyStr (pyOr (getD rfs "input") (vstr "")))
      if base = "" then acc
      else
        let ctx := pyStrip (pyStr (pyOr (getD rfs "context") (vstr "")))
        let context := if ctx = "" then none else some ctx
        match pyIter (pyOr (getD rfs "entries") (varr [])) with
        | none => (acc.1, acc.2.1, false)
        | some entries => entries.foldl (legacyRecordEntryStep base context now fresh) acc
    | _ => acc

/-- `_migrate_learning_meta`: drain the legacy `learningData` meta blob
into the prompt/record tables, then reset it to `\x7b\x7d`.  A non-dict
blob (including the post-migration empty dict — which is a dict and passes
the guard with empty loops) short-circuits; type errors on malformed blobs
raise, leaving the partial state. -/
def migrateLearningMeta (st : Store) (now : ℚ) (fresh : Nat → String) : Store × Bool :=
  match getMetaVal st "learningData" with
  | some (vobj legacyFs) =>
    match pyOr (getD legacyFs "prompts") (vobj []) with
    | vobj promptsMeta =>
      match pyIter (pyOr (getD promptsMeta "custom") (varr [])) with
      | none => (st, false)
      | some customL =>
        let acc1 := customL.foldl (promptStep "custom" fresh) ((st, 0, true) : Store × Nat × Bool)
        if acc1.2.2 = false then (acc1.1, false)
        else
          match pyIter (pyOr (getD promptsMeta "overrides") (varr [])) with
          | none => (acc1.1, false)
          | some overridesL =>
            let acc2 := overridesL.foldl (promptStep "override" fresh) acc1
            if acc2.2.2 = false then (acc2.1, false)
            else
              match pyIter (pyOr (getD promptsMeta "removed") (varr [])) with
              | none => (acc2.1, false)
              | some removedL =>
                let acc3 := removedL.foldl (removedPromptStep fresh) acc2
                if acc3.2.2 = false then (acc3.1, false)
                else
                  match pyIter (pyOr (getD legacyFs "records") (varr [])) with
                  | none => (acc3.1, false)
                  | some recordsL =>
                    let acc4 := recordsL.foldl (legacyRecordStep now fresh) acc3
                    if acc4.2.2 = false then (acc4.1, false)
                    else
                      let r := setMetaE acc4.1 "learningData" (vobj [])
                      (r.1, r.2)
    | _ => (st, false)
  | _ => (st, true)

/-- `_ensure_learning_record_columns`: add the optional columns. -/
def ensureLearningRecordCols (st : Store) : Store :=
  { st with lrCols := ⟨true, true, true, true⟩ }

/-- `_ensure_page_latex_columns`. -/
def ensurePageLatexCols (st : Store) : Store :=
  { st with plCols := ⟨true, true⟩ }

/-- One legacy page row of `_migrate_page_tables`: normalize the stored
blob and upsert all five page tables (the same statements as the
`save_pages` loop). -/
def migratePageStep (fresh : Nat → String) (acc : Store × Nat × Bool)
    (row : LegacyPageRow) : Store × Nat × Bool :=
  if acc.2.2 = false then acc
  else
    let payload : PyVal := match row.data with | vobj fs => vobj fs | _ => vobj []
    let n := normalizePagePayload (fresh acc.2.1) payload
    let pid := if row.id = "" then n.pageId else row.id
    if serializableFields n.extras = false then (acc.1, acc.2.1 + 1, false)
    else
      let st1 := { acc.1 with pageLatex := upsertPageLatexRow acc.1.pageLatex pid row.idx (vobj n.extras) n.content }
      let st2 := { st1 with pageMarkdown := setItem st1.pageMarkdown pid n.notes }
      let st3 := { st2 with pageNotes := setItem st2.pageNotes pid n.script }
      let st4 := { st3 with pageResources := rewritePageResources st3.pageResources pid n.resources }
      let pr := rewritePageReferences st4.pageReferences pid n.bib
      ({ st4 with pageReferences := pr.1 }, acc.2.1 + 1, pr.2)

/-- `_migrate_page_tables`: drain the legacy `pages` table (ordered by
idx) into the page tables, then drop it.  A raise keeps the table and the
partial writes. -/
def migratePageTables (st : Store) (fresh : Nat → String) : Store × Bool :=
  match st.legacyPages with
  | none => (st, true)
  | some rows =>
    let ordered := sortByKey (fun r : LegacyPageRow => r.idx) rows
    let res := ordered.foldl (migratePageStep fresh) ((st, 0, true) : Store × Nat × Bool)
    if res.2.2 = false then (res.1, false)
    else ({ res.1 with legacyPages := none }, true)

/-- `_migrate_project_resources`: a non-empty legacy `resources` meta list
replaces `project_resources`; the meta key is deleted either way. -/
def migrateProjectResources (st : Store) : Store :=
  let st1 :=
    match getMetaVal st "resources" with
    | some (varr xs) => if xs.isEmpty then st else replaceProjectResources st (varr xs)
    | _ => st
  { st1 with meta := delAll st1.meta "resources" }

/-- `_migrate_project_references`: a list-valued `bib` inside the
`project` meta dict is popped (rewriting the meta) and, when non-empty,
replaces `project_references`. -/
def migrateProjectReferences (st : Store) : Store × Bool :=
  match getMetaVal st "project" with
  | some (vobj legacyFs) =>
    match getEntry legacyFs "bib" with
    | some (varr bibXs) =>
      let r := setMetaE st "project" (vobj (popEntry legacyFs "bib"))
      if r.2 = false then (r.1, false)
      else if bibXs.isEmpty then (r.1, true)
      else
        let r2 := replaceProjectReferences r.1 (varr bibXs)
        (r2.1, r2.2)
    | _ => (st, true)
  | _ => (st, true)

/-- One legacy asset row of `_migrate_legacy_assets` (`ON CONFLICT(id) DO
NOTHING`; unknown scopes are skipped). -/
def legacyAssetStep (acc : Store) (row : LegacyAssetRow) : Store :=
  match assetScopeTable row.scope with
  | none => acc
  | some isAtt =>
    let rows := scopeRows acc isAtt
    if (findByKey (fun a : AssetRow => a.id) row.id rows).isSome then acc
    else setScopeRows acc isAtt
      (rows ++ [(⟨row.id, row.name, row.pageId, row.mime, row.data, row.metadata,
        row.updatedAt⟩ : AssetRow)])

/-- `_migrate_legacy_assets`: copy the legacy `assets` rows into the
per-scope tables; the legacy table is never dropped. -/
def migrateLegacyAssets (st : Store) : Store :=
  match st.legacyAssets with
  | none => st
  | some rows => if rows.isEmpty then st else rows.foldl legacyAssetStep st

/-- The no-current-dict tail of `_migrate_security_meta_key`: migrate the
legacy key when it holds a dict, else seed the open-workspace default. -/
def securityFallback (st : Store) (now : ℚ) : Store × Bool :=
  match getMetaVal st legacySecurityMetaKey with
  | some (vobj legacyFs) =>
    let r := setMetaE st projectSecurityMetaKey (vobj legacyFs)
    if r.2 = false then (r.1, false)
    else (delMeta r.1 legacySecurityMetaKey, true)
  | _ =>
    let r := setMetaE st projectSecurityMetaKey
      (vobj [("passwordHash", vnull), ("updatedAt", vnum now)])
    (r.1, r.2)

/-- `_migrate_security_meta_key`: ensure the project security meta dict
exists, migrating from the legacy key or seeding the open-workspace
default. -/
def migrateSecurityMetaKey (st : Store) (now : ℚ) : Store × Bool :=
  match getMetaVal st projectSecurityMetaKey with
  | some (vobj _) => (st, true)
  | _ => securityFallback st now

/-- `_purge_template_meta_keys`. -/
def purgeTemplateMetaKeys (st : Store) : Store :=
  delMeta (delMeta (delMeta st "latexTemplate") "markdownTemplate") "template"

/-- `_migrate_meta_entries`. -/
def migrateMetaEntries (st : Store) (now : ℚ) : Store × Bool :=
  let r := migrateSecurityMetaKey st now
  if r.2 = false then (r.1, false) else (purgeTemplateMetaKeys r.1, true)

/-- `_migrate_templates_if_needed`: seed the two default templates into an
empty `templates` table (the defaults always serialize). -/
def migrateTemplatesIfNeeded (st : Store) : Store :=
  if st.templates.isEmpty then
    let r1 := saveTemplate st "latex" defaultLatexTemplate
    (saveTemplate r1.1 "markdown" defaultMarkdownTemplate).1
  else st

/-- `_ensure_schema`: the `CREATE ... IF NOT EXISTS` statements (a no-op
on the modelled store, whose core tables always exist) followed by the
ordered migration chain.  Fresh uuids for the learning-meta and page-table
drains are drawn from the two supplied streams; `false` means some step
raised, leaving the partial state (there is no rollback). -/
def ensureSchema (st : Store) (now : ℚ) (freshL freshP : Nat → String) : Store × Bool :=
  let st1 := migrateTemplatesIfNeeded st
  let st2 := ensureLearningRecordCols st1
  let r3 := migrateLearningMeta st2 now freshL
  if r3.2 = false then (r3.1, false)
  else
    let st4 := ensurePageLatexCols r3.1
    let r5 := migratePageTables st4 freshP
    if r5.2 = false then (r5.1, false)
    else
      let st6 := migrateProjectResources r5.1
      let r7 := migrateProjectReferences st6
      if r7.2 = false then (r7.1, false)
      else
        let st8 := migrateLegacyAssets r7.1
        let r9 := migrateMetaEntries st8 now
        (r9.1, r9.2)

/-- The row-retention test of the TTL prune at a given clock. -/
def ttlKeep (now : ℚ) (r : LearningRecordRow) : Bool :=
  ¬(r.favorite = false ∧ r.savedAt < now - (LEARNING_RECORD_TTL_SECONDS : ℚ))

theorem pruneLearningRecords_records (st : Store) (now : ℚ) :
    ((pruneLearningRecords st now none).1).learningRecords =
      st.learningRecords.filter (ttlKeep now) := by
  simp only [pruneLearningRecords]
  rw [if_neg (by decide : ¬(LEARNING_RECORD_TTL_SECONDS ≤ 0))]
  rfl

theorem ttlKeep_eq_false (now : ℚ) (r : LearningRecordRow) (hfav : r.favorite = false)
    (hold : r.savedAt < now - (LEARNING_RECORD_TTL_SECONDS : ℚ)) :
    ttlKeep now r = false := by
  simp [ttlKeep, hfav, hold]

theorem ttlKeep_of_favorite (now : ℚ) (r : LearningRecordRow) (hfav : r.favorite = true) :
    ttlKeep now r = true := by
  simp [ttlKeep, hfav]

theorem upsertLearningRow_self_mem (l : List LearningRecordRow) (row : LearningRecordRow) :
    row ∈ upsertLearningRow l row := by
  induction l with
  | nil => simp [upsertLearningRow]
  | cons r rest ih =>
    simp only [upsertLearningRow]
    by_cases h : r.id = row.id
    · rw [if_pos h]; exact List.mem_cons_self _ _
    · rw [if_neg h]; exact List.mem_cons_of_mem _ ih

theorem upsertLearningRow_mem (l : List LearningRecordRow) (row : LearningRecordRow) :
    ∀ x ∈ upsertLearningRow l row, x = row ∨ x ∈ l := by
  induction l with
  | nil =>
    intro x hx
    simp only [upsertLearningRow, List.mem_singleton] at hx
    exact Or.inl hx
  | cons r rest ih =>
    intro x hx
    simp only [upsertLearningRow] at hx
    by_cases h : r.id = row.id
    · rw [if_pos h] at hx
      rcases List.mem_cons.mp hx with h1 | h1
      · exact Or.inl h1
      · exact Or.inr (List.mem_cons_of_mem _ h1)
    · rw [if_neg h] at hx
      rcases List.mem_cons.mp hx with h1 | h1
      · exact Or.inr (h1 ▸ List.mem_cons_self _ _)
      · rcases ih x h1 with h2 | h2
        · exact Or.inl h2
        · exact Or.inr (List.mem_cons_of_mem _ h2)

theorem upsertLearningRow_nodup (l : List LearningRecordRow) (row : LearningRecordRow)
    (h : (l.map (fun x => x.id)).Nodup) :
    ((upsertLearningRow l row).map (fun x => x.id)).Nodup := by
  induction l with
  | nil => simp [upsertLearningRow]
  | cons r rest ih =>
    simp only [List.map_cons, List.nodup_cons] at h
    by_cases hid : r.id = row.id
    · simp only [upsertLearningRow, if_pos hid, List.map_cons, List.nodup_cons]
      exact ⟨hid ▸ h.1, h.2⟩
    · simp only [upsertLearningRow, if_neg hid, List.map_cons, List.nodup_cons]
      refine ⟨?_, ih h.2⟩
      intro hmem
      rcases List.mem_map.mp hmem with ⟨x, hx, hxid⟩
      rcases upsertLearningRow_mem rest row x hx with h1 | h1
      · exact hid (hxid ▸ congrArg (fun y : LearningRecordRow => y.id) h1)
      · exact h.1 (List.mem_map.mpr ⟨x, h1, hxid⟩)

theorem getEntry_setOptStr_other (l : List (String × PyVal)) (k q : String)
    (o : Option String) (h : q ≠ k) : getEntry (setOptStr l k o) q = getEntry l q := by
  cases o with
  | none => rfl
  | some s => exact getEntry_setItem_other l k q _ h

theorem getEntry_setOptVal_other (l : List (String × PyVal)) (k q : String)
    (o : Option PyVal) (h : q ≠ k) : getEntry (setOptVal l k o) q = getEntry l q := by
  cases o with
  | none => rfl
  | some v => exact getEntry_setItem_other l k q _ h

theorem learningResultOf_id (rec : List (String × PyVal)) (now : ℚ) (fresh : String)
    (rs : Option PyVal) :
    getEntry (learningResultOf rec now fresh rs) "id" =
      some (vstr (learningRecordIdOf rec fresh)) := by
  unfold learningResultOf
  rw [getEntry_setOptVal_other _ _ _ _ (by decide), getEntry_setOptStr_other _ _ _ _
    (by decide), getEntry_setOptStr_other _ _ _ _ (by decide),
    getEntry_setItem_other _ _ _ _ (by decide), getEntry_setItem_other _ _ _ _ (by decide),
    getEntry_setItem_self]

theorem reviewGateOf_eq_some (v : PyVal) (h : reviewSerializable v = true) :
    reviewGateOf v = some (reviewStateOf v) := by
  cases v <;> simp_all [reviewGateOf, reviewStateOf, reviewSerializable]

theorem learningUpdatesOf_isSome (ufs : List (String × PyVal))
    (h : updatesReviewOK (vobj ufs) = true) : ∃ u, learningUpdatesOf ufs = some u := by
  simp only [updatesReviewOK] at h
  rcases hE : getEntry ufs "review" with _ | v
  · rw [hE] at h
    simp only [learningUpdatesOf, hE]
    exact ⟨_, rfl⟩
  · rw [hE] at h
    cases v <;> simp_all [learningUpdatesOf, hE, reviewSerializable]

/-- The row just saved by `save_learning_record_entry` fails the retention
test when its favorite flag coerces to false and its saved-at is past the
cutoff, so no surviving row carries its id. -/
theorem savedRow_gone (st : Store) (rec : List (String × PyVal)) (now : ℚ)
    (fresh : String) (rs : Option PyVal) (q : ℚ)
    (hnd : (st.learningRecords.map (fun x => x.id)).Nodup)
    (hsaved : getD rec "savedAt" = vnum q)
    (hold : q < now - (LEARNING_RECORD_TTL_SECONDS : ℚ))
    (hfav : favoriteFlagOf (getD rec "favorite") = false) :
    ∀ x ∈ (upsertLearningRow st.learningRecords
        (learningRowOf rec now fresh rs)).filter (ttlKeep now),
      x.id ≠ learningRecordIdOf rec fresh := by
  intro x hx hxid
  have hxmem := List.mem_of_mem_filter hx
  have hkeep := List.of_mem_filter hx
  have hnd' := upsertLearningRow_nodup st.learningRecords (learningRowOf rec now fresh rs) hnd
  have hself := upsertLearningRow_self_mem st.learningRecords (learningRowOf rec now fresh rs)
  have hxr : x = learningRowOf rec now fresh rs :=
    List.inj_on_of_nodup_map hnd' hxmem hself hxid
  rw [hxr] at hkeep
  have hfalse : ttlKeep now (learningRowOf rec now fresh rs) = false := by
    apply ttlKeep_eq_false
    · exact hfav
    · show (pyFloat (getD rec "savedAt")).getD now < _
      rw [hsaved]
      exact hold
  rw [hkeep] at hfalse
  exact Bool.noConfusion hfalse

theorem updateLearningRecordGo_none (st : Store) (rid : String)
    (ufs : List (String × PyVal)) (hok : updatesReviewOK (vobj ufs) = true)
    (hm : st.learningRecords.filter (fun r => r.id = rid) = []) :
    (updateLearningRecordGo st rid ufs).2 = some none := by
  obtain ⟨u, hu⟩ := learningUpdatesOf_isSome ufs hok
  simp only [updateLearningRecordGo, hu]
  by_cases he : u.isEmpty
  · rw [if_pos he]
  · rw [if_neg he, hm]
    simp

/-- C9: save_learning_record_entry prunes after its own upsert, so saving
a record whose favorite coerces to false and whose savedAt is already more
than the TTL in the past deletes the row within the same call: the call
still returns a populated dict carrying the record id, but a subsequent
get_learning_record_entry or update_learning_record_entry with that id
returns None. -/
theorem save_learning_record_prunes (st : Store) (rec : List (String × PyVal))
    (now now2 : ℚ) (fresh : String) (q : ℚ)
    (hnd : (st.learningRecords.map (fun x => x.id)).Nodup)
    (hsaved : getD rec "savedAt" = vnum q)
    (hold : q < now - (LEARNING_RECORD_TTL_SECONDS : ℚ))
    (hfav : favoriteFlagOf (getD rec "favorite") = false)
    (hrev : reviewSerializable (pyOr (getD rec "review") (getD rec "review_state")) = true)
    (hid : pyStrip (learningRecordIdOf rec fresh) = learningRecordIdOf rec fresh)
    (hidne : learningRecordIdOf rec fresh ≠ "") :
    (∃ res, (saveLearningRecordEntry st rec now fresh).2 = some res ∧
      getEntry res "id" = some (vstr (learningRecordIdOf rec fresh))) ∧
    (getLearningRecordEntry (saveLearningRecordEntry st rec now fresh).1
        (learningRecordIdOf rec fresh) now2).2 = none ∧
    (∀ updates, updatesReviewOK updates = true →
      (updateLearningRecordEntry (saveLearningRecordEntry st rec now fresh).1
          (learningRecordIdOf rec fresh) updates).2 = some none) := by
  have hg := reviewGateOf_eq_some _ hrev
  have hS2 : (saveLearningRecordEntry st rec now fresh).2 =
      some (learningResultOf rec now fresh
        (reviewStateOf (pyOr (getD rec "review") (getD rec "review_state")))) := by
    simp only [saveLearningRecordEntry, hg]
  have hS1 : (saveLearningRecordEntry st rec now fresh).1.learningRecords =
      (upsertLearningRow st.learningRecords (learningRowOf rec now fresh
        (reviewStateOf (pyOr (getD rec "review") (getD rec "review_state"))))).filter
        (ttlKeep now) := by
    simp only [saveLearningRecordEntry, hg]
    exact pruneLearningRecords_records _ now
  have hgone := savedRow_gone st rec now fresh
    (reviewStateOf (pyOr (getD rec "review") (getD rec "review_state"))) q
    hnd hsaved hold hfav
  have hnotin : ∀ x ∈ (saveLearningRecordEntry st rec now fresh).1.learningRecords,
      x.id ≠ learningRecordIdOf rec fresh := by
    intro x hx
    rw [hS1] at hx
    exact hgone x hx
  refine ⟨⟨_, hS2, learningResultOf_id rec now fresh _⟩, ?_, ?_⟩
  · simp only [getLearningRecordEntry]
    rw [hid, if_neg hidne]
    have hfb : findByKey (fun r : LearningRecordRow => r.id) (learningRecordIdOf rec fresh)
        ((pruneLearningRecords (saveLearningRecordEntry st rec now fresh).1 now2
          none).1).learningRecords = none := by
      rw [pruneLearningRecords_records]
      apply findByKey_eq_none
      intro hmem
      rcases List.mem_map.mp hmem with ⟨x, hx, hxid⟩
      exact hnotin x (List.mem_of_mem_filter hx) hxid
    simp only [hfb]
  · intro updates hok
    simp only [updateLearningRecordEntry]
    rw [hid, if_neg hidne]
    cases updates with
    | vobj ufs =>
      apply updateLearningRecordGo_none _ _ _ hok
      rw [List.filter_eq_nil_iff]
      intro x hx hcontra
      exact hnotin x hx (by simpa using hcontra)
    | vnull => rfl
    | vbool b => rfl
    | vint n => rfl
    | vnum q2 => rfl
    | vstr s => rfl
    | varr xs => rfl
    | vopaque s => rfl

/-- The witness clock 3000000 is past the 30-day TTL for a record saved at
time 0. -/
theorem ttlWitnessBound : (0 : ℚ) < 3000000 - (LEARNING_RECORD_TTL_SECONDS : ℚ) := by
  norm_num [LEARNING_RECORD_TTL_SECONDS]

def c9rec : List (String × PyVal) := [("id", vstr "r1"), ("savedAt", vnum 0)]

theorem save_learning_record_prunes_witness :
    (∃ res, (saveLearningRecordEntry Store.empty c9rec 3000000 "f").2 = some res ∧
      getEntry res "id" = some (vstr "r1")) ∧
    (getLearningRecordEntry (saveLearningRecordEntry Store.empty c9rec 3000000 "f").1
        "r1" 3000000).2 = none ∧
    (∀ updates, updatesReviewOK updates = true →
      (updateLearningRecordEntry (saveLearningRecordEntry Store.empty c9rec 3000000 "f").1
          "r1" updates).2 = some none) := by
  exact save_learning_record_prunes Store.empty c9rec 3000000 3000000 "f" 0
    (by decide) rfl ttlWitnessBound rfl rfl (by decide) (by decide)

/-- C8: a stored non-favorite record older than the 30-day TTL is absent
from the result of list_learning_records, while a favorite record of the
same age is still listed. -/
theorem learning_record_ttl (st : Store) (now : ℚ) (r : LearningRecordRow)
    (hmem : r ∈ st.learningRecords)
    (hnd : (st.learningRecords.map (fun x => x.id)).Nodup)
    (hold : r.savedAt < now - (LEARNING_RECORD_TTL_SECONDS : ℚ)) :
    (r.favorite = false → ∀ o ∈ (listLearningRecords st now).2, o.id ≠ r.id) ∧
    (r.favorite = true → ∃ o ∈ (listLearningRecords st now).2, o.id = r.id) := by
  have hlist : (listLearningRecords st now).2 =
      (sortByKey (fun x : LearningRecordRow => OrderDual.toDual x.savedAt)
        (st.learningRecords.filter (ttlKeep now))).map recordOutOfRow := by
    show (sortByKey _ ((pruneLearningRecords st now none).1).learningRecords).map
        recordOutOfRow = _
    rw [pruneLearningRecords_records]
  constructor
  · intro hfav o ho hoid
    rw [hlist] at ho
    rcases List.mem_map.mp ho with ⟨x, hx, hxo⟩
    have hx' := (sortByKey_perm _ _).mem_iff.mp hx
    have hxid : x.id = r.id := by rw [← hxo] at hoid; exact hoid
    have hxmem := List.mem_of_mem_filter hx'
    have hxr : x = r := List.inj_on_of_nodup_map hnd hxmem hmem hxid
    have hkeep := List.of_mem_filter hx'
    rw [hxr, ttlKeep_eq_false now r hfav hold] at hkeep
    exact Bool.false_ne_true hkeep
  · intro hfav
    have hp : r ∈ st.learningRecords.filter (ttlKeep now) :=
      List.mem_filter.mpr ⟨hmem, ttlKeep_of_favorite now r hfav⟩
    have hs := (sortByKey_perm
      (fun x : LearningRecordRow => OrderDual.toDual x.savedAt) _).mem_iff.mpr hp
    refine ⟨recordOutOfRow r, ?_, rfl⟩
    rw [hlist]
    exact List.mem_map_of_mem _ hs

def c8old : LearningRecordRow :=
  ⟨"old", vstr "q", vnull, vnull, vnull, none, none, false, vstr "a", none, 0⟩

def c8fav : LearningRecordRow :=
  ⟨"fav", vstr "q", vnull, vnull, vnull, none, none, true, vstr "a", none, 0⟩

def c8store : Store := { Store.empty with learningRecords := [c8old, c8fav] }

theorem learning_record_ttl_witness :
    (∀ o ∈ (listLearningRecords c8store 3000000).2, o.id ≠ "old") ∧
    (∃ o ∈ (listLearningRecords c8store 3000000).2, o.id = "fav") := by
  constructor
  · exact (learning_record_ttl c8store 3000000 c8old (List.mem_cons_self _ _)
      (by decide) ttlWitnessBound).1 rfl
  · exact (learning_record_ttl c8store 3000000 c8fav
      (List.mem_cons_of_mem _ (List.mem_cons_self _ _)) (by decide) ttlWitnessBound).2 rfl

theorem versionConflict_true_of (st : Store) (payload : List (String × PyVal)) (e c : ℚ)
    (he : pyFloat (pyOr (getD payload "clientUpdatedAt")
      (getD payload "expectedUpdatedAt")) = some e)
    (hc : pyFloat (getD (projectMetaFields st) "updatedAt") = some c)
    (hgt : c - e > conflictTolerance) : versionConflict st payload = true := by
  unfold versionConflict
  cases hR : pyOr (getD payload "clientUpdatedAt") (getD payload "expectedUpdatedAt") <;>
    rw [hR] at he <;>
    try exact Option.noConfusion he
  all_goals simp only [he]
  all_goals (cases hC : getD (projectMetaFields st) "updatedAt" <;> rw [hC] at hc <;>
    try exact Option.noConfusion hc)
  all_goals simp only [hc]
  all_goals exact decide_eq_true hgt

theorem versionConflict_false_of (st : Store) (payload : List (String × PyVal))
    (h : pyFloat (pyOr (getD payload "clientUpdatedAt")
        (getD payload "expectedUpdatedAt")) = none ∨
      ∃ e c, pyFloat (pyOr (getD payload "clientUpdatedAt")
          (getD payload "expectedUpdatedAt")) = some e ∧
        pyFloat (getD (projectMetaFields st) "updatedAt") = some c ∧
        c - e ≤ conflictTolerance) :
    versionConflict st payload = false := by
  unfold versionConflict
  rcases h with hnone | ⟨e, c, he, hc, hle⟩
  · cases hR : pyOr (getD payload "clientUpdatedAt") (getD payload "expectedUpdatedAt") <;>
      rw [hR] at hnone <;> try rfl
    all_goals simp only [hnone]
  · cases hR : pyOr (getD payload "clientUpdatedAt") (getD payload "expectedUpdatedAt") <;>
      rw [hR] at he <;>
      try exact Option.noConfusion he
    all_goals simp only [he]
    all_goals (cases hC : getD (projectMetaFields st) "updatedAt" <;> rw [hC] at hc <;>
      try exact Option.noConfusion hc)
    all_goals simp only [hc]
    all_goals exact decide_eq_false (not_lt.mpr hle)

theorem deletePageRows_meta (st : Store) (d : List String) :
    (deletePageRows st d).meta = st.meta := rfl

theorem replaceProjectReferences_ok (st : Store) (v : PyVal)
    (h : serializableList (coerceBibEntries v) = true) :
    (replaceProjectReferences st v).2 = true ∧
    ((replaceProjectReferences st v).1).meta = st.meta := by
  unfold replaceProjectReferences
  refine ⟨?_, rfl⟩
  show decide (((coerceBibEntries v).takeWhile serializable).length =
    (coerceBibEntries v).length) = true
  rw [takeWhile_serializable_of_all _ h]
  simp

theorem saveTemplate_ok (st : Store) (ttype : String) (t : PyVal)
    (h : serializable (if pyTruthy t then t else vobj []) = true) :
    (saveTemplate st ttype t).2 = true ∧ ((saveTemplate st ttype t).1).meta = st.meta := by
  unfold saveTemplate
  rw [if_pos h]
  exact ⟨rfl, rfl⟩

theorem setMetaE_ok (st : Store) (k : String) (v : PyVal) (h : serializable v = true) :
    (setMetaE st k v).2 = true ∧ ((setMetaE st k v).1).meta = setItem st.meta k v := by
  unfold setMetaE
  rw [if_pos h]
  exact ⟨rfl, rfl⟩

theorem seedTemplate_spec (st : Store) (ttype : String) (dflt : PyVal)
    (h : serializable (templateFallback ttype dflt) = true) :
    (seedTemplate st ttype dflt).2 = some (templateFallback ttype dflt) ∧
    ((seedTemplate st ttype dflt).1).meta = st.meta := by
  simp only [seedTemplate, saveTemplate]
  have hp : serializable (if pyTruthy (templateFallback ttype dflt) then
      templateFallback ttype dflt else vobj []) = true := by
    by_cases hP : pyTruthy (templateFallback ttype dflt) = true
    · rw [if_pos hP]; exact h
    · rw [if_neg hP]; rfl
  rw [if_pos hp]
  exact ⟨rfl, rfl⟩

theorem getTemplateBlock_spec (st : Store) (ttype : String) (dflt : PyVal)
    (h : serializable (templateFallback ttype dflt) = true) :
    (∃ t, (getTemplateBlock st ttype dflt).2 = some t) ∧
    ((getTemplateBlock st ttype dflt).1).meta = st.meta := by
  have hs := seedTemplate_spec st ttype dflt h
  cases hE : getEntry st.templates ttype with
  | none =>
    simp only [getTemplateBlock, hE]
    exact ⟨⟨_, hs.1⟩, hs.2⟩
  | some data =>
    simp only [getTemplateBlock, hE]
    cases hD : (if pyTruthy data then data else vobj []) <;>
      first
        | exact ⟨⟨_, rfl⟩, rfl⟩
        | exact ⟨⟨_, hs.1⟩, hs.2⟩

theorem exportProject_spec (st : Store) (stem : String) :
    (∃ r, (exportProject st stem).2 = some r) ∧
    ((exportProject st stem).1).meta = st.meta := by
  unfold exportProject
  obtain ⟨⟨t1, ht1⟩, hm1⟩ := getTemplateBlock_spec st "latex" defaultLatexTemplate rfl
  rcases hG1 : getTemplateBlock st "latex" defaultLatexTemplate with ⟨st1, o1⟩
  rw [hG1] at ht1 hm1
  simp only at ht1 hm1
  subst ht1
  simp only []
  obtain ⟨⟨t2, ht2⟩, hm2⟩ := getTemplateBlock_spec st1 "markdown" defaultMarkdownTemplate rfl
  rcases hG2 : getTemplateBlock st1 "markdown" defaultMarkdownTemplate with ⟨st2, o2⟩
  rw [hG2] at ht2 hm2
  simp only at ht2 hm2
  subst ht2
  exact ⟨⟨_, rfl⟩, hm2.trans hm1⟩

theorem savePages_ok_of_ser (st : Store) (ps : List PyVal) (fresh : Nat → String)
    (hser : ∀ p ∈ normalizedPages ps fresh,
      serializableFields p.2.extras = true ∧ serializableList p.2.bib = true) :
    (savePages st ps fresh).2 = true ∧ ((savePages st ps fresh).1).meta = st.meta := by
  have hgo := savePagesGo_eq st (normalizedPages ps fresh) hser
  simp only [savePages, hgo, if_true]
  exact ⟨trivial, rfl⟩

theorem templateStep_ok (st : Store) (payload : List (String × PyVal)) (key ttype : String)
    (h : ∀ t, getEntry payload key = some t →
      serializable (if pyTruthy t then t else vobj []) = true) :
    (templateStep st payload key ttype).2 = true ∧
    ((templateStep st payload key ttype).1).meta = st.meta := by
  unfold templateStep
  cases hT : getEntry payload key with
  | none => exact ⟨rfl, rfl⟩
  | some t => exact saveTemplate_ok st ttype t (h t hT)

theorem resourcesStep_meta (st : Store) (payload : List (String × PyVal)) :
    (resourcesStep st payload).meta = st.meta := by
  unfold resourcesStep
  cases hT : getEntry payload "resources" with
  | none => rfl
  | some v => rfl

theorem bibStep_ok (st : Store) (payload : List (String × PyVal))
    (h : ∀ v, getEntry payload "bib" = some v →
      serializableList (coerceBibEntries v) = true) :
    (bibStep st payload).2 = true ∧ ((bibStep st payload).1).meta = st.meta := by
  unfold bibStep
  cases hT : getEntry payload "bib" with
  | none => exact ⟨rfl, rfl⟩
  | some v => exact replaceProjectReferences_ok st v (h v hT)

theorem getEntry_nameMetaUpdate (m1 : List (String × PyVal)) (v : PyVal) (q : String)
    (h : q ≠ "name") : getEntry (nameMetaUpdate m1 v) q = getEntry m1 q := by
  unfold nameMetaUpdate
  by_cases hb : pyTruthy v = true
  · rw [if_pos hb, getEntry_setItem_other _ _ _ _ h]
  · rw [if_neg hb]

theorem serializableFields_nameMetaUpdate (m1 : List (String × PyVal)) (v : PyVal)
    (h1 : serializableFields m1 = true) (hv : pyTruthy v = true → serializable v = true) :
    serializableFields (nameMetaUpdate m1 v) = true := by
  unfold nameMetaUpdate
  by_cases hb : pyTruthy v = true
  · rw [if_pos hb]; exact serializableFields_setItem _ _ _ h1 (hv hb)
  · rw [if_neg hb]; exact h1

theorem getEntry_llmMetaUpdate (m2 : List (String × PyVal)) (v : PyVal) (q : String)
    (hq : q ≠ "llm") : getEntry (llmMetaUpdate m2 v) q = getEntry m2 q := by
  unfold llmMetaUpdate
  cases v <;> first
    | rfl
    | exact getEntry_setItem_other _ _ _ _ hq

theorem serializableFields_llmMetaUpdate (m2 : List (String × PyVal)) (v : PyVal)
    (h1 : serializableFields m2 = true)
    (hv : ∀ fs, v = vobj fs → serializableFields fs = true) :
    serializableFields (llmMetaUpdate m2 v) = true := by
  unfold llmMetaUpdate
  cases hv2 : v <;> first
    | exact h1
    | exact serializableFields_setItem _ _ _ h1 (hv _ hv2)

/-- C4: save_project with a caller-supplied expected timestamp
(clientUpdatedAt, falling back to expectedUpdatedAt) older than the stored
project updatedAt by more than the 1e-6 tolerance raises
WorkspaceVersionConflict and leaves the whole store unchanged; with an
up-to-date expected timestamp, or none that parses, the save runs to
completion (its writes all serializing) and stamps the stored project meta
with the fresh updatedAt. -/
theorem save_project_version_conflict (st : Store) (payload : List (String × PyVal))
    (now : ℚ) (fresh : Nat → String) (stem : String) :
    (∀ e c, pyFloat (pyOr (getD payload "clientUpdatedAt")
        (getD payload "expectedUpdatedAt")) = some e →
      pyFloat (getD (projectMetaFields st) "updatedAt") = some c →
      c - e > conflictTolerance →
      saveProject st payload now fresh stem = (st, SaveOutcome.conflict)) ∧
    (∀ ps, pyOr (getD payload "pages") (varr []) = varr ps →
      (pyFloat (pyOr (getD payload "clientUpdatedAt")
          (getD payload "expectedUpdatedAt")) = none ∨
        ∃ e c, pyFloat (pyOr (getD payload "clientUpdatedAt")
            (getD payload "expectedUpdatedAt")) = some e ∧
          pyFloat (getD (projectMetaFields st) "updatedAt") = some c ∧
          c - e ≤ conflictTolerance) →
      (∀ p ∈ normalizedPages ps fresh,
        serializableFields p.2.extras = true ∧ serializableList p.2.bib = true) →
      (∀ t, getEntry payload "template" = some t →
        serializable (if pyTruthy t then t else vobj []) = true) →
      (∀ t, getEntry payload "markdownTemplate" = some t →
        serializable (if pyTruthy t then t else vobj []) = true) →
      (∀ v, getEntry payload "bib" = some v →
        serializableList (coerceBibEntries v) = true) →
      serializableFields (projectMetaFields st) = true →
      (pyTruthy (getD payload "project") = true →
        serializable (getD payload "project") = true) →
      (∀ fs, getD payload "llm" = vobj fs → serializableFields fs = true) →
      (∃ res, (saveProject st payload now fresh stem).2 = SaveOutcome.ok res) ∧
      getD (projectMetaFields (saveProject st payload now fresh stem).1) "updatedAt" =
        vnum now) := by
  constructor
  · intro e c he hc hgt
    have hvc := versionConflict_true_of st payload e c he hc hgt
    unfold saveProject
    rw [if_pos hvc]
  · intro ps hpages hts hser htm hmd hbib hmfs hname hllm
    have hvc := versionConflict_false_of st payload hts
    have hnvc : ¬(versionConflict st payload = true) := by simp [hvc]
    have hpl : pagesListOf (pyOr (getD payload "pages") (varr [])) = some ps := by
      rw [hpages]
      rfl
    obtain ⟨h12, h1m⟩ := savePages_ok_of_ser st ps fresh hser
    obtain ⟨h22, h2m⟩ :=
      templateStep_ok ((savePages st ps fresh).1) payload "template" "latex" htm
    obtain ⟨h32, h3m⟩ :=
      templateStep_ok ((templateStep (savePages st ps fresh).1 payload "template"
        "latex").1) payload "markdownTemplate" "markdown" hmd
    obtain ⟨h52, h5m⟩ := bibStep_ok (resourcesStep ((templateStep (templateStep
      (savePages st ps fresh).1 payload "template" "latex").1 payload "markdownTemplate"
      "markdown").1) payload) payload hbib
    have hm1s : serializableFields (setItem (projectMetaFields st) "updatedAt"
        (vnum now)) = true := serializableFields_setItem _ _ _ hmfs rfl
    have hm2s := serializableFields_nameMetaUpdate _ (getD payload "project") hm1s hname
    have hm3s := serializableFields_llmMetaUpdate _ (getD payload "llm") hm2s hllm
    obtain ⟨h62, h6m⟩ := setMetaE_ok ((bibStep (resourcesStep ((templateStep (templateStep
      (savePages st ps fresh).1 payload "template" "latex").1 payload "markdownTemplate"
      "markdown").1) payload) payload).1) "project" (vobj (llmMetaUpdate (nameMetaUpdate
      (setItem (projectMetaFields st) "updatedAt" (vnum now)) (getD payload "project"))
      (getD payload "llm"))) hm3s
    obtain ⟨⟨res, hres⟩, hexm⟩ := exportProject_spec ((setMetaE ((bibStep (resourcesStep
      ((templateStep (templateStep (savePages st ps fresh).1 payload "template"
      "latex").1 payload "markdownTemplate" "markdown").1) payload) payload).1) "project"
      (vobj (llmMetaUpdate (nameMetaUpdate (setItem (projectMetaFields st) "updatedAt"
      (vnum now)) (getD payload "project")) (getD payload "llm")))).1) stem
    have hmeta5 : ((bibStep (resourcesStep ((templateStep (templateStep
        (savePages st ps fresh).1 payload "template" "latex").1 payload
        "markdownTemplate" "markdown").1) payload) payload).1).meta = st.meta :=
      h5m.trans ((resourcesStep_meta _ _).trans (h3m.trans (h2m.trans h1m)))
    have hsp : ∃ st7, saveProject st payload now fresh stem = (st7, SaveOutcome.ok res) ∧
        st7.meta = setItem st.meta "project" (vobj (llmMetaUpdate (nameMetaUpdate
          (setItem (projectMetaFields st) "updatedAt" (vnum now))
          (getD payload "project")) (getD payload "llm"))) := by
      unfold saveProject
      rw [if_neg hnvc]
      simp only [hpl]
      simp only [h12, h22, h32, h52, h62]
      rcases hE : exportProject ((setMetaE ((bibStep (resourcesStep ((templateStep
        (templateStep (savePages st ps fresh).1 payload "template" "latex").1 payload
        "markdownTemplate" "markdown").1) payload) payload).1) "project"
        (vobj (llmMetaUpdate (nameMetaUpdate (setItem (projectMetaFields st) "updatedAt"
        (vnum now)) (getD payload "project")) (getD payload "llm")))).1) stem
        with ⟨st7, o7⟩
      rw [hE] at hres hexm
      simp only at hres hexm
      subst hres
      refine ⟨st7, rfl, ?_⟩
      exact hexm.trans (h6m.trans (by rw [hmeta5]))
    obtain ⟨st7, hsp7, hmeta7⟩ := hsp
    constructor
    · exact ⟨res, by rw [hsp7]⟩
    · rw [hsp7]
      have hpm : getMetaVal st7 "project" = some (vobj (llmMetaUpdate (nameMetaUpdate
          (setItem (projectMetaFields st) "updatedAt" (vnum now))
          (getD payload "project")) (getD payload "llm"))) := by
        unfold getMetaVal
        rw [hmeta7, getEntry_setItem_self]
      show getD (projectMetaFields st7) "updatedAt" = vnum now
      unfold projectMetaFields getMetaD
      rw [hpm]
      show getD (llmMetaUpdate (nameMetaUpdate (setItem (projectMetaFields st)
        "updatedAt" (vnum now)) (getD payload "project")) (getD payload "llm"))
        "updatedAt" = vnum now
      unfold getD
      rw [getEntry_llmMetaUpdate _ _ _ (by decide),
        getEntry_nameMetaUpdate _ _ _ (by decide), getEntry_setItem_self]
      rfl

/-- Witness bound: 3 - 1 exceeds the conflict tolerance. -/
theorem c4gtBound : (3 : ℚ) - 1 > conflictTolerance := by
  norm_num [conflictTolerance]

/-- Witness bound: 3 - 3 is within the conflict tolerance. -/
theorem c4leBound : (3 : ℚ) - 3 ≤ conflictTolerance := by
  norm_num [conflictTolerance]

def c4st : Store := { Store.empty with meta := [("project", vobj [("updatedAt", vnum 3)])] }

def c4conf : List (String × PyVal) := [("clientUpdatedAt", vnum 1)]

def c4ok : List (String × PyVal) := [("pages", varr []), ("clientUpdatedAt", vnum 3)]

def c4fresh : Nat → String := fun _ => "fresh"

theorem save_project_version_conflict_witness :
    saveProject c4st c4conf 5 c4fresh "ws" = (c4st, SaveOutcome.conflict) ∧
    ((∃ res, (saveProject c4st c4ok 5 c4fresh "ws").2 = SaveOutcome.ok res) ∧
      getD (projectMetaFields (saveProject c4st c4ok 5 c4fresh "ws").1) "updatedAt" =
        vnum 5) := by
  constructor
  · exact (save_project_version_conflict c4st c4conf 5 c4fresh "ws").1 1 3 rfl rfl c4gtBound
  · exact (save_project_version_conflict c4st c4ok 5 c4fresh "ws").2 [] rfl
      (Or.inr ⟨3, 3, rfl, rfl, c4leBound⟩)
      (fun p hp => absurd hp (by simp [normalizedPages, enumerate]))
      (fun t h => Option.noConfusion h)
      (fun t h => Option.noConfusion h)
      (fun v h => Option.noConfusion h)
      rfl
      (fun h => Bool.noConfusion h)
      (fun fs h => PyVal.noConfusion h)

theorem setItem_of_getEntry_self (l : List (String × α)) (k : String) (v : α)
    (h : getEntry l k = some v) : setItem l k v = l := by
  induction l with
  | nil => exact Option.noConfusion h
  | cons e t ih =>
    obtain ⟨k2, v2⟩ := e
    by_cases hk : k2 = k
    · rw [getEntry, if_pos hk] at h
      injection h with h
      rw [setItem, if_pos hk, hk, h]
    · rw [getEntry, if_neg hk] at h
      rw [setItem, if_neg hk, ih h]

theorem delAll_of_getEntry_none (l : List (String × α)) (k : String)
    (h : getEntry l k = none) : delAll l k = l := by
  induction l with
  | nil => rfl
  | cons e t ih =>
    obtain ⟨k2, v2⟩ := e
    by_cases hk : k2 = k
    · rw [getEntry, if_pos hk] at h
      exact Option.noConfusion h
    · rw [getEntry, if_neg hk] at h
      rw [delAll_cons, if_neg hk, ih h]

theorem getEntry_delAll_self (l : List (String × α)) (k : String) :
    getEntry (delAll l k) k = none := by
  apply getEntry_eq_none
  intro e he
  have := List.of_mem_filter he
  simpa using this

theorem foldl_acc_proj {α γ : Type} (f : Store → γ)
    (step : Store × Nat × Bool → α → Store × Nat × Bool)
    (hstep : ∀ acc e, f ((step acc e).1) = f (acc.1)) :
    ∀ (l : List α) (acc : Store × Nat × Bool), f ((l.foldl step acc).1) = f (acc.1) := by
  intro l
  induction l with
  | nil => intro acc; rfl
  | cons x t ih =>
    intro acc
    rw [List.foldl_cons, ih, hstep]

theorem foldl_store_proj {α γ : Type} (f : Store → γ) (step : Store → α → Store)
    (hstep : ∀ acc e, f (step acc e) = f acc) :
    ∀ (l : List α) (acc : Store), f (l.foldl step acc) = f acc := by
  intro l
  induction l with
  | nil => intro acc; rfl
  | cons x t ih =>
    intro acc
    rw [List.foldl_cons, ih, hstep]

theorem migrateTemplatesIfNeeded_of_nonempty (st : Store)
    (h : st.templates.isEmpty = false) : migrateTemplatesIfNeeded st = st := by
  unfold migrateTemplatesIfNeeded
  rw [if_neg (by simp [h])]

theorem ensureLearningRecordCols_of_set (st : Store)
    (h : st.lrCols = ⟨true, true, true, true⟩) : ensureLearningRecordCols st = st := by
  unfold ensureLearningRecordCols
  rw [← h]

theorem ensurePageLatexCols_of_set (st : Store)
    (h : st.plCols = ⟨true, true⟩) : ensurePageLatexCols st = st := by
  unfold ensurePageLatexCols
  rw [← h]

theorem migrateLearningMeta_noop (st : Store) (now : ℚ) (f : Nat → String)
    (h : ∀ fs, getMetaVal st "learningData" = some (vobj fs) → fs = []) :
    migrateLearningMeta st now f = (st, true) := by
  rcases hL : getMetaVal st "learningData" with _ | v
  · simp only [migrateLearningMeta, hL]
  · cases v <;> simp only [migrateLearningMeta, hL]
    case vobj fs =>
      have hfs := h fs hL
      subst hfs
      have hset : setItem st.meta "learningData" (vobj []) = st.meta :=
        setItem_of_getEntry_self _ _ _ hL
      simp [setMetaE, hset, pyOr, pyTruthy, getD, getEntry, pyIter, serializable,
        serializableFields]

theorem migratePageTables_noop (st : Store) (f : Nat → String)
    (h : st.legacyPages = none) : migratePageTables st f = (st, true) := by
  simp only [migratePageTables, h]

theorem migrateProjectResources_noop (st : Store)
    (h : getMetaVal st "resources" = none) : migrateProjectResources st = st := by
  simp only [migrateProjectResources, h]
  rw [delAll_of_getEntry_none _ _ h]

theorem migrateProjectReferences_noop (st : Store)
    (h : ∀ fs xs, getMetaVal st "project" = some (vobj fs) →
      getEntry fs "bib" ≠ some (varr xs)) :
    migrateProjectReferences st = (st, true) := by
  rcases hM : getMetaVal st "project" with _ | v
  · simp only [migrateProjectReferences, hM]
  · cases v <;> simp only [migrateProjectReferences, hM]
    case vobj fs =>
      rcases hB : getEntry fs "bib" with _ | w
      · simp only [hB]
      · cases w <;> simp only [hB]
        case varr xs => exact absurd hB (h fs xs hM)

theorem migrateLegacyAssets_noop (st : Store)
    (h : ∀ rows, st.legacyAssets = some rows → ∀ r ∈ rows, ∀ b,
      assetScopeTable r.scope = some b →
      (findByKey (fun a : AssetRow => a.id) r.id (scopeRows st b)).isSome = true) :
    migrateLegacyAssets st = st := by
  rcases hA : st.legacyAssets with _ | rows
  · simp only [migrateLegacyAssets, hA]
  · simp only [migrateLegacyAssets, hA]
    by_cases he : rows.isEmpty = true
    · rw [if_pos he]
    · rw [if_neg he]
      have key : ∀ (l : List LegacyAssetRow),
          (∀ r ∈ l, ∀ b, assetScopeTable r.scope = some b →
            (findByKey (fun a : AssetRow => a.id) r.id (scopeRows st b)).isSome = true) →
          l.foldl legacyAssetStep st = st := by
        intro l
        induction l with
        | nil => intro _; rfl
        | cons r t ih =>
          intro hp
          rw [List.foldl_cons]
          have hstep : legacyAssetStep st r = st := by
            rcases hS : assetScopeTable r.scope with _ | b
            · simp only [legacyAssetStep, hS]
            · simp only [legacyAssetStep, hS,
                hp r (List.mem_cons_self r t) b hS, if_true]
          rw [hstep]
          exact ih (fun r2 hr2 => hp r2 (List.mem_cons_of_mem _ hr2))
      exact key rows (h rows hA)

theorem migrateMetaEntries_noop (st : Store) (now : ℚ)
    (hsec : ∃ fs, getMetaVal st projectSecurityMetaKey = some (vobj fs))
    (h1 : getEntry st.meta "latexTemplate" = none)
    (h2 : getEntry st.meta "markdownTemplate" = none)
    (h3 : getEntry st.meta "template" = none) :
    migrateMetaEntries st now = (st, true) := by
  obtain ⟨fs, hfs⟩ := hsec
  have hs : migrateSecurityMetaKey st now = (st, true) := by
    simp only [migrateSecurityMetaKey, hfs]
  have hp : purgeTemplateMetaKeys st = st := by
    show ({ st with meta := delAll (delAll (delAll st.meta "latexTemplate")
      "markdownTemplate") "template" } : Store) = st
    rw [delAll_of_getEntry_none _ _ h1, delAll_of_getEntry_none _ _ h2,
      delAll_of_getEntry_none _ _ h3]
  simp only [migrateMetaEntries, hs]
  rw [if_neg (by decide : ¬(true = false)), hp]

theorem ensureSchema_noop (st : Store) (now2 : ℚ) (fL2 fP2 : Nat → String)
    (hT : st.templates.isEmpty = false)
    (hC : st.lrCols = ⟨true, true, true, true⟩)
    (hP : st.plCols = ⟨true, true⟩)
    (hLD : ∀ fs, getMetaVal st "learningData" = some (vobj fs) → fs = [])
    (hLP : st.legacyPages = none)
    (hRes : getMetaVal st "resources" = none)
    (hBib : ∀ fs xs, getMetaVal st "project" = some (vobj fs) →
      getEntry fs "bib" ≠ some (varr xs))
    (hLA : ∀ rows, st.legacyAssets = some rows → ∀ r ∈ rows, ∀ b,
      assetScopeTable r.scope = some b →
      (findByKey (fun a : AssetRow => a.id) r.id (scopeRows st b)).isSome = true)
    (hSec : ∃ fs, getMetaVal st projectSecurityMetaKey = some (vobj fs))
    (hK1 : getEntry st.meta "latexTemplate" = none)
    (hK2 : getEntry st.meta "markdownTemplate" = none)
    (hK3 : getEntry st.meta "template" = none) :
    ensureSchema st now2 fL2 fP2 = (st, true) := by
  have e1 := migrateTemplatesIfNeeded_of_nonempty st hT
  have e2 := ensureLearningRecordCols_of_set st hC
  have e3 := migrateLearningMeta_noop st now2 fL2 hLD
  have e4 := ensurePageLatexCols_of_set st hP
  have e5 := migratePageTables_noop st fP2 hLP
  have e6 := migrateProjectResources_noop st hRes
  have e7 := migrateProjectReferences_noop st hBib
  have e8 := migrateLegacyAssets_noop st hLA
  have e9 := migrateMetaEntries_noop st now2 hSec hK1 hK2 hK3
  simp [ensureSchema, e1, e2, e3, e4, e5, e6, e7, e8, e9]

/-- Zero out the fields `_migrate_templates_if_needed` may write. -/
def tmplScrub (s : Store) : Store := { s with templates := [] }

/-- Zero out the fields the learning-meta drain loops may write. -/
def lpScrub (s : Store) : Store :=
  { s with
    learningPrompts := []
    learningRecords := [] }

/-- Zero out everything `_migrate_learning_meta` may write. -/
def lmScrub (s : Store) : Store :=
  { s with
    meta := []
    learningPrompts := []
    learningRecords := [] }

/-- Zero out everything `_migrate_page_tables` may write. -/
def pgScrub (s : Store) : Store :=
  { s with
    pageLatex := []
    pageMarkdown := []
    pageNotes := []
    pageResources := []
    pageReferences := []
    legacyPages := none }

/-- Zero out everything `_migrate_project_resources` may write. -/
def prScrub (s : Store) : Store :=
  { s with
    meta := []
    projectResources := [] }

/-- Zero out everything `_migrate_project_references` may write. -/
def pfScrub (s : Store) : Store :=
  { s with
    meta := []
    projectReferences := [] }

/-- Zero out everything `_migrate_legacy_assets` may write. -/
def laScrub (s : Store) : Store :=
  { s with
    attachments := []
    resourceFiles := [] }

/-- Zero out everything `_migrate_meta_entries` may write. -/
def meScrub (s : Store) : Store := { s with meta := [] }

theorem migrateTemplatesIfNeeded_scrub (st : Store) :
    tmplScrub (migrateTemplatesIfNeeded st) = tmplScrub st := by
  unfold migrateTemplatesIfNeeded
  by_cases h : st.templates.isEmpty = true
  · rw [if_pos h]
    simp only [saveTemplate]
    split <;> split <;> rfl
  · rw [if_neg h]

theorem migrateTemplatesIfNeeded_templates_ne (st : Store) :
    (migrateTemplatesIfNeeded st).templates.isEmpty = false := by
  unfold migrateTemplatesIfNeeded
  by_cases h : st.templates.isEmpty = true
  · rw [if_pos h]
    show (setItem (setItem st.templates "latex" defaultLatexTemplate) "markdown"
      defaultMarkdownTemplate).isEmpty = false
    cases hs : setItem (setItem st.templates "latex" defaultLatexTemplate) "markdown"
        defaultMarkdownTemplate with
    | nil => exact absurd hs (setItem_ne_nil _ _ _)
    | cons a l => rfl
  · rw [if_neg h]
    cases hb : st.templates.isEmpty with
    | false => rfl
    | true => exact absurd hb h

theorem saveLearningPromptEntry_scrub (st : Store) (p : List (String × PyVal))
    (r : Bool) (f : String) :
    lpScrub ((saveLearningPromptEntry st p r f).1) = lpScrub st := by
  simp only [saveLearningPromptEntry]
  split <;> split <;> rfl

theorem saveLearningRecordEntry_scrub (st : Store) (rec : List (String × PyVal))
    (now : ℚ) (f : String) :
    lpScrub ((saveLearningRecordEntry st rec now f).1) = lpScrub st := by
  simp only [saveLearningRecordEntry]
  split
  · rfl
  · simp only [pruneLearningRecords]
    split <;> rfl

theorem promptStep_scrub (source : String) (f : Nat → String)
    (acc : Store × Nat × Bool) (e : PyVal) :
    lpScrub ((promptStep source f acc e).1) = lpScrub (acc.1) := by
  simp only [promptStep]
  split
  · rfl
  · split
    · exact saveLearningPromptEntry_scrub _ _ _ _
    · rfl

theorem removedPromptStep_scrub (f : Nat → String) (acc : Store × Nat × Bool)
    (e : PyVal) :
    lpScrub ((removedPromptStep f acc e).1) = lpScrub (acc.1) := by
  simp only [removedPromptStep]
  split
  · rfl
  · split
    · split
      · rfl
      · exact saveLearningPromptEntry_scrub _ _ _ _
    · rfl

theorem legacyRecordEntryStep_scrub (base : String) (context : Option String)
    (now : ℚ) (f : Nat → String) (acc : Store × Nat × Bool) (e : PyVal) :
    lpScrub ((legacyRecordEntryStep base context now f acc e).1) = lpScrub (acc.1) := by
  simp only [legacyRecordEntryStep]
  split
  · rfl
  · split
    · split
      · rfl
      · split <;> exact saveLearningRecordEntry_scrub _ _ _ _
    · rfl

theorem legacyRecordStep_scrub (now : ℚ) (f : Nat → String)
    (acc : Store × Nat × Bool) (e : PyVal) :
    lpScrub ((legacyRecordStep now f acc e).1) = lpScrub (acc.1) := by
  simp only [legacyRecordStep]
  split
  · rfl
  · split
    · split
      · rfl
      · split
        · rfl
        · exact foldl_acc_proj lpScrub _ (legacyRecordEntryStep_scrub _ _ now f) _ acc
    · rfl

theorem migratePageStep_scrub (f : Nat → String) (acc : Store × Nat × Bool)
    (row : LegacyPageRow) :
    pgScrub ((migratePageStep f acc row).1) = pgScrub (acc.1) := by
  simp only [migratePageStep]
  split
  · rfl
  · split <;> rfl

theorem migrateProjectResources_scrub (st : Store) :
    prScrub (migrateProjectResources st) = prScrub st := by
  simp only [migrateProjectResources, replaceProjectResources]
  split
  · split <;> rfl
  · rfl

theorem migrateProjectResources_meta (st : Store) :
    (migrateProjectResources st).meta = delAll st.meta "resources" := by
  simp only [migrateProjectResources, replaceProjectResources]
  split
  · split <;> rfl
  · rfl

theorem migrateProjectResources_post (st : Store) :
    getMetaVal (migrateProjectResources st) "resources" = none := by
  show getEntry (migrateProjectResources st).meta "resources" = none
  rw [migrateProjectResources_meta]
  exact getEntry_delAll_self _ _

theorem legacyAssetStep_scrub (acc : Store) (r : LegacyAssetRow) :
    laScrub (legacyAssetStep acc r) = laScrub acc := by
  simp only [legacyAssetStep, setScopeRows]
  split
  · rfl
  · split
    · rfl
    · split <;> rfl

theorem migrateLegacyAssets_scrub (st : Store) :
    laScrub (migrateLegacyAssets st) = laScrub st := by
  simp only [migrateLegacyAssets]
  split
  · rfl
  · split
    · rfl
    · exact foldl_store_proj laScrub _ legacyAssetStep_scrub _ st

theorem setMetaE_scrub (st : Store) (k : String) (v : PyVal) :
    meScrub ((setMetaE st k v).1) = meScrub st := by
  unfold setMetaE
  split <;> rfl

theorem delMeta_scrub (st : Store) (k : String) : meScrub (delMeta st k) = meScrub st := rfl

theorem purge_scrub (st : Store) : meScrub (purgeTemplateMetaKeys st) = meScrub st := rfl

theorem securityFallback_scrub (st : Store) (now : ℚ) :
    meScrub ((securityFallback st now).1) = meScrub st := by
  cases hL : getMetaVal st legacySecurityMetaKey with
  | none => simp only [securityFallback, hL]; exact setMetaE_scrub _ _ _
  | some w =>
    cases w <;> simp only [securityFallback, hL] <;> try exact setMetaE_scrub _ _ _
    case some.vobj fs =>
      by_cases hg : (setMetaE st projectSecurityMetaKey (vobj fs)).2 = false
      · rw [if_pos hg]; exact setMetaE_scrub _ _ _
      · rw [if_neg hg]; exact (delMeta_scrub _ _).trans (setMetaE_scrub _ _ _)

theorem migrateSecurityMetaKey_scrub (st : Store) (now : ℚ) :
    meScrub ((migrateSecurityMetaKey st now).1) = meScrub st := by
  cases hM : getMetaVal st projectSecurityMetaKey with
  | none => simp only [migrateSecurityMetaKey, hM]; exact securityFallback_scrub st now
  | some v =>
    cases v <;> simp only [migrateSecurityMetaKey, hM]
    all_goals exact securityFallback_scrub st now

theorem migrateMetaEntries_scrub (st : Store) (now : ℚ) :
    meScrub ((migrateMetaEntries st now).1) = meScrub st := by
  simp only [migrateMetaEntries]
  by_cases hg : (migrateSecurityMetaKey st now).2 = false
  · rw [if_pos hg]; exact migrateSecurityMetaKey_scrub st now
  · rw [if_neg hg]
    exact (purge_scrub _).trans (migrateSecurityMetaKey_scrub st now)

theorem ne_false_imp {b : Bool} (h : ¬(b = false)) : b = true := by
  cases b
  · exact absurd rfl h
  · rfl

theorem getEntry_setMetaE_other (st : Store) (k : String) (v : PyVal) (q : String)
    (hq : q ≠ k) : getEntry ((setMetaE st k v).1).meta q = getEntry st.meta q := by
  unfold setMetaE
  split
  · exact getEntry_setItem_other _ _ _ _ hq
  · rfl

theorem setMetaE_meta_of_success (st : Store) (k : String) (v : PyVal)
    (h : (setMetaE st k v).2 = true) :
    ((setMetaE st k v).1).meta = setItem st.meta k v := by
  unfold setMetaE at h ⊢
  by_cases hg : serializable v = true
  · rw [if_pos hg]
  · rw [if_neg hg] at h
    exact Bool.noConfusion h

theorem setMetaE_pfScrub (st : Store) (k : String) (v : PyVal) :
    pfScrub ((setMetaE st k v).1) = pfScrub st := by
  unfold setMetaE
  split <;> rfl

theorem replaceProjectReferences_pfScrub (st : Store) (v : PyVal) :
    pfScrub ((replaceProjectReferences st v).1) = pfScrub st := rfl

theorem migrateProjectReferences_scrub (st : Store) :
    pfScrub ((migrateProjectReferences st).1) = pfScrub st := by
  cases hM : getMetaVal st "project" with
  | none => simp only [migrateProjectReferences, hM]
  | some v =>
    cases v <;> simp only [migrateProjectReferences, hM] <;> try rfl
    case some.vobj fs =>
      cases hB : getEntry fs "bib" with
      | none => simp only [hB]
      | some w =>
        cases w <;> simp only [hB] <;> try rfl
        case some.varr xs =>
          by_cases hg : (setMetaE st "project" (vobj (popEntry fs "bib"))).2 = false
          · rw [if_pos hg]; exact setMetaE_pfScrub _ _ _
          · rw [if_neg hg]
            by_cases he : xs.isEmpty = true
            · rw [if_pos he]; exact setMetaE_pfScrub _ _ _
            · rw [if_neg he]
              exact (replaceProjectReferences_pfScrub _ _).trans (setMetaE_pfScrub _ _ _)

theorem migrateProjectReferences_meta_other (st : Store) (q : String)
    (hq : q ≠ "project") :
    getEntry ((migrateProjectReferences st).1).meta q = getEntry st.meta q := by
  cases hM : getMetaVal st "project" with
  | none => simp only [migrateProjectReferences, hM]
  | some v =>
    cases v <;> simp only [migrateProjectReferences, hM] <;> try rfl
    case some.vobj fs =>
      cases hB : getEntry fs "bib" with
      | none => simp only [hB]
      | some w =>
        cases w <;> simp only [hB] <;> try rfl
        case some.varr xs =>
          by_cases hg : (setMetaE st "project" (vobj (popEntry fs "bib"))).2 = false
          · rw [if_pos hg]; exact getEntry_setMetaE_other _ _ _ _ hq
          · rw [if_neg hg]
            by_cases he : xs.isEmpty = true
            · rw [if_pos he]; exact getEntry_setMetaE_other _ _ _ _ hq
            · rw [if_neg he]
              exact getEntry_setMetaE_other _ _ _ _ hq

theorem migrateProjectReferences_post (st : Store)
    (hwf : ∀ fs, getMetaVal st "project" = some (vobj fs) → (fs.map Prod.fst).Nodup)
    (hs : (migrateProjectReferences st).2 = true) :
    ∀ fs xs, getMetaVal ((migrateProjectReferences st).1) "project" = some (vobj fs) →
      getEntry fs "bib" ≠ some (varr xs) := by
  intro fs xs hfs hbib
  cases hM : getMetaVal st "project" with
  | none =>
    simp only [migrateProjectReferences, hM] at hfs
    exact Option.noConfusion hfs
  | some v =>
    cases v <;> simp only [migrateProjectReferences, hM] at hfs hs <;>
      try (injection hfs with h2; exact PyVal.noConfusion h2)
    case some.vobj fs0 =>
      cases hB : getEntry fs0 "bib" with
      | none =>
        simp only [hB] at hfs
        rw [hM] at hfs
        injection hfs with h2
        injection h2 with h3
        rw [← h3, hB] at hbib
        exact Option.noConfusion hbib
      | some w =>
        cases w <;> simp only [hB] at hfs hs
        case some.varr bibXs =>
          by_cases hg : (setMetaE st "project" (vobj (popEntry fs0 "bib"))).2 = false
          · rw [if_pos hg] at hs
            exact Bool.noConfusion hs
          · rw [if_neg hg] at hfs
            have hgt := ne_false_imp hg
            have hmeta := setMetaE_meta_of_success st "project" (vobj (popEntry fs0 "bib")) hgt
            have hget : getMetaVal ((if bibXs.isEmpty = true then
                ((setMetaE st "project" (vobj (popEntry fs0 "bib"))).1, true)
              else ((replaceProjectReferences
                ((setMetaE st "project" (vobj (popEntry fs0 "bib"))).1) (varr bibXs)).1,
                (replaceProjectReferences
                  ((setMetaE st "project" (vobj (popEntry fs0 "bib"))).1) (varr bibXs)).2)).1)
                "project" = some (vobj (popEntry fs0 "bib")) := by
              by_cases he : bibXs.isEmpty = true
              · rw [if_pos he]
                show getEntry ((setMetaE st "project" (vobj (popEntry fs0 "bib"))).1).meta
                  "project" = _
                rw [hmeta]
                exact getEntry_setItem_self _ _ _
              · rw [if_neg he]
                show getEntry ((setMetaE st "project" (vobj (popEntry fs0 "bib"))).1).meta
                  "project" = _
                rw [hmeta]
                exact getEntry_setItem_self _ _ _
            rw [hget] at hfs
            injection hfs with h2
            injection h2 with h3
            rw [← h3] at hbib
            rw [getEntry_popEntry_self fs0 "bib" (hwf fs0 hM)] at hbib
            exact Option.noConfusion hbib
        all_goals {
          rw [hM] at hfs
          injection hfs with h2
          injection h2 with h3
          rw [← h3, hB] at hbib
          injection hbib with h4
          exact PyVal.noConfusion h4 }

theorem migratePageTables_success (st : Store) (f : Nat → String)
    (h : (migratePageTables st f).2 = true) :
    pgScrub ((migratePageTables st f).1) = pgScrub st ∧
    ((migratePageTables st f).1).legacyPages = none := by
  cases hLP : st.legacyPages with
  | none =>
    simp only [migratePageTables, hLP]
    exact ⟨trivial, trivial⟩
  | some rows =>
    simp only [migratePageTables, hLP] at h ⊢
    by_cases hok : (List.foldl (migratePageStep f) ((st, 0, true) : Store × Nat × Bool)
        (sortByKey (fun r : LegacyPageRow => r.idx) rows)).2.2 = false
    · rw [if_pos hok] at h
      exact Bool.noConfusion h
    · rw [if_neg hok]
      have hsc : pgScrub (List.foldl (migratePageStep f)
          ((st, 0, true) : Store × Nat × Bool)
          (sortByKey (fun r : LegacyPageRow => r.idx) rows)).1 = pgScrub st :=
        foldl_acc_proj pgScrub _ (migratePageStep_scrub f) _ _
      exact ⟨hsc, rfl⟩

theorem scopeRows_setScopeRows_same (st : Store) (b : Bool) (rows : List AssetRow) :
    scopeRows (setScopeRows st b rows) b = rows := by
  cases b <;> rfl

theorem scopeRows_setScopeRows_other (st : Store) (b b2 : Bool) (rows : List AssetRow)
    (h : b2 ≠ b) :
    scopeRows (setScopeRows st b2 rows) b = scopeRows st b := by
  cases b <;> cases b2 <;> first | exact absurd rfl h | rfl

theorem legacyAssetStep_mono (acc : Store) (r : LegacyAssetRow) (id0 : String) (b : Bool)
    (h : (findByKey (fun a : AssetRow => a.id) id0 (scopeRows acc b)).isSome = true) :
    (findByKey (fun a : AssetRow => a.id) id0 (scopeRows (legacyAssetStep acc r) b)).isSome
      = true := by
  cases hS : assetScopeTable r.scope with
  | none => simp only [legacyAssetStep, hS]; exact h
  | some b2 =>
    simp only [legacyAssetStep, hS]
    by_cases hp : (findByKey (fun a : AssetRow => a.id) r.id (scopeRows acc b2)).isSome = true
    · rw [if_pos hp]; exact h
    · rw [if_neg hp]
      by_cases hb : b2 = b
      · subst hb
        rw [scopeRows_setScopeRows_same, findByKey_append]
        rcases hf : findByKey (fun a : AssetRow => a.id) id0 (scopeRows acc b2) with _ | a
        · rw [hf] at h
          simp at h
        · rfl
      · rw [scopeRows_setScopeRows_other _ _ _ _ hb]
        exact h

theorem legacyAssetStep_est (acc : Store) (r : LegacyAssetRow) (b : Bool)
    (hS : assetScopeTable r.scope = some b) :
    (findByKey (fun a : AssetRow => a.id) r.id (scopeRows (legacyAssetStep acc r) b)).isSome
      = true := by
  simp only [legacyAssetStep, hS]
  by_cases hp : (findByKey (fun a : AssetRow => a.id) r.id (scopeRows acc b)).isSome = true
  · rw [if_pos hp]; exact hp
  · rw [if_neg hp]
    rw [scopeRows_setScopeRows_same, findByKey_append]
    rcases hf : findByKey (fun a : AssetRow => a.id) r.id (scopeRows acc b) with _ | a
    · simp [findByKey]
    · rw [hf] at hp
      simp at hp

theorem foldl_asset_mono (l : List LegacyAssetRow) (acc : Store) (id0 : String) (b : Bool)
    (h : (findByKey (fun a : AssetRow => a.id) id0 (scopeRows acc b)).isSome = true) :
    (findByKey (fun a : AssetRow => a.id) id0
      (scopeRows (l.foldl legacyAssetStep acc) b)).isSome = true := by
  induction l generalizing acc with
  | nil => exact h
  | cons r t ih =>
    rw [List.foldl_cons]
    exact ih _ (legacyAssetStep_mono acc r id0 b h)

theorem foldl_asset_present (l : List LegacyAssetRow) (acc : Store) :
    ∀ r ∈ l, ∀ b, assetScopeTable r.scope = some b →
      (findByKey (fun a : AssetRow => a.id) r.id
        (scopeRows (l.foldl legacyAssetStep acc) b)).isSome = true := by
  induction l generalizing acc with
  | nil => intro r hr; exact absurd hr (List.not_mem_nil r)
  | cons r0 t ih =>
    intro r hr b hS
    rw [List.foldl_cons]
    rcases List.mem_cons.mp hr with h1 | h1
    · subst h1
      exact foldl_asset_mono t _ r.id b (legacyAssetStep_est acc r b hS)
    · exact ih _ r h1 b hS

theorem migrateLegacyAssets_post (st : Store) :
    ∀ rows, st.legacyAssets = some rows → ∀ r ∈ rows, ∀ b,
      assetScopeTable r.scope = some b →
      (findByKey (fun a : AssetRow => a.id) r.id
        (scopeRows (migrateLegacyAssets st) b)).isSome = true := by
  intro rows hA r hr b hS
  simp only [migrateLegacyAssets, hA]
  by_cases he : rows.isEmpty = true
  · rw [List.isEmpty_iff] at he
    subst he
    exact absurd hr (List.not_mem_nil r)
  · rw [if_neg he]
    exact foldl_asset_present rows st r hr b hS

theorem securityFallback_seed_sec (st : Store) (now : ℚ)
    (h : (setMetaE st projectSecurityMetaKey
      (vobj [("passwordHash", vnull), ("updatedAt", vnum now)])).2 = true) :
    ∃ fs, getMetaVal ((setMetaE st projectSecurityMetaKey
      (vobj [("passwordHash", vnull), ("updatedAt", vnum now)])).1)
      projectSecurityMetaKey = some (vobj fs) := by
  refine ⟨[("passwordHash", vnull), ("updatedAt", vnum now)], ?_⟩
  simp only [getMetaVal]
  rw [setMetaE_meta_of_success _ _ _ h, getEntry_setItem_self]

theorem securityFallback_sec (st : Store) (now : ℚ)
    (h : (securityFallback st now).2 = true) :
    ∃ fs, getMetaVal ((securityFallback st now).1) projectSecurityMetaKey
      = some (vobj fs) := by
  cases hL : getMetaVal st legacySecurityMetaKey with
  | none =>
    simp only [securityFallback, hL] at h ⊢
    exact securityFallback_seed_sec st now h
  | some w =>
    cases w <;> simp only [securityFallback, hL] at h ⊢ <;>
      try exact securityFallback_seed_sec st now h
    case some.vobj fs =>
      by_cases hg : (setMetaE st projectSecurityMetaKey (vobj fs)).2 = false
      · rw [if_pos hg] at h
        exact Bool.noConfusion h
      · rw [if_neg hg] at h ⊢
        refine ⟨fs, ?_⟩
        show getEntry (delAll ((setMetaE st projectSecurityMetaKey (vobj fs)).1).meta
          legacySecurityMetaKey) projectSecurityMetaKey = _
        rw [getEntry_delAll_other _ _ _ (by decide),
          setMetaE_meta_of_success _ _ _ (ne_false_imp hg)]
        exact getEntry_setItem_self _ _ _

theorem migrateSecurityMetaKey_sec (st : Store) (now : ℚ)
    (h : (migrateSecurityMetaKey st now).2 = true) :
    ∃ fs, getMetaVal ((migrateSecurityMetaKey st now).1) projectSecurityMetaKey
      = some (vobj fs) := by
  cases hM : getMetaVal st projectSecurityMetaKey with
  | none =>
    simp only [migrateSecurityMetaKey, hM] at h ⊢
    exact securityFallback_sec st now h
  | some v =>
    cases v <;> simp only [migrateSecurityMetaKey, hM] at h ⊢ <;>
      try exact securityFallback_sec st now h
    case some.vobj fs => exact ⟨fs, rfl⟩

theorem securityFallback_meta_other (st : Store) (now : ℚ) (q : String)
    (hq1 : q ≠ projectSecurityMetaKey) (hq2 : q ≠ legacySecurityMetaKey) :
    getEntry ((securityFallback st now).1).meta q = getEntry st.meta q := by
  cases hL : getMetaVal st legacySecurityMetaKey with
  | none =>
    simp only [securityFallback, hL]
    exact getEntry_setMetaE_other _ _ _ _ hq1
  | some w =>
    cases w <;> simp only [securityFallback, hL] <;>
      try exact getEntry_setMetaE_other _ _ _ _ hq1
    case some.vobj fs =>
      by_cases hg : (setMetaE st projectSecurityMetaKey (vobj fs)).2 = false
      · rw [if_pos hg]
        exact getEntry_setMetaE_other _ _ _ _ hq1
      · rw [if_neg hg]
        show getEntry (delAll ((setMetaE st projectSecurityMetaKey (vobj fs)).1).meta
          legacySecurityMetaKey) q = _
        rw [getEntry_delAll_other _ _ _ hq2]
        exact getEntry_setMetaE_other _ _ _ _ hq1

theorem migrateSecurityMetaKey_meta_other (st : Store) (now : ℚ) (q : String)
    (hq1 : q ≠ projectSecurityMetaKey) (hq2 : q ≠ legacySecurityMetaKey) :
    getEntry ((migrateSecurityMetaKey st now).1).meta q = getEntry st.meta q := by
  cases hM : getMetaVal st projectSecurityMetaKey with
  | none =>
    simp only [migrateSecurityMetaKey, hM]
    exact securityFallback_meta_other st now q hq1 hq2
  | some v =>
    cases v <;> simp only [migrateSecurityMetaKey, hM] <;>
      try exact securityFallback_meta_other st now q hq1 hq2

theorem migrateMetaEntries_post (st : Store) (now : ℚ)
    (h : (migrateMetaEntries st now).2 = true) :
    (∃ fs, getMetaVal ((migrateMetaEntries st now).1) projectSecurityMetaKey
      = some (vobj fs)) ∧
    getEntry ((migrateMetaEntries st now).1).meta "latexTemplate" = none ∧
    getEntry ((migrateMetaEntries st now).1).meta "markdownTemplate" = none ∧
    getEntry ((migrateMetaEntries st now).1).meta "template" = none ∧
    (∀ q, q ≠ projectSecurityMetaKey → q ≠ legacySecurityMetaKey →
      q ≠ "latexTemplate" → q ≠ "markdownTemplate" → q ≠ "template" →
      getEntry ((migrateMetaEntries st now).1).meta q = getEntry st.meta q) := by
  simp only [migrateMetaEntries] at h ⊢
  by_cases hg : (migrateSecurityMetaKey st now).2 = false
  · rw [if_pos hg] at h
    exact Bool.noConfusion h
  · rw [if_neg hg] at h ⊢
    obtain ⟨fs, hfs⟩ := migrateSecurityMetaKey_sec st now (ne_false_imp hg)
    refine ⟨⟨fs, ?_⟩, ?_, ?_, ?_, ?_⟩
    · show getEntry (delAll (delAll (delAll ((migrateSecurityMetaKey st now).1).meta
        "latexTemplate") "markdownTemplate") "template") projectSecurityMetaKey = _
      rw [getEntry_delAll_other _ _ _ (by decide), getEntry_delAll_other _ _ _ (by decide),
        getEntry_delAll_other _ _ _ (by decide)]
      exact hfs
    · show getEntry (delAll (delAll (delAll ((migrateSecurityMetaKey st now).1).meta
        "latexTemplate") "markdownTemplate") "template") "latexTemplate" = none
      rw [getEntry_delAll_other _ _ _ (by decide), getEntry_delAll_other _ _ _ (by decide)]
      exact getEntry_delAll_self _ _
    · show getEntry (delAll (delAll (delAll ((migrateSecurityMetaKey st now).1).meta
        "latexTemplate") "markdownTemplate") "template") "markdownTemplate" = none
      rw [getEntry_delAll_other _ _ _ (by decide)]
      exact getEntry_delAll_self _ _
    · exact getEntry_delAll_self _ _
    · intro q h1 h2 h3 h4 h5
      show getEntry (delAll (delAll (delAll ((migrateSecurityMetaKey st now).1).meta
        "latexTemplate") "markdownTemplate") "template") q = _
      rw [getEntry_delAll_other _ _ _ h5, getEntry_delAll_other _ _ _ h4,
        getEntry_delAll_other _ _ _ h3]
      exact migrateSecurityMetaKey_meta_other st now q h1 h2

theorem setMetaE_lmScrub (st : Store) (k : String) (v : PyVal) :
    lmScrub ((setMetaE st k v).1) = lmScrub st := by
  unfold setMetaE
  split <;> rfl

theorem migrateLearningMeta_success (st : Store) (now : ℚ) (f : Nat → String)
    (h : (migrateLearningMeta st now f).2 = true) :
    lmScrub ((migrateLearningMeta st now f).1) = lmScrub st ∧
    (∀ q, q ≠ "learningData" →
      getEntry ((migrateLearningMeta st now f).1).meta q = getEntry st.meta q) ∧
    (∀ fs, getMetaVal ((migrateLearningMeta st now f).1) "learningData"
      = some (vobj fs) → fs = []) := by
  cases hL : getMetaVal st "learningData" with
  | none =>
    simp only [migrateLearningMeta, hL]
    exact ⟨by trivial, fun q _ => by trivial, fun fs hfs => Option.noConfusion hfs⟩
  | some v =>
    cases v <;> simp only [migrateLearningMeta, hL] at h ⊢ <;>
      try exact ⟨by trivial, fun q _ => by trivial, fun fs hfs => by
        { injection hfs with h2; exact PyVal.noConfusion h2 }⟩
    case vobj legacyFs =>
      cases hP : pyOr (getD legacyFs "prompts") (vobj []) <;>
          simp only [hP] at h ⊢ <;>
        try exact Bool.noConfusion h
      case vobj promptsMeta =>
        cases hI1 : pyIter (pyOr (getD promptsMeta "custom") (varr [])) with
        | none =>
          simp only [hI1] at h
          exact Bool.noConfusion h
        | some customL =>
          simp only [hI1] at h ⊢
          set A1 := customL.foldl (promptStep "custom" f)
            ((st, 0, true) : Store × Nat × Bool) with hA1def
          by_cases hA1 : A1.2.2 = false
          · rw [if_pos hA1] at h
            exact Bool.noConfusion h
          · rw [if_neg hA1] at h ⊢
            cases hI2 : pyIter (pyOr (getD promptsMeta "overrides") (varr [])) with
            | none =>
              simp only [hI2] at h
              exact Bool.noConfusion h
            | some overridesL =>
              simp only [hI2] at h ⊢
              set A2 := overridesL.foldl (promptStep "override" f) A1 with hA2def
              by_cases hA2 : A2.2.2 = false
              · rw [if_pos hA2] at h
                exact Bool.noConfusion h
              · rw [if_neg hA2] at h ⊢
                cases hI3 : pyIter (pyOr (getD promptsMeta "removed") (varr [])) with
                | none =>
                  simp only [hI3] at h
                  exact Bool.noConfusion h
                | some removedL =>
                  simp only [hI3] at h ⊢
                  set A3 := removedL.foldl (removedPromptStep f) A2 with hA3def
                  by_cases hA3 : A3.2.2 = false
                  · rw [if_pos hA3] at h
                    exact Bool.noConfusion h
                  · rw [if_neg hA3] at h ⊢
                    cases hI4 : pyIter (pyOr (getD legacyFs "records") (varr [])) with
                    | none =>
                      simp only [hI4] at h
                      exact Bool.noConfusion h
                    | some recordsL =>
                      simp only [hI4] at h ⊢
                      set A4 := recordsL.foldl (legacyRecordStep now f) A3 with hA4def
                      by_cases hA4 : A4.2.2 = false
                      · rw [if_pos hA4] at h
                        exact Bool.noConfusion h
                      · rw [if_neg hA4] at h ⊢
                        have hsc : lpScrub A4.1 = lpScrub st := by
                          rw [hA4def, hA3def, hA2def, hA1def]
                          exact (foldl_acc_proj lpScrub _
                              (legacyRecordStep_scrub now f) recordsL _).trans
                            ((foldl_acc_proj lpScrub _
                              (removedPromptStep_scrub f) removedL _).trans
                            ((foldl_acc_proj lpScrub _
                              (promptStep_scrub "override" f) overridesL _).trans
                            (foldl_acc_proj lpScrub _
                              (promptStep_scrub "custom" f) customL _)))
                        have hlm : lmScrub A4.1 = lmScrub st := by
                          have h7 := congrArg (fun y : Store =>
                            { y with meta := ([] : List (String × PyVal)) }) hsc
                          exact h7
                        have hmeta : A4.1.meta = st.meta := by
                          have h6 := congrArg Store.meta hsc
                          exact h6
                        have hval : getMetaVal
                            ((setMetaE A4.1 "learningData" (vobj [])).1)
                            "learningData"
                            = some (vobj ([] : List (String × PyVal))) := by
                          simp only [getMetaVal]
                          rw [setMetaE_meta_of_success _ _ _ h, getEntry_setItem_self]
                        refine ⟨(setMetaE_lmScrub _ _ _).trans hlm,
                          fun q hq => ?_, fun fs hfs => ?_⟩
                        · exact (getEntry_setMetaE_other _ _ _ _ hq).trans
                            (by rw [hmeta])
                        · have h5 : some (vobj ([] : List (String × PyVal)))
                              = some (vobj fs) := hval.symm.trans hfs
                          injection h5 with h2
                          injection h2 with h3
                          exact h3.symm

/-- Fresh-id source for the schema-idempotence witness. -/
def c7f : Nat → String := fun _ => "c7"

/-- Sequencing of `_ensure_schema`'s fallible migration steps: a failed
step short-circuits with its partial store. -/
def step2 (r : Store × Bool) (f : Store → Store × Bool) : Store × Bool :=
  if r.2 = false then (r.1, false) else f r.1

theorem step2_true_fst {r : Store × Bool} {f : Store → Store × Bool}
    (h : (step2 r f).2 = true) : r.2 = true := by
  by_cases hc : r.2 = false
  · unfold step2 at h
    rw [if_pos hc] at h
    exact Bool.noConfusion h
  · exact ne_false_imp hc

theorem step2_eq_of_true {r : Store × Bool} {f : Store → Store × Bool}
    (h : r.2 = true) : step2 r f = f r.1 := by
  unfold step2
  rw [h]
  rw [if_neg (by decide : ¬(true = false))]

theorem ensureSchema_as_steps (st : Store) (now : ℚ) (fL fP : Nat → String) :
    ensureSchema st now fL fP
      = step2 (migrateLearningMeta (ensureLearningRecordCols
          (migrateTemplatesIfNeeded st)) now fL) (fun s3 =>
        step2 (migratePageTables (ensurePageLatexCols s3) fP) (fun s5 =>
        step2 (migrateProjectReferences (migrateProjectResources s5)) (fun s7 =>
        migrateMetaEntries (migrateLegacyAssets s7) now))) := rfl

set_option maxHeartbeats 2000000 in
/-- C7: running the schema-ensure-and-migrate sequence twice in a row is a
no-op the second time: provided the stored project meta dict has unique keys
and the first run succeeded, the second run raises no error (its success
flag is `true`) and returns the store of the first run entirely unchanged —
so no duplicate rows are created in any table and every stored value is
left as it was. -/
theorem ensure_schema_idempotent (st : Store) (now now2 : ℚ)
    (fL fP fL2 fP2 : Nat → String)
    (hwf : ∀ fs, getMetaVal st "project" = some (vobj fs) → (fs.map Prod.fst).Nodup)
    (h : (ensureSchema st now fL fP).2 = true) :
    ensureSchema ((ensureSchema st now fL fP).1) now2 fL2 fP2
      = ((ensureSchema st now fL fP).1, true) := by
  have hE := ensureSchema_as_steps st now fL fP
  rw [hE] at h
  set T := migrateTemplatesIfNeeded st with hTdef
  set C := ensureLearningRecordCols T with hCdef
  set R3 := migrateLearningMeta C now fL with hR3def
  have h3 : R3.2 = true := step2_true_fst h
  rw [step2_eq_of_true h3] at h hE
  set S4 := ensurePageLatexCols R3.1 with hS4def
  set R5 := migratePageTables S4 fP with hR5def
  have h5 : R5.2 = true := step2_true_fst h
  rw [step2_eq_of_true h5] at h hE
  set S6 := migrateProjectResources R5.1 with hS6def
  set R7 := migrateProjectReferences S6 with hR7def
  have h7 : R7.2 = true := step2_true_fst h
  rw [step2_eq_of_true h7] at h hE
  set S8 := migrateLegacyAssets R7.1 with hS8def
  set R9 := migrateMetaEntries S8 now with hR9def
  have h9 : R9.2 = true := h
  have hst1 : ensureSchema st now fL fP = (R9.1, true) := by
    rw [hE, ← h9]
  have e3 := migrateLearningMeta_success C now fL h3
  rw [← hR3def] at e3
  have e5 := migratePageTables_success S4 fP h5
  rw [← hR5def] at e5
  have e6m := migrateProjectResources_meta R5.1
  rw [← hS6def] at e6m
  have e6p := migrateProjectResources_post R5.1
  rw [← hS6def] at e6p
  have e6s := migrateProjectResources_scrub R5.1
  rw [← hS6def] at e6s
  have e7s := migrateProjectReferences_scrub S6
  rw [← hR7def] at e7s
  have e7mo : ∀ q, q ≠ "project" → getEntry (R7.1).meta q = getEntry S6.meta q := by
    intro q hq
    have x := migrateProjectReferences_meta_other S6 q hq
    exact x
  have e8s := migrateLegacyAssets_scrub R7.1
  rw [← hS8def] at e8s
  have e8p := migrateLegacyAssets_post R7.1
  rw [← hS8def] at e8p
  have e9s := migrateMetaEntries_scrub S8 now
  rw [← hR9def] at e9s
  have e9p := migrateMetaEntries_post S8 now h9
  rw [← hR9def] at e9p
  have mC : C.meta = T.meta := rfl
  have m4 : S4.meta = R3.1.meta := rfl
  have mT : T.meta = st.meta := by
    have x := congrArg Store.meta (migrateTemplatesIfNeeded_scrub st)
    exact x
  have m5 : R5.1.meta = S4.meta := by
    have x := congrArg Store.meta e5.1
    exact x
  have m8 : S8.meta = R7.1.meta := by
    have x := congrArg Store.meta e8s
    exact x
  have tpT : T.templates.isEmpty = false := migrateTemplatesIfNeeded_templates_ne st
  have tpC : C.templates = T.templates := rfl
  have tp3 : R3.1.templates = C.templates := by
    have x := congrArg Store.templates e3.1
    exact x
  have tp4 : S4.templates = R3.1.templates := rfl
  have tp5 : R5.1.templates = S4.templates := by
    have x := congrArg Store.templates e5.1
    exact x
  have tp6 : S6.templates = R5.1.templates := by
    have x := congrArg Store.templates e6s
    exact x
  have tp7 : R7.1.templates = S6.templates := by
    have x := congrArg Store.templates e7s
    exact x
  have tp8 : S8.templates = R7.1.templates := by
    have x := congrArg Store.templates e8s
    exact x
  have tp9 : R9.1.templates = S8.templates := by
    have x := congrArg Store.templates e9s
    exact x
  have hTf : R9.1.templates.isEmpty = false := by
    rw [tp9, tp8, tp7, tp6, tp5, tp4, tp3, tpC]
    exact tpT
  have lc3 : R3.1.lrCols = C.lrCols := by
    have x := congrArg Store.lrCols e3.1
    exact x
  have lc4 : S4.lrCols = R3.1.lrCols := rfl
  have lc5 : R5.1.lrCols = S4.lrCols := by
    have x := congrArg Store.lrCols e5.1
    exact x
  have lc6 : S6.lrCols = R5.1.lrCols := by
    have x := congrArg Store.lrCols e6s
    exact x
  have lc7 : R7.1.lrCols = S6.lrCols := by
    have x := congrArg Store.lrCols e7s
    exact x
  have lc8 : S8.lrCols = R7.1.lrCols := by
    have x := congrArg Store.lrCols e8s
    exact x
  have lc9 : R9.1.lrCols = S8.lrCols := by
    have x := congrArg Store.lrCols e9s
    exact x
  have hCf : R9.1.lrCols = ⟨true, true, true, true⟩ := by
    rw [lc9, lc8, lc7, lc6, lc5, lc4, lc3]
    rfl
  have pc5 : R5.1.plCols = S4.plCols := by
    have x := congrArg Store.plCols e5.1
    exact x
  have pc6 : S6.plCols = R5.1.plCols := by
    have x := congrArg Store.plCols e6s
    exact x
  have pc7 : R7.1.plCols = S6.plCols := by
    have x := congrArg Store.plCols e7s
    exact x
  have pc8 : S8.plCols = R7.1.plCols := by
    have x := congrArg Store.plCols e8s
    exact x
  have pc9 : R9.1.plCols = S8.plCols := by
    have x := congrArg Store.plCols e9s
    exact x
  have hPf : R9.1.plCols = ⟨true, true⟩ := by
    rw [pc9, pc8, pc7, pc6, pc5]
    rfl
  have lp6 : S6.legacyPages = R5.1.legacyPages := by
    have x := congrArg Store.legacyPages e6s
    exact x
  have lp7 : R7.1.legacyPages = S6.legacyPages := by
    have x := congrArg Store.legacyPages e7s
    exact x
  have lp8 : S8.legacyPages = R7.1.legacyPages := by
    have x := congrArg Store.legacyPages e8s
    exact x
  have lp9 : R9.1.legacyPages = S8.legacyPages := by
    have x := congrArg Store.legacyPages e9s
    exact x
  have hLPf : R9.1.legacyPages = none := by
    rw [lp9, lp8, lp7, lp6]
    exact e5.2
  have la8 : S8.legacyAssets = R7.1.legacyAssets := by
    have x := congrArg Store.legacyAssets e8s
    exact x
  have la9 : R9.1.legacyAssets = S8.legacyAssets := by
    have x := congrArg Store.legacyAssets e9s
    exact x
  have mld : getEntry R9.1.meta "learningData" = getEntry R3.1.meta "learningData" := by
    rw [e9p.2.2.2.2 "learningData" (by decide) (by decide) (by decide) (by decide)
        (by decide),
      m8, e7mo "learningData" (by decide), e6m,
      getEntry_delAll_other _ _ _ (by decide), m5, m4]
  have hLDf : ∀ fs, getMetaVal R9.1 "learningData" = some (vobj fs) → fs = [] := by
    intro fs hfs
    apply e3.2.2 fs
    show getEntry R3.1.meta "learningData" = some (vobj fs)
    rw [← mld]
    exact hfs
  have hResf : getMetaVal R9.1 "resources" = none := by
    show getEntry R9.1.meta "resources" = none
    rw [e9p.2.2.2.2 "resources" (by decide) (by decide) (by decide) (by decide)
        (by decide),
      m8, e7mo "resources" (by decide)]
    exact e6p
  have mproj6 : getEntry S6.meta "project" = getEntry st.meta "project" := by
    rw [e6m, getEntry_delAll_other _ _ _ (by decide), m5, m4,
      e3.2.1 "project" (by decide), mC, mT]
  have hwf6 : ∀ fs, getMetaVal S6 "project" = some (vobj fs) →
      (fs.map Prod.fst).Nodup := by
    intro fs hfs
    apply hwf fs
    show getEntry st.meta "project" = some (vobj fs)
    rw [← mproj6]
    exact hfs
  have e7p := migrateProjectReferences_post S6 hwf6 h7
  rw [← hR7def] at e7p
  have mproj9 : getEntry R9.1.meta "project" = getEntry R7.1.meta "project" := by
    rw [e9p.2.2.2.2 "project" (by decide) (by decide) (by decide) (by decide)
        (by decide), m8]
  have hBibf : ∀ fs xs, getMetaVal R9.1 "project" = some (vobj fs) →
      getEntry fs "bib" ≠ some (varr xs) := by
    intro fs xs hfs
    apply e7p fs xs
    show getEntry R7.1.meta "project" = some (vobj fs)
    rw [← mproj9]
    exact hfs
  have hscope9 : ∀ b, scopeRows R9.1 b = scopeRows S8 b := by
    intro b
    cases b
    · show R9.1.resourceFiles = S8.resourceFiles
      have x := congrArg Store.resourceFiles e9s
      exact x
    · show R9.1.attachments = S8.attachments
      have x := congrArg Store.attachments e9s
      exact x
  have hLAf : ∀ rows, R9.1.legacyAssets = some rows → ∀ r ∈ rows, ∀ b,
      assetScopeTable r.scope = some b →
      (findByKey (fun a : AssetRow => a.id) r.id (scopeRows R9.1 b)).isSome = true := by
    intro rows hrows r hr b hSb
    rw [hscope9 b]
    refine e8p rows ?_ r hr b hSb
    rw [← la8, ← la9]
    exact hrows
  have hSecf : ∃ fs, getMetaVal R9.1 projectSecurityMetaKey = some (vobj fs) := e9p.1
  have hK1f : getEntry R9.1.meta "latexTemplate" = none := e9p.2.1
  have hK2f : getEntry R9.1.meta "markdownTemplate" = none := e9p.2.2.1
  have hK3f : getEntry R9.1.meta "template" = none := e9p.2.2.2.1
  rw [hst1]
  exact ensureSchema_noop R9.1 now2 fL2 fP2 hTf hCf hPf hLDf hLPf hResf hBibf hLAf
    hSecf hK1f hK2f hK3f

/-- C7 witness: on the empty store the first ensure/migrate run succeeds and
the second run is exactly a no-op. -/
theorem ensure_schema_idempotent_witness :
    ensureSchema ((ensureSchema Store.empty 1 c7f c7f).1) 2 c7f c7f
      = ((ensureSchema Store.empty 1 c7f c7f).1, true) :=
  ensure_schema_idempotent Store.empty 1 2 c7f c7f c7f c7f
    (fun fs hfs => Option.noConfusion hfs) rfl

end Benort
